import Mathlib

/-!
# The feed-post decoder of `internal/model/sns.go`

A shallow embedding of the decoder for moments ("SNS") payloads and the
properties of it that the specification states.

Conventions of the embedding

* A Go `string` is the list of its Unicode code points (`GoString`); payloads
  are UTF-8 text.  Every pattern of `sns.go` is built from ASCII literals,
  negated one-character classes and `.`, so matching code point by code point
  is what package `regexp` does on such text.
* `int` and `int64` are 64 bits wide; integers are `Int`, with the clamping of
  package `strconv` written out.
* `float64` is a type parameter `F`; `strconv.ParseFloat`, the `%.2f` verb of
  `fmt` and the local-time formatting of package `time` are the fields of a
  `Lib F` record that the decoder receives.  The facts of these functions that
  a property of the duration relies on are the fields of `FloatFacts`, and
  `sampleLib` is a record that has them.
* A pointer that may be `nil` is an `Option`; a `nil` slice is `[]`.
* `ToJSON` is modelled up to the JSON document that `json.MarshalIndent`
  prints (keys and values under the field tags), not its text; what
  `encoding/json` asks of a `float64` is a `JSONLib F` record.
-/

namespace SNS

/-- A Go string, as the list of its code points. -/
abbrev GoString := List Char

/-- The double quote character. -/
def dq : Char := Char.ofNat 34

/-- The line feed character. -/
def lf : Char := Char.ofNat 10

/-! ## Package `regexp`: the fragment of the syntax that `sns.go` uses -/

/-- A one-character matcher: a literal, a negated one-character class such as
`[^<]`, or `.` (every character but the line feed, no `s` flag being set). -/
inductive Atom where
  | chr (c : Char)
  | notChr (c : Char)
  | dot
  deriving DecidableEq, Repr

/-- Whether the atom accepts the character. -/
def Atom.accepts : Atom → Char → Bool
  | .chr c, x => x == c
  | .notChr c, x => x != c
  | .dot, x => x != lf

/-- One item of a pattern: a single atom, a greedy star `a*` or a lazy star
`a*?`.  The flag of a star says whether it is the content of the (only)
capture group of the pattern. -/
inductive Node where
  | one (a : Atom)
  | star (a : Atom) (cap : Bool)
  | lazyStar (a : Atom) (cap : Bool)
  deriving DecidableEq, Repr

/-- A compiled pattern: the sequence of its items. -/
abbrev Regexp := List Node

/-- The pattern of a literal text. -/
def lit (w : GoString) : Regexp := w.map fun c => Node.one (Atom.chr c)

/-- Greedy star followed by the rest of the pattern `k`: take one more
character when possible, and fall back to the rest of the pattern when that
fails.  The result is the captured text and the input left. -/
def starGreedy (acc : Char → Bool) (cap : Bool)
    (k : GoString → Option (GoString × GoString)) :
    GoString → Option (GoString × GoString)
  | [] => k []
  | c :: s =>
    if acc c then
      match starGreedy acc cap k s with
      | some (g, r) => some (if cap then c :: g else g, r)
      | none => k (c :: s)
    else k (c :: s)

/-- Lazy star followed by the rest of the pattern `k`: try the rest of the
pattern first, and take one more character only when that fails. -/
def starLazy (acc : Char → Bool) (cap : Bool)
    (k : GoString → Option (GoString × GoString)) :
    GoString → Option (GoString × GoString)
  | [] => k []
  | c :: s =>
    match k (c :: s) with
    | some r => some r
    | none =>
      if acc c then
        match starLazy acc cap k s with
        | some (g, r) => some (if cap then c :: g else g, r)
        | none => none
      else none

/-- The match a backtracking search finds first when the pattern is anchored
at the head of the input (leftmost-first semantics of package `regexp`):
the text of the capture group and the input after the match. -/
def matchHere : Regexp → GoString → Option (GoString × GoString)
  | [] => fun s => some ([], s)
  | .one a :: p => fun s =>
    match s with
    | [] => none
    | c :: s => if a.accepts c then matchHere p s else none
  | .star a cap :: p => starGreedy a.accepts cap (matchHere p)
  | .lazyStar a cap :: p => starLazy a.accepts cap (matchHere p)

/-- The leftmost match: the matched text, the capture group and the input
after the match. -/
def search (re : Regexp) : GoString → Option (GoString × GoString × GoString)
  | [] => (matchHere re []).map fun gr => ([], gr.1, gr.2)
  | c :: s =>
    match matchHere re (c :: s) with
    | some (g, r) => some ((c :: s).take ((c :: s).length - r.length), g, r)
    | none => search re s

/-- The method `(*Regexp).FindStringSubmatch`: the slice holding the leftmost
match and its capture group, `nil` when the pattern does not match. -/
def FindStringSubmatch (re : Regexp) (s : GoString) : List GoString :=
  match search re s with
  | some (w, g, _) => [w, g]
  | none => []

/-- Successive non-overlapping matches, each search starting where the match
before it ended. -/
def findAllAux (re : Regexp) : Nat → GoString → List (List GoString)
  | 0, _ => []
  | n + 1, s =>
    match search re s with
    | some (w, g, r) => [w, g] :: findAllAux re n r
    | none => []

/-- The method `(*Regexp).FindAllStringSubmatch(s, -1)` for a pattern that
matches no empty text (the only such call of `sns.go` is on
`<media>(.*?)</media>`): every match consumes a character, so the length of
the input bounds the number of matches. -/
def FindAllStringSubmatch (re : Regexp) (s : GoString) : List (List GoString) :=
  findAllAux re (s.length + 1) s

/-! ## Packages `strings`, `unicode` and `strconv` -/

/-- The predicate `unicode.IsSpace`. -/
def isSpace (c : Char) : Bool :=
  let n := c.toNat
  (9 ≤ n && n ≤ 13) || n == 32 || n == 0x85 || n == 0xA0 || n == 0x1680 ||
  (0x2000 ≤ n && n ≤ 0x200A) || n == 0x2028 || n == 0x2029 || n == 0x202F ||
  n == 0x205F || n == 0x3000

/-- The function `strings.TrimSpace`: the text without its leading and
trailing white space. -/
def TrimSpace (s : GoString) : GoString :=
  ((s.dropWhile isSpace).reverse.dropWhile isSpace).reverse

/-- The two error kinds of package `strconv`. -/
inductive NumError where
  | ErrSyntax
  | ErrRange
  deriving DecidableEq, Repr

/-- The loop of `strconv.ParseUint(s, 10, 64)` with `n` read so far: a
character that is no decimal digit is a syntax error, and the loop stops with
a range error as soon as the value leaves 64 bits. -/
def parseUintLoop : GoString → Nat → Nat × Option NumError
  | [], n => (n, none)
  | c :: s, n =>
    if 48 ≤ c.toNat ∧ c.toNat ≤ 57 then
      if n ≥ (2 ^ 64 - 1) / 10 + 1 then (2 ^ 64 - 1, some .ErrRange)
      else
        let n1 := n * 10 + (c.toNat - 48)
        if n1 > 2 ^ 64 - 1 then (2 ^ 64 - 1, some .ErrRange) else parseUintLoop s n1
    else (0, some .ErrSyntax)

/-- The function `strconv.ParseUint(s, 10, 64)`. -/
def ParseUint (s : GoString) : Nat × Option NumError :=
  if s = [] then (0, some .ErrSyntax) else parseUintLoop s 0

/-- The function `strconv.ParseInt(s, 10, 64)`: an optional sign and decimal
digits; a value out of range is clamped and reported as `ErrRange`. -/
def ParseInt (s : GoString) : Int × Option NumError :=
  match s with
  | [] => (0, some .ErrSyntax)
  | c :: t =>
    let neg := c == '-'
    let body := if c == '+' || c == '-' then t else c :: t
    match ParseUint body with
    | (_, some .ErrSyntax) => (0, some .ErrSyntax)
    | (un, _) =>
      if !neg && un ≥ 2 ^ 63 then (2 ^ 63 - 1, some .ErrRange)
      else if neg && un > 2 ^ 63 then (-(2 ^ 63), some .ErrRange)
      else (if neg then -(un : Int) else (un : Int), none)

/-- The function `strconv.Atoi` where `int` is 64 bits wide. -/
def Atoi (s : GoString) : Int × Option NumError := ParseInt s

/-- The decimal digits of a natural number, the most significant first. -/
def natDigits : Nat → Nat → GoString → GoString
  | 0, _, acc => acc
  | fuel + 1, n, acc =>
    let acc := Char.ofNat (48 + n % 10) :: acc
    if n / 10 = 0 then acc else natDigits fuel (n / 10) acc

/-- The verb `%d` of package `fmt` on an integer. -/
def formatInt (i : Int) : GoString :=
  if i < 0 then '-' :: natDigits (i.natAbs + 1) i.natAbs []
  else natDigits (i.natAbs + 1) i.natAbs []

/-- The library functions that depend on `float64` or on the local time zone.
`parseFloat` is `strconv.ParseFloat(s, 64)`: the value and the error (`none`
for `nil`); `formatFloat2` is `fmt.Sprintf("%.2f", d)`; `formatTime t` is
`time.Unix(t, 0).Format("2006-01-02 15:04:05")`, a text that holds at least
the separators of the layout whatever the instant and the zone. -/
structure Lib (F : Type) where
  zero : F
  parseFloat : GoString → F × Option NumError
  formatFloat2 : F → GoString
  formatTime : Int → GoString
  formatTime_ne_nil : ∀ t, formatTime t ≠ []

/-! ## The records of `sns.go` -/

/-- The record `SNSLocation`. -/
structure SNSLocation (F : Type) where
  City : GoString
  Latitude : F
  Longitude : F
  POIName : GoString
  POIAddress : GoString

/-- The record `SNSMedia`; `MediaType` is the field `Type` of the source. -/
structure SNSMedia where
  MediaType : GoString
  URL : GoString
  ThumbURL : GoString
  Width : Int
  Height : Int
  Duration : GoString
  deriving DecidableEq, Repr

/-- The record `SNSArticle`. -/
structure SNSArticle where
  Title : GoString
  Description : GoString
  URL : GoString
  CoverURL : GoString
  deriving DecidableEq, Repr

/-- The record `SNSFinderFeed`. -/
structure SNSFinderFeed where
  Nickname : GoString
  Avatar : GoString
  Desc : GoString
  MediaCount : Int
  VideoURL : GoString
  CoverURL : GoString
  ThumbURL : GoString
  Width : Int
  Height : Int
  Duration : GoString
  deriving DecidableEq, Repr

/-- The record `SNSPost`. -/
structure SNSPost (F : Type) where
  TID : Int
  UserName : GoString
  NickName : GoString
  CreateTime : Int
  CreateTimeStr : GoString
  ContentDesc : GoString
  ContentType : GoString
  Location : Option (SNSLocation F)
  MediaList : List SNSMedia
  Article : Option SNSArticle
  FinderFeed : Option SNSFinderFeed
  XMLContent : GoString

/-- A Go `error` value. -/
abbrev GoError := GoString

/-! ## The patterns of `sns.go`

Tag and attribute names are spliced into the patterns as they are; every call
of `sns.go` passes an alphanumeric name, which stands for itself. -/

/-- The seconds marker of the duration texts. -/
def secondsMark : GoString := "秒".toList

/-- The pattern `<tag>([^<]*)</tag>`. -/
def plainTagRe (tag : GoString) : Regexp :=
  lit ("<".toList ++ tag ++ ">".toList) ++ [Node.star (Atom.notChr '<') true] ++
    lit ("</".toList ++ tag ++ ">".toList)

/-- The pattern `<tag[^>]*>([^<]*)</tag>`. -/
def attrTagRe (tag : GoString) : Regexp :=
  lit ("<".toList ++ tag) ++ [Node.star (Atom.notChr '>') false] ++ lit ">".toList ++
    [Node.star (Atom.notChr '<') true] ++ lit ("</".toList ++ tag ++ ">".toList)

/-- The pattern `<tag[^>]*attr="([^"]*)"`. -/
def tagAttrRe (tag attr : GoString) : Regexp :=
  lit ("<".toList ++ tag) ++ [Node.star (Atom.notChr '>') false] ++
    lit (attr ++ "=".toList ++ [dq]) ++ [Node.star (Atom.notChr dq) true] ++ lit [dq]

/-- The pattern `<location[^>]*>([^<]*)</location>`. -/
def locationRe : Regexp := attrTagRe "location".toList

/-- The pattern `<media>(.*?)</media>`. -/
def mediaRe : Regexp :=
  lit "<media>".toList ++ [Node.lazyStar Atom.dot true] ++ lit "</media>".toList

/-- The pattern `<finderFeed>(.*?)</finderFeed>`. -/
def finderFeedRe : Regexp :=
  lit "<finderFeed>".toList ++ [Node.lazyStar Atom.dot true] ++ lit "</finderFeed>".toList

/-! ## The functions of `sns.go` -/

/-- The function `extractXMLTag`. -/
def extractXMLTag (xml tag : GoString) : GoString :=
  let re := plainTagRe tag
  let found := FindStringSubmatch re xml
  if found.length > 1 then TrimSpace (found.getD 1 [])
  else
    let re := attrTagRe tag
    let found := FindStringSubmatch re xml
    if found.length > 1 then TrimSpace (found.getD 1 [])
    else []

/-- The function `extractXMLTagAttr`. -/
def extractXMLTagAttr (xml tag attr : GoString) : GoString :=
  let re := tagAttrRe tag attr
  let found := FindStringSubmatch re xml
  if found.length > 1 then found.getD 1 [] else []

/-- The function `parseSNSContentType`. -/
def parseSNSContentType (typeStr : GoString) : GoString :=
  if typeStr = "1".toList then "image".toList
  else if typeStr = "6".toList then "video".toList
  else if typeStr = "3".toList then "article".toList
  else if typeStr = "15".toList then "video".toList
  else if typeStr = "28".toList then "finder".toList
  else if typeStr = "7".toList then "image".toList
  else "text".toList

/-- The function `xmlContentLocation`. -/
def xmlContentLocation (xml : GoString) : GoString :=
  let found := FindStringSubmatch locationRe xml
  if found.length > 1 then found.getD 1 [] else []

/-- The city that `parseSNSLocation` decodes: the attribute, then the nested
tag of the location block. -/
def locationCity (xml : GoString) : GoString :=
  let city := extractXMLTagAttr xml "location".toList "city".toList
  if city = [] then extractXMLTag (xmlContentLocation xml) "city".toList else city

/-- The function `parseSNSLocation`. -/
def parseSNSLocation {F : Type} (L : Lib F) (xml : GoString) : Option (SNSLocation F) :=
  let loc : SNSLocation F :=
    { City := [], Latitude := L.zero, Longitude := L.zero, POIName := [], POIAddress := [] }
  let loc := { loc with City := locationCity xml }
  let lat := extractXMLTagAttr xml "location".toList "latitude".toList
  let loc := if lat ≠ [] then { loc with Latitude := (L.parseFloat lat).1 } else loc
  let lon := extractXMLTagAttr xml "location".toList "longitude".toList
  let loc := if lon ≠ [] then { loc with Longitude := (L.parseFloat lon).1 } else loc
  let loc := { loc with POIName := extractXMLTagAttr xml "location".toList "poiName".toList }
  let loc := { loc with POIAddress := extractXMLTagAttr xml "location".toList "poiAddress".toList }
  if loc.City = [] ∧ loc.POIName = [] then none else some loc

/-- The zero value of `SNSMedia` with the given `Type`. -/
def newMedia (ty : GoString) : SNSMedia :=
  { MediaType := ty, URL := [], ThumbURL := [], Width := 0, Height := 0, Duration := [] }

/-- The width and height assignments shared by the two media loops. -/
def withSize (media : SNSMedia) (mediaXML : GoString) : SNSMedia :=
  let width := extractXMLTagAttr mediaXML "size".toList "width".toList
  let height := extractXMLTagAttr mediaXML "size".toList "height".toList
  let media := if width ≠ [] then { media with Width := (Atoi width).1 } else media
  if height ≠ [] then { media with Height := (Atoi height).1 } else media

/-- The body of the loop of `parseSNSImageMedia` on the text of one block. -/
def imageMedia (mediaXML : GoString) : SNSMedia :=
  let media := newMedia "image".toList
  let urlTag := extractXMLTag mediaXML "url".toList
  let urlTag := if urlTag = [] then extractXMLTag mediaXML "thumb".toList else urlTag
  let media := { media with URL := urlTag }
  withSize media mediaXML

/-- The function `parseSNSImageMedia`. -/
def parseSNSImageMedia (xml : GoString) : List SNSMedia :=
  (FindAllStringSubmatch mediaRe xml).foldl
    (fun mediaList found =>
      if found.length > 1 then mediaList ++ [imageMedia (found.getD 1 [])] else mediaList) []

/-- The body of the loop of `parseSNSVideoMedia` on the text of one block. -/
def videoMedia {F : Type} (L : Lib F) (mediaXML : GoString) : SNSMedia :=
  let media := newMedia "video".toList
  let media := { media with URL := extractXMLTag mediaXML "url".toList }
  let media := { media with ThumbURL := extractXMLTag mediaXML "thumb".toList }
  let media := withSize media mediaXML
  let duration := extractXMLTag mediaXML "videoDuration".toList
  if duration ≠ [] then
    match L.parseFloat duration with
    | (d, none) => { media with Duration := L.formatFloat2 d ++ secondsMark }
    | (_, some _) => media
  else media

/-- The function `parseSNSVideoMedia`. -/
def parseSNSVideoMedia {F : Type} (L : Lib F) (xml : GoString) : List SNSMedia :=
  (FindAllStringSubmatch mediaRe xml).foldl
    (fun mediaList found =>
      if found.length > 1 then mediaList ++ [videoMedia L (found.getD 1 [])] else mediaList) []

/-- The function `parseSNSArticle`. -/
def parseSNSArticle (xml : GoString) : Option SNSArticle :=
  let article : SNSArticle := { Title := [], Description := [], URL := [], CoverURL := [] }
  let article : SNSArticle := { article with Title := extractXMLTag xml "title".toList }
  let article : SNSArticle :=
    { article with Description := extractXMLTag xml "description".toList }
  let article : SNSArticle := { article with URL := extractXMLTag xml "contentUrl".toList }
  let found := FindStringSubmatch mediaRe xml
  let article : SNSArticle :=
    if found.length > 1 then
      let mediaXML := found.getD 1 []
      let article : SNSArticle :=
        { article with CoverURL := extractXMLTag mediaXML "thumb".toList }
      if article.CoverURL = [] then
        { article with CoverURL := extractXMLTag mediaXML "url".toList }
      else article
    else article
  if article.Title = [] ∧ article.URL = [] then none else some article

/-- The block of `parseSNSFinderFeed` that reads the first nested media. -/
def finderMedia (feed : SNSFinderFeed) (mediaXML : GoString) : SNSFinderFeed :=
  let feed := { feed with VideoURL := extractXMLTag mediaXML "url".toList }
  let feed := { feed with ThumbURL := extractXMLTag mediaXML "thumbUrl".toList }
  let feed := { feed with CoverURL := extractXMLTag mediaXML "coverUrl".toList }
  let width := extractXMLTagAttr mediaXML "size".toList "width".toList
  let height := extractXMLTagAttr mediaXML "size".toList "height".toList
  let feed :=
    if width ≠ [] then
      match Atoi width with
      | (w, none) => { feed with Width := w }
      | (_, some _) => feed
    else feed
  let feed :=
    if height ≠ [] then
      match Atoi height with
      | (h, none) => { feed with Height := h }
      | (_, some _) => feed
    else feed
  let duration := extractXMLTag mediaXML "videoPlayDuration".toList
  if duration ≠ [] then
    match ParseInt duration with
    | (d, none) => { feed with Duration := formatInt (Int.tdiv d 10) ++ secondsMark }
    | (_, some _) => feed
  else feed

/-- The function `parseSNSFinderFeed`. -/
def parseSNSFinderFeed (xml : GoString) : Option SNSFinderFeed :=
  let feed : SNSFinderFeed :=
    { Nickname := [], Avatar := [], Desc := [], MediaCount := 0, VideoURL := [],
      CoverURL := [], ThumbURL := [], Width := 0, Height := 0, Duration := [] }
  let found := FindStringSubmatch finderFeedRe xml
  if found.length ≤ 1 then none
  else
    let feedXML := found.getD 1 []
    let feed := { feed with Nickname := extractXMLTag feedXML "nickname".toList }
    let feed := { feed with Avatar := extractXMLTag feedXML "avatar".toList }
    let feed := { feed with Desc := extractXMLTag feedXML "desc".toList }
    let mediaCount := extractXMLTag feedXML "mediaCount".toList
    let feed :=
      if mediaCount ≠ [] then { feed with MediaCount := (Atoi mediaCount).1 } else feed
    let mediaMatches := FindStringSubmatch mediaRe feedXML
    let feed :=
      if mediaMatches.length > 1 then finderMedia feed (mediaMatches.getD 1 []) else feed
    if feed.Nickname = [] then none else some feed

/-- The function `ParseSNSContent`: the post and the error. -/
def ParseSNSContent {F : Type} (L : Lib F) (xmlContent : GoString) :
    Option (SNSPost F) × Option GoError :=
  let post : SNSPost F :=
    { TID := 0, UserName := [], NickName := [], CreateTime := 0, CreateTimeStr := [],
      ContentDesc := [], ContentType := [], Location := none, MediaList := [],
      Article := none, FinderFeed := none, XMLContent := xmlContent }
  let createTime := extractXMLTag xmlContent "createTime".toList
  let post :=
    if createTime ≠ [] then
      let post := { post with CreateTime := (ParseInt createTime).1 }
      { post with CreateTimeStr := L.formatTime post.CreateTime }
    else post
  let post := { post with UserName := extractXMLTag xmlContent "username".toList }
  let post := { post with NickName := extractXMLTag xmlContent "nickname".toList }
  let post := { post with ContentDesc := extractXMLTag xmlContent "contentDesc".toList }
  let post := { post with Location := parseSNSLocation L xmlContent }
  let contentType := extractXMLTag xmlContent "type".toList
  let post := { post with ContentType := parseSNSContentType contentType }
  let post :=
    if post.ContentType = "image".toList then
      { post with MediaList := parseSNSImageMedia xmlContent }
    else if post.ContentType = "video".toList then
      { post with MediaList := parseSNSVideoMedia L xmlContent }
    else if post.ContentType = "article".toList then
      { post with Article := parseSNSArticle xmlContent }
    else if post.ContentType = "finder".toList then
      { post with FinderFeed := parseSNSFinderFeed xmlContent }
    else post
  (some post, none)

/-- The block of `FormatAsText` that writes the location line of a post with
a location; `sb` is the text in the string builder. -/
def writeLocation {F : Type} (sb : GoString) (loc : SNSLocation F) : GoString :=
  let sb := sb ++ "📍 ".toList
  let sb :=
    if loc.POIName ≠ [] then
      let sb := sb ++ loc.POIName
      if loc.POIAddress ≠ [] then sb ++ (" (".toList ++ loc.POIAddress ++ ")".toList) else sb
    else if loc.City ≠ [] then sb ++ loc.City
    else sb
  sb ++ "\n".toList

/-- The `switch` of `FormatAsText` on the category. -/
def writeCategory {F : Type} (sb : GoString) (p : SNSPost F) : GoString :=
  if p.ContentType = "image".toList then
    sb ++ ("🖼️ 图片 (".toList ++ formatInt p.MediaList.length ++ "张)\n".toList)
  else if p.ContentType = "video".toList then
    match p.MediaList with
    | m :: _ =>
      if m.Duration ≠ [] then sb ++ ("🎬 视频 (".toList ++ m.Duration ++ ")\n".toList)
      else sb ++ "🎬 视频\n".toList
    | [] => sb ++ "🎬 视频\n".toList
  else if p.ContentType = "article".toList then
    match p.Article with
    | some article =>
      let sb := sb ++ ("📰 文章: ".toList ++ article.Title ++ "\n".toList)
      sb ++ ("   ".toList ++ article.URL ++ "\n".toList)
    | none => sb
  else if p.ContentType = "finder".toList then
    match p.FinderFeed with
    | some feed =>
      let sb := sb ++ ("📺 视频号: ".toList ++ feed.Nickname ++ "\n".toList)
      if feed.Desc ≠ [] then sb ++ ("   ".toList ++ feed.Desc ++ "\n".toList) else sb
    | none => sb
  else sb

/-- The method `FormatAsText`; `sb` is the text in the string builder. -/
def FormatAsText {F : Type} (p : SNSPost F) : GoString :=
  let sb : GoString := []
  let sb := sb ++ ("📅 ".toList ++ p.CreateTimeStr ++ "\n".toList)
  let sb := if p.NickName ≠ [] then sb ++ ("👤 ".toList ++ p.NickName ++ "\n".toList) else sb
  let sb :=
    if p.ContentDesc ≠ [] then sb ++ ("💬 ".toList ++ p.ContentDesc ++ "\n".toList) else sb
  let sb :=
    match p.Location with
    | some loc => writeLocation sb loc
    | none => sb
  writeCategory sb p

/-! ## Package `encoding/json`

`ToJSON` is modelled up to the rendering of the text: its result is the JSON
document that `json.MarshalIndent` prints, the members of an object in the
order of the fields of the record, under the keys of the field tags. -/

/-- A JSON document. -/
inductive JValue (F : Type) where
  | str (s : GoString)
  | int (i : Int)
  | float (f : F)
  | obj (members : List (GoString × JValue F))
  | arr (items : List (JValue F))

/-- What `encoding/json` asks of a `float64`: whether it is zero (the test of
`omitempty`) and whether it has an encoding (NaN and the infinities have
none, and `Marshal` then returns an `UnsupportedValueError`). -/
structure JSONLib (F : Type) where
  floatIsZero : F → Bool
  floatSupported : F → Bool

/-- The member of a field: left out when the tag says `omitempty` and the
value is empty. -/
def member {F : Type} (key : GoString) (omitempty empty : Bool) (v : JValue F) :
    List (GoString × JValue F) :=
  if omitempty && empty then [] else [(key, v)]

/-- The keys of the members of an object. -/
def topKeys {F : Type} : JValue F → List GoString
  | .obj members => members.map Prod.fst
  | _ => []

/-- The document of an `SNSLocation`, `none` when a coordinate that is
written has no encoding. -/
def marshalLocation {F : Type} (J : JSONLib F) (loc : SNSLocation F) : Option (JValue F) :=
  if (!J.floatIsZero loc.Latitude && !J.floatSupported loc.Latitude) ||
      (!J.floatIsZero loc.Longitude && !J.floatSupported loc.Longitude) then none
  else
    some (.obj
      (member "city".toList true (loc.City == []) (.str loc.City) ++
       member "latitude".toList true (J.floatIsZero loc.Latitude) (.float loc.Latitude) ++
       member "longitude".toList true (J.floatIsZero loc.Longitude) (.float loc.Longitude) ++
       member "poi_name".toList true (loc.POIName == []) (.str loc.POIName) ++
       member "poi_address".toList true (loc.POIAddress == []) (.str loc.POIAddress)))

/-- The document of an `SNSMedia`. -/
def marshalMedia {F : Type} (m : SNSMedia) : JValue F :=
  .obj
    (member "type".toList false false (.str m.MediaType) ++
     member "url".toList true (m.URL == []) (.str m.URL) ++
     member "thumb_url".toList true (m.ThumbURL == []) (.str m.ThumbURL) ++
     member "width".toList true (m.Width == 0) (.int m.Width) ++
     member "height".toList true (m.Height == 0) (.int m.Height) ++
     member "duration".toList true (m.Duration == []) (.str m.Duration))

/-- The document of an `SNSArticle`. -/
def marshalArticle {F : Type} (a : SNSArticle) : JValue F :=
  .obj
    (member "title".toList false false (.str a.Title) ++
     member "description".toList false false (.str a.Description) ++
     member "url".toList false false (.str a.URL) ++
     member "cover_url".toList false false (.str a.CoverURL))

/-- The document of an `SNSFinderFeed`. -/
def marshalFinderFeed {F : Type} (f : SNSFinderFeed) : JValue F :=
  .obj
    (member "nickname".toList false false (.str f.Nickname) ++
     member "avatar".toList false false (.str f.Avatar) ++
     member "desc".toList false false (.str f.Desc) ++
     member "media_count".toList false false (.int f.MediaCount) ++
     member "video_url".toList false false (.str f.VideoURL) ++
     member "cover_url".toList false false (.str f.CoverURL) ++
     member "thumb_url".toList false false (.str f.ThumbURL) ++
     member "width".toList true (f.Width == 0) (.int f.Width) ++
     member "height".toList true (f.Height == 0) (.int f.Height) ++
     member "duration".toList true (f.Duration == []) (.str f.Duration))

/-- The members that the optional location adds: none for a `nil` pointer;
the outer `none` says that the location has no encoding. -/
def locationMember {F : Type} (J : JSONLib F) :
    Option (SNSLocation F) → Option (List (GoString × JValue F))
  | none => some []
  | some loc => (marshalLocation J loc).map fun v => [("location".toList, v)]

/-- The document of an `SNSPost` under its field tags, `none` when
`json.Marshal` returns an error. -/
def marshalPost {F : Type} (J : JSONLib F) (p : SNSPost F) : Option (JValue F) :=
  match locationMember J p.Location with
  | none => none
  | some location =>
    some (.obj
      (member "tid".toList false false (.int p.TID) ++
       member "user_name".toList false false (.str p.UserName) ++
       member "nickname".toList false false (.str p.NickName) ++
       member "create_time".toList false false (.int p.CreateTime) ++
       member "create_time_str".toList false false (.str p.CreateTimeStr) ++
       member "content_desc".toList false false (.str p.ContentDesc) ++
       member "content_type".toList false false (.str p.ContentType) ++
       location ++
       member "media_list".toList true (p.MediaList.length == 0)
         (.arr (p.MediaList.map marshalMedia)) ++
       (match p.Article with
        | none => []
        | some a => [("article".toList, marshalArticle a)]) ++
       (match p.FinderFeed with
        | none => []
        | some f => [("finder_feed".toList, marshalFinderFeed f)]) ++
       member "xml_content".toList true (p.XMLContent == []) (.str p.XMLContent)))

/-- The method `ToJSON`: the document of the text that it returns, and the
error; on an error of `json.MarshalIndent` no document. -/
def ToJSON {F : Type} (J : JSONLib F) (p : SNSPost F) : Option (JValue F) × Option GoError :=
  match marshalPost J p with
  | some doc => (some doc, none)
  | none => (none, some "json: unsupported value".toList)

/-- What a pattern matches, with no regard for priorities: `Matches p s g r`
says that `p` matches a head of `s`, its group capturing `g`, and leaves `r`. -/
def Matches : Regexp → GoString → GoString → GoString → Prop
  | [], s, g, r => g = [] ∧ r = s
  | .one a :: p, s, g, r => ∃ c s', s = c :: s' ∧ a.accepts c = true ∧ Matches p s' g r
  | .star a cap :: p, s, g, r =>
    ∃ X rest g', s = X ++ rest ∧ (∀ c ∈ X, a.accepts c = true) ∧ Matches p rest g' r ∧
      g = if cap then X ++ g' else g'
  | .lazyStar a cap :: p, s, g, r =>
    ∃ X rest g', s = X ++ rest ∧ (∀ c ∈ X, a.accepts c = true) ∧ Matches p rest g' r ∧
      g = if cap then X ++ g' else g'



/-! ## The words of the specification -/

/-- The five category texts. -/
def categories : List GoString :=
  ["image".toList, "video".toList, "article".toList, "finder".toList, "text".toList]

/-- A name made of letters and digits: it stands for itself in a pattern. -/
def alphanumeric (t : GoString) : Prop := t.all Char.isAlphanum = true

instance decidableAlphanumeric (t : GoString) : Decidable (alphanumeric t) :=
  inferInstanceAs (Decidable (t.all Char.isAlphanum = true))

/-- The plain opening tag `<t>`. -/
def openTag (t : GoString) : GoString := "<".toList ++ t ++ ">".toList

/-- The closing tag `</t>`. -/
def closeTag (t : GoString) : GoString := "</".toList ++ t ++ ">".toList

/-- The buffer reads `pre <t> inner </t> rest`, the inner text holding no `<`. -/
def PlainOcc (t xml pre inner rest : GoString) : Prop :=
  xml = pre ++ (openTag t ++ inner ++ closeTag t ++ rest) ∧ '<' ∉ inner

/-- The buffer reads `pre <t attrs> inner </t> rest`, the text `attrs` between
the name and the closing bracket holding no `>` and the inner text no `<`. -/
def AttrFormOcc (t xml pre attrs inner rest : GoString) : Prop :=
  xml = pre ++ ("<".toList ++ t ++ attrs ++ ">".toList ++ inner ++ closeTag t ++ rest) ∧
    '>' ∉ attrs ∧ '<' ∉ inner

/-- The buffer reads `pre <t X a="v" rest`, the text `X` between the name and
the attribute holding no `>` and the value `v` no double quote. -/
def AttrValueOcc (t a xml pre X v rest : GoString) : Prop :=
  xml = pre ++ ("<".toList ++ t ++ X ++ (a ++ "=".toList ++ [dq]) ++ v ++ [dq] ++ rest) ∧
    '>' ∉ X ∧ dq ∉ v

/-- The lines that `FormatAsText` always starts with: the time, then the
author and the caption when they are not empty. -/
def headerLines {F : Type} (p : SNSPost F) : GoString :=
  "📅 ".toList ++ p.CreateTimeStr ++ "\n".toList ++
    (if p.NickName ≠ [] then "👤 ".toList ++ p.NickName ++ "\n".toList else []) ++
    (if p.ContentDesc ≠ [] then "💬 ".toList ++ p.ContentDesc ++ "\n".toList else [])

/-- The location line of `FormatAsText`, empty when no line is written. -/
def locationLine {F : Type} (p : SNSPost F) : GoString :=
  match p.Location with
  | some loc =>
    "📍 ".toList ++
      (if loc.POIName ≠ [] then
        loc.POIName ++
          (if loc.POIAddress ≠ [] then " (".toList ++ loc.POIAddress ++ ")".toList else [])
       else if loc.City ≠ [] then loc.City
       else []) ++ "\n".toList
  | none => []

/-- The summary lines of the category in `FormatAsText`, empty when no line
is written. -/
def categoryLines {F : Type} (p : SNSPost F) : GoString :=
  if p.ContentType = "image".toList then
    "🖼️ 图片 (".toList ++ formatInt p.MediaList.length ++ "张)\n".toList
  else if p.ContentType = "video".toList then
    match p.MediaList with
    | m :: _ =>
      if m.Duration ≠ [] then "🎬 视频 (".toList ++ m.Duration ++ ")\n".toList
      else "🎬 视频\n".toList
    | [] => "🎬 视频\n".toList
  else if p.ContentType = "article".toList then
    match p.Article with
    | some article =>
      "📰 文章: ".toList ++ article.Title ++ "\n".toList ++
        ("   ".toList ++ article.URL ++ "\n".toList)
    | none => []
  else if p.ContentType = "finder".toList then
    match p.FinderFeed with
    | some feed =>
      "📺 视频号: ".toList ++ feed.Nickname ++ "\n".toList ++
        (if feed.Desc ≠ [] then "   ".toList ++ feed.Desc ++ "\n".toList else [])
    | none => []
  else []

/-- The keys of the serialized field table of a post. -/
def canonicalKeys : List GoString :=
  ["tid".toList, "user_name".toList, "nickname".toList, "create_time".toList,
   "create_time_str".toList, "content_desc".toList, "content_type".toList,
   "location".toList, "media_list".toList, "article".toList, "finder_feed".toList]

/-- The buffer reads `pre <finderFeed> inner </finderFeed> rest`, the inner
text holding no line feed. -/
def FinderFeedOcc (xml pre inner rest : GoString) : Prop :=
  xml = pre ++ ("<finderFeed>".toList ++ inner ++ "</finderFeed>".toList ++ rest) ∧ lf ∉ inner

/-- A library record on the one-point type, for evaluating the decoder on
payloads in which no coordinate and no duration is looked at; the time text
is the one of the epoch in UTC. -/
def unitLib : Lib Unit where
  zero := ()
  parseFloat := fun _ => ((), none)
  formatFloat2 := fun _ => "0.00".toList
  formatTime := fun _ => "1970-01-01 00:00:00".toList
  formatTime_ne_nil := fun _ => List.cons_ne_nil _ _

/-- The encoder record that goes with `unitLib`: the one value is zero. -/
def unitJSONLib : JSONLib Unit where
  floatIsZero := fun _ => true
  floatSupported := fun _ => true

/-- The post that `ParseSNSContent` builds from the payload `<type>1</type>`:
an `image` post with an empty media list. -/
def imagePostWithoutMedia : SNSPost Unit :=
  { TID := 0, UserName := [], NickName := [], CreateTime := 0, CreateTimeStr := [],
    ContentDesc := [], ContentType := "image".toList, Location := none, MediaList := [],
    Article := none, FinderFeed := none, XMLContent := "<type>1</type>".toList }

/-- One block: the opener, an inner text, the closer. -/
def mediaBlock (A : GoString) : GoString := "<media>".toList ++ A ++ "</media>".toList

/-- The buffer reads `pre <media> inner </media> rest`, the inner text holding
no line feed. -/
def MediaOcc (xml pre inner rest : GoString) : Prop :=
  xml = pre ++ ("<media>".toList ++ inner ++ "</media>".toList ++ rest) ∧ lf ∉ inner

/-- The finder feed block of the buffer: of the blocks on one line the one
that starts leftmost, closed by the first closing tag after its opening tag. -/
def FirstFinderFeed (xml pre inner rest : GoString) : Prop :=
  FinderFeedOcc xml pre inner rest ∧
  ∀ pre' inner' rest', FinderFeedOcc xml pre' inner' rest' →
    pre.length ≤ pre'.length ∧ (pre'.length = pre.length → inner.length ≤ inner'.length)

/-- The first media block of the buffer: of the blocks on one line the one
that starts leftmost, closed by the first closing tag after its opening tag. -/
def FirstMedia (xml pre inner rest : GoString) : Prop :=
  MediaOcc xml pre inner rest ∧
  ∀ pre' inner' rest', MediaOcc xml pre' inner' rest' →
    pre.length ≤ pre'.length ∧ (pre'.length = pre.length → inner.length ≤ inner'.length)

/-! ## Facts of `float64` and a sample library -/

/-- Whether the character is a decimal digit. -/
def decimalDigit (c : Char) : Bool := decide (48 ≤ c.toNat ∧ c.toNat ≤ 57)

/-- Whether a text is a decimal with exactly two decimal places: an optional
minus sign, one digit or more, a point and two digits. -/
def twoDecimals (s : GoString) : Bool :=
  let body := if s.head? = some '-' then s.tail else s
  match body.reverse with
  | d2 :: d1 :: p :: whole =>
    decimalDigit d1 && decimalDigit d2 && p == '.' && !whole.isEmpty && whole.all decimalDigit
  | _ => false

/-- The facts of packages `strconv`, `fmt` and `encoding/json` on `float64`
that the duration of a video relies on. `ParseFloat` accepts the text `NaN`
with a `nil` error, as a value that is not zero, has no JSON encoding and is
printed `NaN`; it accepts `12.5`, whose value `%.2f` prints as `12.50`; `%.2f`
prints a finite value (one that has a JSON encoding) with exactly two decimal
places, and prints `NaN`, `+Inf` or `-Inf` for the three values that are not
finite. -/
structure FloatFacts {F : Type} (L : Lib F) (J : JSONLib F) : Prop where
  parseFloat_NaN : ∃ v, L.parseFloat "NaN".toList = (v, none) ∧
    J.floatSupported v = false ∧ J.floatIsZero v = false ∧ L.formatFloat2 v = "NaN".toList
  parseFloat_12_5 : ∃ v, L.parseFloat "12.5".toList = (v, none) ∧
    L.formatFloat2 v = "12.50".toList
  formatFloat2_finite : ∀ v, J.floatSupported v = true → twoDecimals (L.formatFloat2 v) = true
  formatFloat2_special : ∀ v, J.floatSupported v = false →
    L.formatFloat2 v = "NaN".toList ∨ L.formatFloat2 v = "+Inf".toList ∨
      L.formatFloat2 v = "-Inf".toList

/-- The values of `float64` that the sample library knows: not-a-number, the
positive infinity, and the finite values that are a whole number `h` of
hundredths. -/
inductive SampleFloat where
  | nan
  | inf
  | hundredths (h : Nat)
  deriving DecidableEq, Repr

/-- The number of hundredths of a plain decimal text: at most thirteen digits,
then nothing, or a point and one or two digits. -/
def parseHundredths (s : GoString) : Option Nat :=
  let whole := s.takeWhile decimalDigit
  let frac := s.dropWhile decimalDigit
  if whole = [] ∨ 13 < whole.length then none
  else
    match frac with
    | [] => some ((parseUintLoop whole 0).1 * 100)
    | [p, a] =>
      if p = '.' ∧ decimalDigit a = true then
        some ((parseUintLoop whole 0).1 * 100 + (a.toNat - 48) * 10)
      else none
    | [p, a, b] =>
      if p = '.' ∧ decimalDigit a = true ∧ decimalDigit b = true then
        some ((parseUintLoop whole 0).1 * 100 + (a.toNat - 48) * 10 + (b.toNat - 48))
      else none
    | _ => none

/-- The text of `h` hundredths with two decimal places. -/
def formatHundredths (h : Nat) : GoString :=
  natDigits (h / 100 + 1) (h / 100) [] ++
    ['.', Char.ofNat (48 + h / 10 % 10), Char.ofNat (48 + h % 10)]

/-- A sample library record, for evaluating the decoder on payloads that hold
a number. It reads the texts `NaN` and `Inf` and the plain decimals with at
most thirteen digits before the point and one or two after it, or none and no
point, and on these it agrees with packages `strconv` and `fmt`: such a
decimal has at most fifteen significant digits, so `%.2f` prints the nearest
`float64` with the same two decimals. On every other text it reports a syntax
error with the value zero, as `strconv.ParseFloat` does on a text such as
`abc`; `ParseFloat` itself reads more texts (signs, exponents, longer
decimals, other spellings of the infinities), which the sample record is not
evaluated on. The time text is the one of the epoch in UTC. -/
def sampleLib : Lib SampleFloat where
  zero := .hundredths 0
  parseFloat := fun s =>
    if s = "NaN".toList then (.nan, none)
    else if s = "Inf".toList then (.inf, none)
    else
      match parseHundredths s with
      | some h => (.hundredths h, none)
      | none => (.hundredths 0, some .ErrSyntax)
  formatFloat2 := fun v =>
    match v with
    | .nan => "NaN".toList
    | .inf => "+Inf".toList
    | .hundredths h => formatHundredths h
  formatTime := fun _ => "1970-01-01 00:00:00".toList
  formatTime_ne_nil := fun _ => List.cons_ne_nil _ _

/-- The encoder record that goes with `sampleLib`: zero is the value of no
hundredths, and the finite values are the ones with an encoding. -/
def sampleJSONLib : JSONLib SampleFloat where
  floatIsZero := fun v => v == .hundredths 0
  floatSupported := fun v =>
    match v with
    | .hundredths _ => true
    | _ => false

/-! # Theorems -/

/-! ## The search of package `regexp` -/

theorem starGreedy_eq_none {acc : Char → Bool} {cap : Bool}
    {k : GoString → Option (GoString × GoString)} {s : GoString} :
    starGreedy acc cap k s = none ↔
      ∀ X rest, s = X ++ rest → (∀ c ∈ X, acc c = true) → k rest = none := by
  induction s with
  | nil =>
    constructor
    · intro h X rest hs _
      have hX : X = [] ∧ rest = [] := by simpa using hs.symm
      rw [hX.2]; exact h
    · intro h
      exact h [] [] rfl (by simp)
  | cons c s ih =>
    unfold starGreedy
    by_cases hc : acc c = true
    · simp only [hc, if_true]
      cases hrec : starGreedy acc cap k s with
      | some gr =>
        simp only []
        constructor
        · intro h; cases h
        · intro h
          have hne : ¬ (∀ X rest, s = X ++ rest → (∀ c ∈ X, acc c = true) → k rest = none) := by
            intro h'
            rw [ih.mpr h'] at hrec
            cases hrec
          exfalso
          apply hne
          intro X rest hs hX
          apply h (c :: X) rest (by rw [hs]; rfl)
          intro d hd
          rcases List.mem_cons.mp hd with rfl | hd
          · exact hc
          · exact hX d hd
      | none =>
        simp only []
        constructor
        · intro h X rest hs hX
          cases X with
          | nil => simp only [List.nil_append] at hs; rw [← hs]; exact h
          | cons d X =>
            simp only [List.cons_append, List.cons.injEq] at hs
            exact ih.mp hrec X rest hs.2 (fun e he => hX e (List.mem_cons_of_mem _ he))
        · intro h
          exact h [] (c :: s) rfl (by simp)
    · simp only [hc, if_false, Bool.false_eq_true]
      constructor
      · intro h X rest hs hX
        cases X with
        | nil => simp only [List.nil_append] at hs; rw [← hs]; exact h
        | cons d X =>
          simp only [List.cons_append, List.cons.injEq] at hs
          exact absurd (hs.1 ▸ hX d (List.mem_cons_self _ _)) hc
      · intro h
        exact h [] (c :: s) rfl (by simp)

theorem starGreedy_eq_some {acc : Char → Bool} {cap : Bool}
    {k : GoString → Option (GoString × GoString)} {s g r : GoString}
    (h : starGreedy acc cap k s = some (g, r)) :
    ∃ X rest g', s = X ++ rest ∧ (∀ c ∈ X, acc c = true) ∧ k rest = some (g', r) ∧
      g = (if cap then X ++ g' else g') ∧
      ∀ X' rest', s = X' ++ rest' → (∀ c ∈ X', acc c = true) → k rest' ≠ none →
        X'.length ≤ X.length := by
  induction s generalizing g r with
  | nil =>
    refine ⟨[], [], g, rfl, by simp, h, by simp, ?_⟩
    intro X' rest' hs _ _
    have hX : X' = [] ∧ rest' = [] := by simpa using hs.symm
    simp [hX.1]
  | cons c s ih =>
    unfold starGreedy at h
    by_cases hc : acc c = true
    · simp only [hc, if_true] at h
      cases hrec : starGreedy acc cap k s with
      | some gr =>
        obtain ⟨g1, r1⟩ := gr
        rw [hrec] at h
        simp only [Option.some.injEq, Prod.mk.injEq] at h
        obtain ⟨X, rest, g', hs, hX, hk, hg, hmax⟩ := ih hrec
        refine ⟨c :: X, rest, g', by rw [hs]; rfl, ?_, by rw [hk, h.2], ?_, ?_⟩
        · intro d hd
          rcases List.mem_cons.mp hd with rfl | hd
          · exact hc
          · exact hX d hd
        · rw [← h.1, hg]; cases cap <;> simp
        · intro X' rest' hs' hX' hk'
          cases X' with
          | nil => simp
          | cons d X' =>
            simp only [List.cons_append, List.cons.injEq] at hs'
            have := hmax X' rest' hs'.2 (fun e he => hX' e (List.mem_cons_of_mem _ he)) hk'
            simpa using this
      | none =>
        rw [hrec] at h
        simp only [] at h
        refine ⟨[], c :: s, g, rfl, by simp, h, by simp, ?_⟩
        intro X' rest' hs' hX' hk'
        cases X' with
        | nil => simp
        | cons d X' =>
          simp only [List.cons_append, List.cons.injEq] at hs'
          exact absurd (starGreedy_eq_none.mp hrec X' rest' hs'.2
            (fun e he => hX' e (List.mem_cons_of_mem _ he))) hk'
    · simp only [hc, if_false, Bool.false_eq_true] at h
      refine ⟨[], c :: s, g, rfl, by simp, h, by simp, ?_⟩
      intro X' rest' hs' hX' _
      cases X' with
      | nil => simp
      | cons d X' =>
        simp only [List.cons_append, List.cons.injEq] at hs'
        exact absurd (hs'.1 ▸ hX' d (List.mem_cons_self _ _)) hc

theorem starLazy_eq_none {acc : Char → Bool} {cap : Bool}
    {k : GoString → Option (GoString × GoString)} {s : GoString} :
    starLazy acc cap k s = none ↔
      ∀ X rest, s = X ++ rest → (∀ c ∈ X, acc c = true) → k rest = none := by
  induction s with
  | nil =>
    constructor
    · intro h X rest hs _
      have hX : X = [] ∧ rest = [] := by simpa using hs.symm
      rw [hX.2]; exact h
    · intro h
      exact h [] [] rfl (by simp)
  | cons c s ih =>
    unfold starLazy
    cases hk : k (c :: s) with
    | some gr =>
      simp only []
      constructor
      · intro h; cases h
      · intro h
        rw [h [] (c :: s) rfl (by simp)] at hk
        cases hk
    | none =>
      simp only []
      by_cases hc : acc c = true
      · simp only [hc, if_true]
        cases hrec : starLazy acc cap k s with
        | some gr =>
          simp only []
          constructor
          · intro h; cases h
          · intro h
            have : starLazy acc cap k s = none := by
              apply ih.mpr
              intro X rest hs hX
              apply h (c :: X) rest (by rw [hs]; rfl)
              intro d hd
              rcases List.mem_cons.mp hd with rfl | hd
              · exact hc
              · exact hX d hd
            rw [this] at hrec
            cases hrec
        | none =>
          simp only [true_iff]
          intro X rest hs hX
          cases X with
          | nil => simp only [List.nil_append] at hs; rw [← hs]; exact hk
          | cons d X =>
            simp only [List.cons_append, List.cons.injEq] at hs
            exact ih.mp hrec X rest hs.2 (fun e he => hX e (List.mem_cons_of_mem _ he))
      · simp only [hc, if_false, Bool.false_eq_true, true_iff]
        intro X rest hs hX
        cases X with
        | nil => simp only [List.nil_append] at hs; rw [← hs]; exact hk
        | cons d X =>
          simp only [List.cons_append, List.cons.injEq] at hs
          exact absurd (hs.1 ▸ hX d (List.mem_cons_self _ _)) hc

theorem starLazy_eq_some {acc : Char → Bool} {cap : Bool}
    {k : GoString → Option (GoString × GoString)} {s g r : GoString}
    (h : starLazy acc cap k s = some (g, r)) :
    ∃ X rest g', s = X ++ rest ∧ (∀ c ∈ X, acc c = true) ∧ k rest = some (g', r) ∧
      g = (if cap then X ++ g' else g') ∧
      ∀ X' rest', s = X' ++ rest' → X'.length < X.length → k rest' = none := by
  induction s generalizing g r with
  | nil =>
    refine ⟨[], [], g, rfl, by simp, h, by simp, ?_⟩
    intro X' rest' _ hlt
    simp at hlt
  | cons c s ih =>
    unfold starLazy at h
    cases hk : k (c :: s) with
    | some gr =>
      rw [hk] at h
      simp only [Option.some.injEq] at h
      subst h
      refine ⟨[], c :: s, g, rfl, by simp, hk, by simp, ?_⟩
      intro X' rest' _ hlt
      simp at hlt
    | none =>
      rw [hk] at h
      simp only [] at h
      by_cases hc : acc c = true
      · simp only [hc, if_true] at h
        cases hrec : starLazy acc cap k s with
        | some gr =>
          obtain ⟨g1, r1⟩ := gr
          rw [hrec] at h
          simp only [Option.some.injEq, Prod.mk.injEq] at h
          obtain ⟨X, rest, g', hs, hX, hk', hg, hmin⟩ := ih hrec
          refine ⟨c :: X, rest, g', by rw [hs]; rfl, ?_, by rw [hk', h.2], ?_, ?_⟩
          · intro d hd
            rcases List.mem_cons.mp hd with rfl | hd
            · exact hc
            · exact hX d hd
          · rw [← h.1, hg]; cases cap <;> simp
          · intro X' rest' hs' hlt
            cases X' with
            | nil => simp only [List.nil_append] at hs'; rw [← hs']; exact hk
            | cons d X' =>
              simp only [List.cons_append, List.cons.injEq] at hs'
              exact hmin X' rest' hs'.2 (by simpa using hlt)
        | none =>
          rw [hrec] at h
          cases h
      · simp only [hc, if_false, Bool.false_eq_true] at h
        cases h

theorem matchHere_sound (p : Regexp) :
    ∀ s g r, matchHere p s = some (g, r) → Matches p s g r := by
  induction p with
  | nil =>
    intro s g r h
    simp only [matchHere, Option.some.injEq, Prod.mk.injEq] at h
    exact ⟨h.1.symm, h.2.symm⟩
  | cons n p ih =>
    intro s g r h
    cases n with
    | one a =>
      cases s with
      | nil => simp [matchHere] at h
      | cons c s =>
        simp only [matchHere] at h
        by_cases hc : a.accepts c = true
        · simp only [hc, if_true] at h
          exact ⟨c, s, rfl, hc, ih s g r h⟩
        · simp [hc] at h
    | star a cap =>
      obtain ⟨X, rest, g', hs, hX, hk, hg, -⟩ := starGreedy_eq_some (k := matchHere p) h
      exact ⟨X, rest, g', hs, hX, ih rest g' r hk, hg⟩
    | lazyStar a cap =>
      obtain ⟨X, rest, g', hs, hX, hk, hg, -⟩ := starLazy_eq_some (k := matchHere p) h
      exact ⟨X, rest, g', hs, hX, ih rest g' r hk, hg⟩

theorem matchHere_eq_none (p : Regexp) :
    ∀ s, matchHere p s = none ↔ ∀ g r, ¬ Matches p s g r := by
  induction p with
  | nil =>
    intro s
    simp only [matchHere, Matches]
    constructor
    · intro h; cases h
    · intro h; exact absurd ⟨rfl, rfl⟩ (h [] s)
  | cons n p ih =>
    intro s
    cases n with
    | one a =>
      cases s with
      | nil =>
        simp only [matchHere, Matches, true_iff]
        rintro g r ⟨c, s', hs, -⟩
        cases hs
      | cons c s =>
        simp only [matchHere, Matches]
        by_cases hc : a.accepts c = true
        · simp only [hc, if_true]
          rw [ih s]
          constructor
          · rintro h g r ⟨d, s', hs, -, hm⟩
            simp only [List.cons.injEq] at hs
            exact h g r (hs.2 ▸ hm)
          · intro h g r hm
            exact h g r ⟨c, s, rfl, hc, hm⟩
        · simp only [hc, if_false, Bool.false_eq_true, true_iff]
          rintro g r ⟨d, s', hs, hd, -⟩
          simp only [List.cons.injEq] at hs
          exact hc (hs.1 ▸ hd)
    | star a cap =>
      show starGreedy a.accepts cap (matchHere p) s = none ↔ _
      rw [starGreedy_eq_none]
      constructor
      · rintro h g r ⟨X, rest, g', hs, hX, hm, -⟩
        exact (ih rest).mp (h X rest hs hX) g' r hm
      · intro h X rest hs hX
        rw [ih rest]
        intro g' r hm
        exact h _ r ⟨X, rest, g', hs, hX, hm, rfl⟩
    | lazyStar a cap =>
      show starLazy a.accepts cap (matchHere p) s = none ↔ _
      rw [starLazy_eq_none]
      constructor
      · rintro h g r ⟨X, rest, g', hs, hX, hm, -⟩
        exact (ih rest).mp (h X rest hs hX) g' r hm
      · intro h X rest hs hX
        rw [ih rest]
        intro g' r hm
        exact h _ r ⟨X, rest, g', hs, hX, hm, rfl⟩

theorem matchHere_ne_none {p : Regexp} {s g r : GoString} (h : Matches p s g r) :
    matchHere p s ≠ none := fun hn => (matchHere_eq_none p s).mp hn g r h

/-- Where the pattern can match in one way only, the search finds that match. -/
theorem matchHere_eq_some {p : Regexp} {s g r : GoString} (h : Matches p s g r)
    (huniq : ∀ g' r', Matches p s g' r' → g' = g ∧ r' = r) :
    matchHere p s = some (g, r) := by
  cases hm : matchHere p s with
  | none => exact absurd hm (matchHere_ne_none h)
  | some gr =>
    obtain ⟨g', r'⟩ := gr
    obtain ⟨h1, h2⟩ := huniq g' r' (matchHere_sound p s g' r' hm)
    rw [h1, h2]

theorem Matches_suffix (p : Regexp) :
    ∀ s g r, Matches p s g r → ∃ w, s = w ++ r := by
  induction p with
  | nil =>
    rintro s g r ⟨-, rfl⟩
    exact ⟨[], rfl⟩
  | cons n p ih =>
    intro s g r h
    cases n with
    | one a =>
      obtain ⟨c, s', rfl, -, hm⟩ := h
      obtain ⟨w, rfl⟩ := ih s' g r hm
      exact ⟨c :: w, rfl⟩
    | star a cap =>
      obtain ⟨X, rest, g', rfl, -, hm, -⟩ := h
      obtain ⟨w, rfl⟩ := ih rest g' r hm
      exact ⟨X ++ w, by simp⟩
    | lazyStar a cap =>
      obtain ⟨X, rest, g', rfl, -, hm, -⟩ := h
      obtain ⟨w, rfl⟩ := ih rest g' r hm
      exact ⟨X ++ w, by simp⟩

theorem search_eq_none {re : Regexp} {s : GoString} :
    search re s = none ↔ ∀ pre s', s = pre ++ s' → matchHere re s' = none := by
  induction s with
  | nil =>
    simp only [search, Option.map_eq_none']
    constructor
    · intro h pre s' hs
      have hX : pre = [] ∧ s' = [] := by simpa using hs.symm
      rw [hX.2]; exact h
    · intro h
      exact h [] [] rfl
  | cons c s ih =>
    unfold search
    cases hm : matchHere re (c :: s) with
    | some gr =>
      obtain ⟨g, r⟩ := gr
      simp only []
      constructor
      · intro h; cases h
      · intro h
        rw [h [] (c :: s) rfl] at hm
        cases hm
    | none =>
      simp only []
      rw [ih]
      constructor
      · intro h pre s' hs
        cases pre with
        | nil => simp only [List.nil_append] at hs; rw [← hs]; exact hm
        | cons d pre =>
          simp only [List.cons_append, List.cons.injEq] at hs
          exact h pre s' hs.2
      · intro h pre s' hs
        exact h (c :: pre) s' (by rw [hs]; rfl)

theorem search_eq_some {re : Regexp} {s w g r : GoString}
    (h : search re s = some (w, g, r)) :
    ∃ pre, s = pre ++ (w ++ r) ∧ matchHere re (w ++ r) = some (g, r) ∧
      ∀ pre' s', s = pre' ++ s' → pre'.length < pre.length → matchHere re s' = none := by
  induction s with
  | nil =>
    simp only [search, Option.map_eq_some', Prod.mk.injEq] at h
    obtain ⟨⟨g', r'⟩, hm, hw, hg, hr⟩ := h
    simp only at hg hr
    subst hw hg hr
    obtain ⟨w', hw'⟩ := Matches_suffix re [] _ _ (matchHere_sound re [] _ _ hm)
    have hX : w' = [] ∧ r' = [] := by simpa using hw'.symm
    refine ⟨[], by simp [hX.2], by simpa [hX.2] using hm, ?_⟩
    intro pre' s' _ hlt
    simp at hlt
  | cons c s ih =>
    unfold search at h
    cases hm : matchHere re (c :: s) with
    | some gr =>
      obtain ⟨g', r'⟩ := gr
      rw [hm] at h
      simp only [Option.some.injEq, Prod.mk.injEq] at h
      obtain ⟨hw, hg, hr⟩ := h
      subst hg hr
      obtain ⟨w', hw'⟩ := Matches_suffix re _ _ _ (matchHere_sound re _ _ _ hm)
      have hww : w = w' := by
        rw [← hw, hw']
        simp
      subst hww
      refine ⟨[], by simpa using hw', by rw [← hw']; exact hm, ?_⟩
      intro pre' s' _ hlt
      simp at hlt
    | none =>
      rw [hm] at h
      simp only [] at h
      obtain ⟨pre, hs, hmm, hmin⟩ := ih h
      refine ⟨c :: pre, by rw [hs]; rfl, hmm, ?_⟩
      intro pre' s' hs' hlt
      cases pre' with
      | nil => simp only [List.nil_append] at hs'; rw [← hs']; exact hm
      | cons d pre' =>
        simp only [List.cons_append, List.cons.injEq] at hs'
        exact hmin pre' s' hs'.2 (by simpa using hlt)

theorem FindStringSubmatch_of_none {re : Regexp} {s : GoString} (h : search re s = none) :
    FindStringSubmatch re s = [] := by
  simp [FindStringSubmatch, h]

theorem FindStringSubmatch_of_some {re : Regexp} {s w g r : GoString}
    (h : search re s = some (w, g, r)) : FindStringSubmatch re s = [w, g] := by
  simp [FindStringSubmatch, h]

/-! ## The patterns of `sns.go` -/

theorem Matches_lit (w : GoString) (p : Regexp) :
    ∀ s g r, Matches (lit w ++ p) s g r ↔ ∃ s', s = w ++ s' ∧ Matches p s' g r := by
  induction w with
  | nil =>
    intro s g r
    simp [lit]
  | cons c w ih =>
    intro s g r
    have hl : lit (c :: w) ++ p = Node.one (Atom.chr c) :: (lit w ++ p) := rfl
    rw [hl]
    simp only [Matches, Atom.accepts, beq_iff_eq]
    constructor
    · rintro ⟨d, s', rfl, rfl, hm⟩
      obtain ⟨s'', rfl, hm'⟩ := (ih s' g r).mp hm
      exact ⟨s'', rfl, hm'⟩
    · rintro ⟨s', rfl, hm⟩
      exact ⟨c, w ++ s', rfl, rfl, (ih _ g r).mpr ⟨s', rfl, hm⟩⟩

theorem Matches_lit_nil (w s g r : GoString) :
    Matches (lit w) s g r ↔ s = w ++ r ∧ g = [] := by
  have h := Matches_lit w [] s g r
  rw [List.append_nil] at h
  rw [h]
  simp only [Matches]
  constructor
  · rintro ⟨s', rfl, rfl, rfl⟩
    exact ⟨rfl, rfl⟩
  · rintro ⟨rfl, rfl⟩
    exact ⟨r, rfl, rfl, rfl⟩

theorem accepts_notChr (d : Char) (X : GoString) :
    (∀ c ∈ X, (Atom.notChr d).accepts c = true) ↔ d ∉ X := by
  simp only [Atom.accepts, bne_iff_ne, ne_eq]
  constructor
  · intro h hd
    exact h d hd rfl
  · intro h c hc hcd
    exact h (hcd ▸ hc)

theorem Matches_star (a : Atom) (cap : Bool) (p : Regexp) (s g r : GoString) :
    Matches (Node.star a cap :: p) s g r ↔
      ∃ X rest g', s = X ++ rest ∧ (∀ c ∈ X, a.accepts c = true) ∧ Matches p rest g' r ∧
        g = if cap then X ++ g' else g' := Iff.rfl

theorem Matches_lazyStar (a : Atom) (cap : Bool) (p : Regexp) (s g r : GoString) :
    Matches (Node.lazyStar a cap :: p) s g r ↔
      ∃ X rest g', s = X ++ rest ∧ (∀ c ∈ X, a.accepts c = true) ∧ Matches p rest g' r ∧
        g = if cap then X ++ g' else g' := Iff.rfl

theorem Matches_star_lit (d : Char) (cap : Bool) (C s g r : GoString) :
    Matches (Node.star (Atom.notChr d) cap :: lit C) s g r ↔
      ∃ X, s = X ++ C ++ r ∧ d ∉ X ∧ g = if cap then X else [] := by
  rw [Matches_star]
  constructor
  · rintro ⟨X, rest, g', rfl, hX, hm, rfl⟩
    obtain ⟨rfl, rfl⟩ := (Matches_lit_nil _ _ _ _).mp hm
    exact ⟨X, by simp, (accepts_notChr d X).mp hX, by simp⟩
  · rintro ⟨X, rfl, hX, rfl⟩
    exact ⟨X, C ++ r, [], by simp, (accepts_notChr d X).mpr hX,
      (Matches_lit_nil _ _ _ _).mpr ⟨rfl, rfl⟩, by simp⟩

/-- A literal, a captured class star and a literal: `A([^d]*)C`. -/
theorem Matches_lit_star_lit (A C : GoString) (d : Char) (s g r : GoString) :
    Matches (lit A ++ (Node.star (Atom.notChr d) true :: lit C)) s g r ↔
      s = A ++ g ++ C ++ r ∧ d ∉ g := by
  rw [Matches_lit]
  constructor
  · rintro ⟨s', rfl, hm⟩
    obtain ⟨X, rfl, hX, rfl⟩ := (Matches_star_lit _ _ _ _ _ _).mp hm
    exact ⟨by simp, by simpa using hX⟩
  · rintro ⟨rfl, hg⟩
    exact ⟨g ++ C ++ r, by simp, (Matches_star_lit _ _ _ _ _ _).mpr ⟨g, rfl, hg, by simp⟩⟩

/-- Two class stars, the second one captured: `A[^d]*B([^e]*)C`. -/
theorem Matches_lit_star_lit_star_lit (A B C : GoString) (d e : Char) (s g r : GoString) :
    Matches (lit A ++ (Node.star (Atom.notChr d) false ::
        (lit B ++ (Node.star (Atom.notChr e) true :: lit C)))) s g r ↔
      ∃ X, s = A ++ X ++ B ++ g ++ C ++ r ∧ d ∉ X ∧ e ∉ g := by
  rw [Matches_lit]
  constructor
  · rintro ⟨s', rfl, hm⟩
    obtain ⟨X, rest, g', rfl, hX, hm', hg⟩ := (Matches_star _ _ _ _ _ _).mp hm
    obtain ⟨rfl, hg'⟩ := (Matches_lit_star_lit _ _ _ _ _ _).mp hm'
    simp only [Bool.false_eq_true, if_false] at hg
    subst hg
    exact ⟨X, by simp, (accepts_notChr d X).mp hX, hg'⟩
  · rintro ⟨X, rfl, hX, hg⟩
    refine ⟨X ++ B ++ g ++ C ++ r, by simp, (Matches_star _ _ _ _ _ _).mpr ?_⟩
    exact ⟨X, B ++ g ++ C ++ r, g, by simp, (accepts_notChr d X).mpr hX,
      (Matches_lit_star_lit _ _ _ _ _ _).mpr ⟨rfl, hg⟩, by simp⟩

theorem plainTagRe_eq (t : GoString) :
    plainTagRe t = lit (openTag t) ++ (Node.star (Atom.notChr '<') true :: lit (closeTag t)) := by
  simp [plainTagRe, openTag, closeTag]

theorem attrTagRe_eq (t : GoString) :
    attrTagRe t = lit ("<".toList ++ t) ++ (Node.star (Atom.notChr '>') false ::
      (lit ">".toList ++ (Node.star (Atom.notChr '<') true :: lit (closeTag t)))) := by
  simp [attrTagRe, closeTag]

theorem tagAttrRe_eq (t a : GoString) :
    tagAttrRe t a = lit ("<".toList ++ t) ++ (Node.star (Atom.notChr '>') false ::
      (lit (a ++ "=".toList ++ [dq]) ++ (Node.star (Atom.notChr dq) true :: lit [dq]))) := by
  simp [tagAttrRe]

theorem Matches_plainTagRe (t s g r : GoString) :
    Matches (plainTagRe t) s g r ↔ s = openTag t ++ g ++ closeTag t ++ r ∧ '<' ∉ g := by
  rw [plainTagRe_eq, Matches_lit_star_lit]

theorem Matches_attrTagRe (t s g r : GoString) :
    Matches (attrTagRe t) s g r ↔
      ∃ attrs, s = "<".toList ++ t ++ attrs ++ ">".toList ++ g ++ closeTag t ++ r ∧
        '>' ∉ attrs ∧ '<' ∉ g := by
  rw [attrTagRe_eq, Matches_lit_star_lit_star_lit]

theorem Matches_tagAttrRe (t a s g r : GoString) :
    Matches (tagAttrRe t a) s g r ↔
      ∃ X, s = "<".toList ++ t ++ X ++ (a ++ "=".toList ++ [dq]) ++ g ++ [dq] ++ r ∧
        '>' ∉ X ∧ dq ∉ g := by
  rw [tagAttrRe_eq, Matches_lit_star_lit_star_lit]

theorem matchHere_lit_some (A : GoString) (p : Regexp) :
    ∀ s x, matchHere (lit A ++ p) s = some x → ∃ s', s = A ++ s' ∧ matchHere p s' = some x := by
  induction A with
  | nil =>
    intro s x h
    exact ⟨s, rfl, h⟩
  | cons c A ih =>
    intro s x h
    have hl : lit (c :: A) ++ p = Node.one (Atom.chr c) :: (lit A ++ p) := rfl
    rw [hl] at h
    cases s with
    | nil => simp [matchHere] at h
    | cons d s =>
      simp only [matchHere, Atom.accepts] at h
      by_cases hd : d = c
      · subst hd
        simp only [beq_self_eq_true, if_true] at h
        obtain ⟨s', rfl, hm⟩ := ih s x h
        exact ⟨s', rfl, hm⟩
      · simp [hd] at h

/-! ## `extractXMLTag` and `extractXMLTagAttr` -/

theorem extractXMLTag_of_plain {xml t w g r : GoString}
    (h : search (plainTagRe t) xml = some (w, g, r)) : extractXMLTag xml t = TrimSpace g := by
  simp [extractXMLTag, FindStringSubmatch_of_some h]

theorem extractXMLTag_of_attr {xml t w g r : GoString}
    (h₁ : search (plainTagRe t) xml = none)
    (h₂ : search (attrTagRe t) xml = some (w, g, r)) : extractXMLTag xml t = TrimSpace g := by
  simp [extractXMLTag, FindStringSubmatch_of_none h₁, FindStringSubmatch_of_some h₂]

theorem extractXMLTag_of_none {xml t : GoString}
    (h₁ : search (plainTagRe t) xml = none)
    (h₂ : search (attrTagRe t) xml = none) : extractXMLTag xml t = [] := by
  simp [extractXMLTag, FindStringSubmatch_of_none h₁, FindStringSubmatch_of_none h₂]

theorem extractXMLTagAttr_of_some {xml t a w g r : GoString}
    (h : search (tagAttrRe t a) xml = some (w, g, r)) : extractXMLTagAttr xml t a = g := by
  simp [extractXMLTagAttr, FindStringSubmatch_of_some h]

theorem extractXMLTagAttr_of_none {xml t a : GoString}
    (h : search (tagAttrRe t a) xml = none) : extractXMLTagAttr xml t a = [] := by
  simp [extractXMLTagAttr, FindStringSubmatch_of_none h]

/-- No plain occurrence exactly when the search of the plain pattern fails. -/
theorem search_plainTagRe_eq_none {xml t : GoString} :
    search (plainTagRe t) xml = none ↔ ∀ pre inner rest, ¬ PlainOcc t xml pre inner rest := by
  rw [search_eq_none]
  constructor
  · rintro h pre inner rest ⟨hx, hi⟩
    exact matchHere_ne_none ((Matches_plainTagRe t _ inner rest).mpr ⟨rfl, hi⟩) (h pre _ hx)
  · intro h pre s' hs
    rw [matchHere_eq_none]
    intro g r hm
    obtain ⟨rfl, hg⟩ := (Matches_plainTagRe t _ g r).mp hm
    exact h pre g r ⟨hs, hg⟩

theorem search_attrTagRe_eq_none {xml t : GoString} :
    search (attrTagRe t) xml = none ↔
      ∀ pre attrs inner rest, ¬ AttrFormOcc t xml pre attrs inner rest := by
  rw [search_eq_none]
  constructor
  · rintro h pre attrs inner rest ⟨hx, ha, hi⟩
    exact matchHere_ne_none
      ((Matches_attrTagRe t _ inner rest).mpr ⟨attrs, rfl, ha, hi⟩) (h pre _ hx)
  · intro h pre s' hs
    rw [matchHere_eq_none]
    intro g r hm
    obtain ⟨attrs, rfl, ha, hg⟩ := (Matches_attrTagRe t _ g r).mp hm
    exact h pre attrs g r ⟨hs, ha, hg⟩

theorem search_tagAttrRe_eq_none {xml t a : GoString} :
    search (tagAttrRe t a) xml = none ↔
      ∀ pre X v rest, ¬ AttrValueOcc t a xml pre X v rest := by
  rw [search_eq_none]
  constructor
  · rintro h pre X v rest ⟨hx, hX, hv⟩
    exact matchHere_ne_none
      ((Matches_tagAttrRe t a _ v rest).mpr ⟨X, rfl, hX, hv⟩) (h pre _ hx)
  · intro h pre s' hs
    rw [matchHere_eq_none]
    intro g r hm
    obtain ⟨X, rfl, hX, hg⟩ := (Matches_tagAttrRe t a _ g r).mp hm
    exact h pre X g r ⟨hs, hX, hg⟩

/-- The leftmost plain occurrence is the one the search of the plain pattern
reports. -/
theorem search_plainTagRe_eq_some {xml t w g r : GoString}
    (h : search (plainTagRe t) xml = some (w, g, r)) :
    ∃ pre, PlainOcc t xml pre g r ∧
      ∀ pre' inner' rest', PlainOcc t xml pre' inner' rest' → pre.length ≤ pre'.length := by
  obtain ⟨pre, hx, hm, hmin⟩ := search_eq_some h
  obtain ⟨hw, hg⟩ := (Matches_plainTagRe t _ g r).mp (matchHere_sound _ _ _ _ hm)
  refine ⟨pre, ⟨by rw [hx, hw], hg⟩, ?_⟩
  rintro pre' inner' rest' ⟨hx', hi'⟩
  by_contra hlt
  exact matchHere_ne_none ((Matches_plainTagRe t _ inner' rest').mpr ⟨rfl, hi'⟩)
    (hmin pre' _ hx' (Nat.lt_of_not_le hlt))

theorem search_attrTagRe_eq_some {xml t w g r : GoString}
    (h : search (attrTagRe t) xml = some (w, g, r)) :
    ∃ pre attrs, AttrFormOcc t xml pre attrs g r ∧
      ∀ pre' attrs' inner' rest', AttrFormOcc t xml pre' attrs' inner' rest' →
        pre.length ≤ pre'.length := by
  obtain ⟨pre, hx, hm, hmin⟩ := search_eq_some h
  obtain ⟨attrs, hw, ha, hg⟩ := (Matches_attrTagRe t _ g r).mp (matchHere_sound _ _ _ _ hm)
  refine ⟨pre, attrs, ⟨by rw [hx, hw], ha, hg⟩, ?_⟩
  rintro pre' attrs' inner' rest' ⟨hx', ha', hi'⟩
  by_contra hlt
  exact matchHere_ne_none ((Matches_attrTagRe t _ inner' rest').mpr ⟨attrs', rfl, ha', hi'⟩)
    (hmin pre' _ hx' (Nat.lt_of_not_le hlt))

theorem search_tagAttrRe_eq_some {xml t a w g r : GoString}
    (h : search (tagAttrRe t a) xml = some (w, g, r)) :
    ∃ pre X, AttrValueOcc t a xml pre X g r ∧
      (∀ pre' X' v' rest', AttrValueOcc t a xml pre' X' v' rest' → pre.length ≤ pre'.length) ∧
      ∀ X' v' rest', AttrValueOcc t a xml pre X' v' rest' → X'.length ≤ X.length := by
  obtain ⟨pre, hx, hm, hmin⟩ := search_eq_some h
  rw [tagAttrRe_eq] at hm
  obtain ⟨s', hs', hm'⟩ := matchHere_lit_some _ _ _ _ hm
  obtain ⟨X, rest, g', hsX, hX, hk, hg, hmax⟩ :=
    starGreedy_eq_some (k := matchHere (lit (a ++ "=".toList ++ [dq]) ++
      (Node.star (Atom.notChr dq) true :: lit [dq]))) hm'
  simp only [Bool.false_eq_true, if_false] at hg
  subst hg
  obtain ⟨hrest, hgq⟩ := (Matches_lit_star_lit _ _ _ _ _ _).mp (matchHere_sound _ _ _ _ hk)
  have hXn : '>' ∉ X := (accepts_notChr '>' X).mp hX
  refine ⟨pre, X, ⟨?_, hXn, hgq⟩, ?_, ?_⟩
  · rw [hx, hs', hsX, hrest]; simp
  · rintro pre' X' v' rest' ⟨hx', hX', hv'⟩
    by_contra hlt
    have hm'' := hmin pre' _ hx' (Nat.lt_of_not_le hlt)
    exact matchHere_ne_none
      ((Matches_tagAttrRe t a _ v' rest').mpr ⟨X', rfl, hX', hv'⟩) hm''
  · rintro X' v' rest' ⟨hx', hX', hv'⟩
    have e1 : w ++ r = "<".toList ++ t ++ X' ++ (a ++ "=".toList ++ [dq]) ++ v' ++ [dq] ++ rest' :=
      List.append_cancel_left (hx.symm.trans hx')
    have e3 : ("<".toList ++ t) ++ s' =
        ("<".toList ++ t) ++ (X' ++ ((a ++ "=".toList ++ [dq]) ++ v' ++ [dq] ++ rest')) := by
      rw [← hs', e1]; simp
    have e2 : s' = X' ++ ((a ++ "=".toList ++ [dq]) ++ v' ++ [dq] ++ rest') :=
      List.append_cancel_left e3
    apply hmax X' _ e2 ((accepts_notChr '>' X').mpr hX')
    exact matchHere_ne_none ((Matches_lit_star_lit _ _ _ _ v' rest').mpr ⟨rfl, hv'⟩)

/-! ## The category table and the assembled post -/

theorem parseSNSContentType_mem (s : GoString) : parseSNSContentType s ∈ categories := by
  unfold parseSNSContentType
  split_ifs <;> simp [categories]

/-- The fields that `ParseSNSContent` fills, read off the assembled post. -/
theorem ParseSNSContent_fields {F : Type} (L : Lib F) (x : GoString) :
    ∃ post, ParseSNSContent L x = (some post, none) ∧
      post.XMLContent = x ∧
      post.TID = 0 ∧
      post.Location = parseSNSLocation L x ∧
      post.ContentType = parseSNSContentType (extractXMLTag x "type".toList) ∧
      post.MediaList =
        (if parseSNSContentType (extractXMLTag x "type".toList) = "image".toList then
          parseSNSImageMedia x
         else if parseSNSContentType (extractXMLTag x "type".toList) = "video".toList then
          parseSNSVideoMedia L x
         else []) ∧
      post.Article =
        (if parseSNSContentType (extractXMLTag x "type".toList) = "article".toList then
          parseSNSArticle x else none) ∧
      post.FinderFeed =
        (if parseSNSContentType (extractXMLTag x "type".toList) = "finder".toList then
          parseSNSFinderFeed x else none) ∧
      post.CreateTime =
        (if extractXMLTag x "createTime".toList ≠ [] then
          (ParseInt (extractXMLTag x "createTime".toList)).1 else 0) ∧
      post.CreateTimeStr =
        (if extractXMLTag x "createTime".toList ≠ [] then
          L.formatTime (ParseInt (extractXMLTag x "createTime".toList)).1 else []) := by
  refine ⟨_, rfl, ?_⟩
  dsimp only
  have hmem := parseSNSContentType_mem (extractXMLTag x "type".toList)
  generalize parseSNSContentType (extractXMLTag x "type".toList) = ct at hmem ⊢
  simp only [categories, List.mem_cons, List.mem_singleton, List.not_mem_nil, or_false] at hmem
  rcases hmem with h | h | h | h | h <;> subst h <;> split_ifs <;>
    first
    | with_reducible exact ⟨rfl, rfl, rfl, rfl, rfl, rfl, rfl, rfl, rfl⟩
    | (exfalso; simp_all)

theorem parseSNSContentType_cases (s : GoString) :
    (parseSNSContentType s = "image".toList ↔ s = "1".toList ∨ s = "7".toList) ∧
    (parseSNSContentType s = "video".toList ↔ s = "6".toList ∨ s = "15".toList) ∧
    (parseSNSContentType s = "article".toList ↔ s = "3".toList) ∧
    (parseSNSContentType s = "finder".toList ↔ s = "28".toList) ∧
    (parseSNSContentType s = "text".toList ↔
      s ∉ ["1".toList, "7".toList, "6".toList, "15".toList, "3".toList, "28".toList]) := by
  unfold parseSNSContentType
  split_ifs with h1 h6 h3 h15 h28 h7
  all_goals first | subst h1 | subst h6 | subst h3 | subst h15 | subst h28 | subst h7 | skip
  all_goals simp_all

/-- C1: for every payload `x`, `ParseSNSContent` returns a post (never `nil`)
together with a `nil` error, and the `XMLContent` field of the post is `x`
itself. -/
theorem ParseSNSContent_keeps_payload {F : Type} (L : Lib F) (x : GoString) :
    ∃ post, ParseSNSContent L x = (some post, none) ∧ post.XMLContent = x := by
  obtain ⟨post, h, hx, -⟩ := ParseSNSContent_fields L x
  exact ⟨post, h, hx⟩

/-- C2: `parseSNSContentType` is the closed table: `image` exactly on `1` and
`7`, `video` exactly on `6` and `15`, `article` exactly on `3`, `finder`
exactly on `28`, and `text` on every other text; so the category of every
post that `ParseSNSContent` returns is one of the five. -/
theorem parseSNSContentType_table {F : Type} (L : Lib F) (s x : GoString) :
    (parseSNSContentType s = "image".toList ↔ s = "1".toList ∨ s = "7".toList) ∧
    (parseSNSContentType s = "video".toList ↔ s = "6".toList ∨ s = "15".toList) ∧
    (parseSNSContentType s = "article".toList ↔ s = "3".toList) ∧
    (parseSNSContentType s = "finder".toList ↔ s = "28".toList) ∧
    (parseSNSContentType s = "text".toList ↔
      s ∉ ["1".toList, "7".toList, "6".toList, "15".toList, "3".toList, "28".toList]) ∧
    parseSNSContentType [] = "text".toList ∧
    ∃ post, ParseSNSContent L x = (some post, none) ∧ post.ContentType ∈ categories := by
  obtain ⟨h1, h2, h3, h4, h5⟩ := parseSNSContentType_cases s
  obtain ⟨post, h, -, -, -, hc, -⟩ := ParseSNSContent_fields L x
  exact ⟨h1, h2, h3, h4, h5, by decide, post, h, hc ▸ parseSNSContentType_mem _⟩

/-- C3: the post that `ParseSNSContent` returns has no payload-specific
structure but the one of its category: `text` leaves the media list empty and
both the article and the finder feed `nil`; `image` and `video` leave the
article and the finder feed `nil`; `article` leaves the media list empty and
the finder feed `nil`; `finder` leaves the media list empty and the article
`nil`. -/
theorem ParseSNSContent_one_structure {F : Type} (L : Lib F) (x : GoString) :
    ∃ post, ParseSNSContent L x = (some post, none) ∧
      (post.ContentType = "text".toList →
        post.MediaList = [] ∧ post.Article = none ∧ post.FinderFeed = none) ∧
      (post.ContentType = "image".toList ∨ post.ContentType = "video".toList →
        post.Article = none ∧ post.FinderFeed = none) ∧
      (post.ContentType = "article".toList →
        post.MediaList = [] ∧ post.FinderFeed = none) ∧
      (post.ContentType = "finder".toList →
        post.MediaList = [] ∧ post.Article = none) := by
  obtain ⟨post, h, -, -, -, hc, hm, ha, hf, -⟩ := ParseSNSContent_fields L x
  refine ⟨post, h, ?_⟩
  rw [← hc] at hm ha hf
  have hmem : post.ContentType ∈ categories := hc ▸ parseSNSContentType_mem _
  simp only [categories, List.mem_cons, List.mem_singleton, List.not_mem_nil, or_false] at hmem
  have e1 : "image".toList ≠ "video".toList := by decide
  have e2 : "image".toList ≠ "article".toList := by decide
  have e3 : "image".toList ≠ "finder".toList := by decide
  have e4 : "image".toList ≠ "text".toList := by decide
  have e5 : "video".toList ≠ "article".toList := by decide
  have e6 : "video".toList ≠ "finder".toList := by decide
  have e7 : "video".toList ≠ "text".toList := by decide
  have e8 : "article".toList ≠ "finder".toList := by decide
  have e9 : "article".toList ≠ "text".toList := by decide
  have e10 : "finder".toList ≠ "text".toList := by decide
  rcases hmem with h | h | h | h | h <;> rw [h] at hm ha hf ⊢ <;>
    simp only [e1, e2, e3, e4, e5, e6, e7, e8, e9, e10, e1.symm, e2.symm, e3.symm, e4.symm,
      e5.symm, e6.symm, e7.symm, e8.symm, e9.symm, e10.symm, if_true, if_false] at hm ha hf <;>
    simp only [e1, e2, e3, e4, e5, e6, e7, e8, e9, e10, e1.symm, e2.symm, e3.symm, e4.symm,
      e5.symm, e6.symm, e7.symm, e8.symm, e9.symm, e10.symm, hm, ha, hf, and_self, or_self,
      true_or, or_true, false_implies, implies_true, forall_const]

/-! ## The tag extractors -/

/-- C4, as amended: for an alphanumeric name `t`, `extractXMLTag` returns the
trimmed inner text of the leftmost plain occurrence `<t>inner</t>` whose inner
text holds no `<` (an element with nested markup is passed over); the form
with text between the name and the closing bracket, `<t attrs>inner</t>`, is
used, leftmost occurrence, only when the buffer has no such plain occurrence;
and the result is empty when the buffer has neither. -/
theorem extractXMLTag_spec (xml t : GoString) (_ht : alphanumeric t) :
    (∃ pre inner rest, PlainOcc t xml pre inner rest ∧
      (∀ pre' inner' rest', PlainOcc t xml pre' inner' rest' → pre.length ≤ pre'.length) ∧
      extractXMLTag xml t = TrimSpace inner) ∨
    ((∀ pre inner rest, ¬ PlainOcc t xml pre inner rest) ∧
      ∃ pre attrs inner rest, AttrFormOcc t xml pre attrs inner rest ∧
        (∀ pre' attrs' inner' rest', AttrFormOcc t xml pre' attrs' inner' rest' →
          pre.length ≤ pre'.length) ∧
        extractXMLTag xml t = TrimSpace inner) ∨
    ((∀ pre inner rest, ¬ PlainOcc t xml pre inner rest) ∧
      (∀ pre attrs inner rest, ¬ AttrFormOcc t xml pre attrs inner rest) ∧
      extractXMLTag xml t = []) := by
  cases h₁ : search (plainTagRe t) xml with
  | some wgr =>
    obtain ⟨w, g, r⟩ := wgr
    obtain ⟨pre, hocc, hleft⟩ := search_plainTagRe_eq_some h₁
    exact Or.inl ⟨pre, g, r, hocc, hleft, extractXMLTag_of_plain h₁⟩
  | none =>
    have hno := search_plainTagRe_eq_none.mp h₁
    cases h₂ : search (attrTagRe t) xml with
    | some wgr =>
      obtain ⟨w, g, r⟩ := wgr
      obtain ⟨pre, attrs, hocc, hleft⟩ := search_attrTagRe_eq_some h₂
      exact Or.inr (Or.inl ⟨hno, pre, attrs, g, r, hocc, hleft, extractXMLTag_of_attr h₁ h₂⟩)
    | none =>
      exact Or.inr (Or.inr ⟨hno, search_attrTagRe_eq_none.mp h₂, extractXMLTag_of_none h₁ h₂⟩)

/-- The amended C4 at the buffer `<title> Hi </title>` and the name `title`. -/
theorem extractXMLTag_spec_witness :
    alphanumeric "title".toList ∧
    ((∃ pre inner rest, PlainOcc "title".toList "<title> Hi </title>".toList pre inner rest ∧
      (∀ pre' inner' rest', PlainOcc "title".toList "<title> Hi </title>".toList
        pre' inner' rest' → pre.length ≤ pre'.length) ∧
      extractXMLTag "<title> Hi </title>".toList "title".toList = TrimSpace inner) ∨
    ((∀ pre inner rest, ¬ PlainOcc "title".toList "<title> Hi </title>".toList pre inner rest) ∧
      ∃ pre attrs inner rest,
        AttrFormOcc "title".toList "<title> Hi </title>".toList pre attrs inner rest ∧
        (∀ pre' attrs' inner' rest', AttrFormOcc "title".toList "<title> Hi </title>".toList
          pre' attrs' inner' rest' → pre.length ≤ pre'.length) ∧
        extractXMLTag "<title> Hi </title>".toList "title".toList = TrimSpace inner) ∨
    ((∀ pre inner rest, ¬ PlainOcc "title".toList "<title> Hi </title>".toList pre inner rest) ∧
      (∀ pre attrs inner rest,
        ¬ AttrFormOcc "title".toList "<title> Hi </title>".toList pre attrs inner rest) ∧
      extractXMLTag "<title> Hi </title>".toList "title".toList = [])) :=
  ⟨by decide, extractXMLTag_spec _ _ (by decide)⟩

/-- C4 as stated fails on nested markup: the buffer
`<a><b>x</b></a><a>y</a>` reads `<a>`, the inner text `<b>x</b>`, `</a>` and a
rest, so the first occurrence of `<a>...</a>` has the inner text `<b>x</b>`;
`extractXMLTag` returns `y`, the text of the second one. -/
theorem extractXMLTag_nested_counterexample :
    "<a><b>x</b></a><a>y</a>".toList =
        "<a>".toList ++ "<b>x</b>".toList ++ "</a>".toList ++ "<a>y</a>".toList ∧
      alphanumeric "a".toList ∧
      extractXMLTag "<a><b>x</b></a><a>y</a>".toList "a".toList = "y".toList ∧
      extractXMLTag "<a><b>x</b></a><a>y</a>".toList "a".toList ≠
        TrimSpace "<b>x</b>".toList := by
  decide

/-- C5, as amended: for alphanumeric names, `extractXMLTagAttr` returns the
value `v` at the leftmost place where the buffer reads `<t X a="v"`, the text
`X` holding no `>` and `v` no double quote, that is on the first opening tag
beginning with `<t` that carries the attribute; when several `a="..."` fit at
that place, the one with the longest `X`, the last one, is taken; and the
result is empty when the buffer has no such place. -/
theorem extractXMLTagAttr_spec (xml t a : GoString) (_ht : alphanumeric t)
    (_ha : alphanumeric a) :
    (∃ pre X v rest, AttrValueOcc t a xml pre X v rest ∧
      (∀ pre' X' v' rest', AttrValueOcc t a xml pre' X' v' rest' →
        pre.length ≤ pre'.length) ∧
      (∀ X' v' rest', AttrValueOcc t a xml pre X' v' rest' → X'.length ≤ X.length) ∧
      extractXMLTagAttr xml t a = v) ∨
    ((∀ pre X v rest, ¬ AttrValueOcc t a xml pre X v rest) ∧
      extractXMLTagAttr xml t a = []) := by
  cases h : search (tagAttrRe t a) xml with
  | some wgr =>
    obtain ⟨w, g, r⟩ := wgr
    obtain ⟨pre, X, hocc, hleft, hlast⟩ := search_tagAttrRe_eq_some h
    exact Or.inl ⟨pre, X, g, r, hocc, hleft, hlast, extractXMLTagAttr_of_some h⟩
  | none =>
    exact Or.inr ⟨search_tagAttrRe_eq_none.mp h, extractXMLTagAttr_of_none h⟩

/-- The amended C5 at the buffer `<size width="5"/>`. -/
theorem extractXMLTagAttr_spec_witness :
    alphanumeric "size".toList ∧ alphanumeric "width".toList ∧
    ((∃ pre X v rest,
      AttrValueOcc "size".toList "width".toList "<size width=\"5\"/>".toList pre X v rest ∧
      (∀ pre' X' v' rest',
        AttrValueOcc "size".toList "width".toList "<size width=\"5\"/>".toList
          pre' X' v' rest' → pre.length ≤ pre'.length) ∧
      (∀ X' v' rest',
        AttrValueOcc "size".toList "width".toList "<size width=\"5\"/>".toList
          pre X' v' rest' → X'.length ≤ X.length) ∧
      extractXMLTagAttr "<size width=\"5\"/>".toList "size".toList "width".toList = v) ∨
    ((∀ pre X v rest,
      ¬ AttrValueOcc "size".toList "width".toList "<size width=\"5\"/>".toList pre X v rest) ∧
      extractXMLTagAttr "<size width=\"5\"/>".toList "size".toList "width".toList = [])) :=
  ⟨by decide, by decide, extractXMLTagAttr_spec _ _ _ (by decide) (by decide)⟩

/-- C5 as stated fails when the first tag lacks the attribute: in
`<size/><size width="5"/>` the first opening tag named `size` carries no
`width`, and `extractXMLTagAttr` returns `5`, the value on the second tag,
not the empty text. -/
theorem extractXMLTagAttr_later_tag_counterexample :
    "<size/><size width=\"5\"/>".toList =
        "<size/>".toList ++ "<size width=\"5\"/>".toList ∧
      extractXMLTagAttr "<size/>".toList "size".toList "width".toList = [] ∧
      extractXMLTagAttr "<size/><size width=\"5\"/>".toList "size".toList "width".toList =
        "5".toList ∧
      extractXMLTagAttr "<size/><size width=\"5\"/>".toList "size".toList "width".toList ≠
        [] := by
  decide

/-! ## The location -/

theorem extractXMLTag_of_not_mem {s : GoString} (t : GoString) (h : '<' ∉ s) :
    extractXMLTag s t = [] := by
  apply extractXMLTag_of_none
  · rw [search_plainTagRe_eq_none]
    rintro pre inner rest ⟨hs, -⟩
    apply h
    rw [hs]
    simp [openTag]
  · rw [search_attrTagRe_eq_none]
    rintro pre attrs inner rest ⟨hs, -, -⟩
    apply h
    rw [hs]
    simp

theorem xmlContentLocation_not_mem (xml : GoString) : '<' ∉ xmlContentLocation xml := by
  unfold xmlContentLocation
  cases h : search locationRe xml with
  | none => simp [FindStringSubmatch_of_none h]
  | some wgr =>
    obtain ⟨w, g, r⟩ := wgr
    obtain ⟨pre, attrs, ⟨-, -, hg⟩, -⟩ := search_attrTagRe_eq_some (t := "location".toList) h
    simpa [FindStringSubmatch_of_some h] using hg

/-- The nested-tag step of `parseSNSLocation` never yields a text. -/
theorem nested_city_eq_nil (xml : GoString) :
    extractXMLTag (xmlContentLocation xml) "city".toList = [] :=
  extractXMLTag_of_not_mem _ (xmlContentLocation_not_mem xml)

theorem locationCity_eq (xml : GoString) :
    locationCity xml = extractXMLTagAttr xml "location".toList "city".toList := by
  unfold locationCity
  simp only [nested_city_eq_nil]
  split_ifs with h
  · exact h.symm
  · rfl

theorem parseSNSLocation_eq_none {F : Type} (L : Lib F) (xml : GoString) :
    parseSNSLocation L xml = none ↔
      locationCity xml = [] ∧ extractXMLTagAttr xml "location".toList "poiName".toList = [] := by
  unfold parseSNSLocation
  dsimp only
  split_ifs <;> simp_all

theorem parseSNSLocation_eq_some {F : Type} (L : Lib F) (xml : GoString) (loc : SNSLocation F)
    (h : parseSNSLocation L xml = some loc) :
    loc.City = locationCity xml ∧
      loc.POIName = extractXMLTagAttr xml "location".toList "poiName".toList := by
  unfold parseSNSLocation at h
  dsimp only at h
  split_ifs at h <;> simp only [Option.some.injEq] at h <;> subst h <;> exact ⟨rfl, rfl⟩

/-- C6: `parseSNSLocation` returns a location exactly when the decoded city
or the decoded POI name is not empty, whatever the latitude and longitude
texts parse to; a location that is returned carries that city and that POI
name, one of them not empty; and a payload whose location tag has neither a
city nor a POI name attribute gets no location, as
`<location latitude="39.9" longitude="116.4"></location>` shows. -/
theorem parseSNSLocation_presence {F : Type} (L : Lib F) (xml : GoString) :
    ((parseSNSLocation L xml).isSome ↔
      (locationCity xml ≠ [] ∨
        extractXMLTagAttr xml "location".toList "poiName".toList ≠ [])) ∧
    (∀ loc, parseSNSLocation L xml = some loc →
      loc.City = locationCity xml ∧
      loc.POIName = extractXMLTagAttr xml "location".toList "poiName".toList ∧
      (loc.City ≠ [] ∨ loc.POIName ≠ [])) ∧
    (extractXMLTagAttr xml "location".toList "city".toList = [] ∧
      extractXMLTagAttr xml "location".toList "poiName".toList = [] →
      parseSNSLocation L xml = none) ∧
    parseSNSLocation L "<location latitude=\"39.9\" longitude=\"116.4\"></location>".toList =
      none := by
  have hnone := parseSNSLocation_eq_none L xml
  refine ⟨?_, ?_, ?_, ?_⟩
  · rw [Option.isSome_iff_ne_none, Ne, hnone]
    tauto
  · intro loc hloc
    obtain ⟨hc, hp⟩ := parseSNSLocation_eq_some L xml loc hloc
    refine ⟨hc, hp, ?_⟩
    rw [hc, hp]
    by_contra hcon
    have : parseSNSLocation L xml = none := hnone.mpr (by tauto)
    rw [this] at hloc
    cases hloc
  · rintro ⟨hc, hp⟩
    exact hnone.mpr ⟨by rw [locationCity_eq, hc], hp⟩
  · rw [parseSNSLocation_eq_none, locationCity_eq]
    decide

/-- C7 fails on the code: the text that `xmlContentLocation` returns holds no
`<`, so the nested `city` tag is never found in it; on
`<location><city>Paris</city></location>` the decoded city is empty and
`parseSNSLocation` returns no location, where C7 promises the city `Paris`. -/
theorem parseSNSLocation_nested_city_lost :
    (∀ xml, extractXMLTag (xmlContentLocation xml) "city".toList = []) ∧
    extractXMLTag "<city>Paris</city>".toList "city".toList = "Paris".toList ∧
    xmlContentLocation "<location><city>Paris</city></location>".toList = [] ∧
    locationCity "<location><city>Paris</city></location>".toList = [] ∧
    ∀ (F : Type) (L : Lib F),
      parseSNSLocation L "<location><city>Paris</city></location>".toList = none := by
  refine ⟨nested_city_eq_nil, by decide, by decide, by decide, ?_⟩
  intro F L
  rw [parseSNSLocation_eq_none]
  decide

/-! ## The media lists -/

theorem findAllAux_length (re : Regexp) :
    ∀ n s, ∀ found ∈ findAllAux re n s, found.length = 2 := by
  intro n
  induction n with
  | zero => intro s found h; simp [findAllAux] at h
  | succ n ih =>
    intro s found h
    unfold findAllAux at h
    cases hs : search re s with
    | none => simp [hs] at h
    | some wgr =>
      obtain ⟨w, g, r⟩ := wgr
      simp only [hs, List.mem_cons] at h
      rcases h with rfl | h
      · rfl
      · exact ih r found h

theorem FindAllStringSubmatch_length (re : Regexp) (s : GoString) :
    ∀ found ∈ FindAllStringSubmatch re s, found.length = 2 :=
  findAllAux_length re _ s

theorem foldl_found (f : GoString → SNSMedia) (l : List (List GoString))
    (h : ∀ found ∈ l, found.length = 2) (acc : List SNSMedia) :
    l.foldl (fun mediaList found =>
        if found.length > 1 then mediaList ++ [f (found.getD 1 [])] else mediaList) acc =
      acc ++ l.map (fun found => f (found.getD 1 [])) := by
  induction l generalizing acc with
  | nil => simp
  | cons a l ih =>
    have ha : a.length > 1 := by rw [h a (List.mem_cons_self _ _)]; decide
    simp only [List.foldl_cons, ha, if_true, List.map_cons]
    rw [ih (fun found hf => h found (List.mem_cons_of_mem _ hf))]
    simp

theorem parseSNSImageMedia_eq_map (xml : GoString) :
    parseSNSImageMedia xml =
      (FindAllStringSubmatch mediaRe xml).map (fun found => imageMedia (found.getD 1 [])) := by
  unfold parseSNSImageMedia
  rw [foldl_found imageMedia _ (FindAllStringSubmatch_length mediaRe xml)]
  simp

theorem parseSNSVideoMedia_eq_map {F : Type} (L : Lib F) (xml : GoString) :
    parseSNSVideoMedia L xml =
      (FindAllStringSubmatch mediaRe xml).map (fun found => videoMedia L (found.getD 1 [])) := by
  unfold parseSNSVideoMedia
  rw [foldl_found (videoMedia L) _ (FindAllStringSubmatch_length mediaRe xml)]
  simp

theorem withSize_fields (media : SNSMedia) (m : GoString) :
    (withSize media m).MediaType = media.MediaType ∧ (withSize media m).URL = media.URL ∧
      (withSize media m).ThumbURL = media.ThumbURL ∧
      (withSize media m).Duration = media.Duration := by
  unfold withSize
  dsimp only
  split_ifs <;> exact ⟨rfl, rfl, rfl, rfl⟩

theorem imageMedia_fields (m : GoString) :
    (imageMedia m).MediaType = "image".toList ∧
      (imageMedia m).URL =
        (if extractXMLTag m "url".toList ≠ [] then extractXMLTag m "url".toList
         else extractXMLTag m "thumb".toList) ∧
      (imageMedia m).Duration = [] ∧ (imageMedia m).ThumbURL = [] := by
  unfold imageMedia
  dsimp only
  obtain ⟨h1, h2, h3, h4⟩ := withSize_fields
    { newMedia "image".toList with
      URL := if extractXMLTag m "url".toList = [] then extractXMLTag m "thumb".toList
        else extractXMLTag m "url".toList } m
  refine ⟨h1, ?_, h4, h3⟩
  rw [h2]
  dsimp only
  by_cases hu : extractXMLTag m "url".toList = []
  · simp [hu]
  · simp [hu]

/-- C8 fails on the code: `.` accepts no line feed, so a media block whose
inner text holds a line break is not matched by `<media>(.*?)</media>`; the
one-block payload below yields no item from either loop, where C8 promises
one, and the same block on one line yields its item. -/
theorem media_block_with_line_break_lost :
    parseSNSImageMedia "<media>\n<url>u</url>\n</media>".toList = [] ∧
    (∀ (F : Type) (L : Lib F),
      parseSNSVideoMedia L "<media>\n<url>u</url>\n</media>".toList = []) ∧
    (parseSNSImageMedia "<media><url>u</url></media>".toList).map (fun item => item.URL) =
      ["u".toList] := by
  refine ⟨by decide, ?_, by decide⟩
  intro F L
  rw [parseSNSVideoMedia_eq_map,
    show FindAllStringSubmatch mediaRe "<media>\n<url>u</url>\n</media>".toList = [] from by
      decide]
  rfl

/-- C9: the items of `parseSNSImageMedia` are, in order, one per match of the
media pattern, and the item built from the block text `m` of its match has the
type `image`, the URL `extractXMLTag(m, "url")` when that is not empty and
`extractXMLTag(m, "thumb")` otherwise, and empty `Duration` and `ThumbURL`. -/
theorem parseSNSImageMedia_items (xml : GoString) :
    List.Forall₂
      (fun found item =>
        item = imageMedia (found.getD 1 []) ∧
        item.MediaType = "image".toList ∧
        item.URL =
          (if extractXMLTag (found.getD 1 []) "url".toList ≠ [] then
            extractXMLTag (found.getD 1 []) "url".toList
           else extractXMLTag (found.getD 1 []) "thumb".toList) ∧
        item.Duration = [] ∧ item.ThumbURL = [])
      (FindAllStringSubmatch mediaRe xml) (parseSNSImageMedia xml) := by
  rw [parseSNSImageMedia_eq_map, List.forall₂_map_right_iff]
  apply List.forall₂_same.mpr
  intro found _
  exact ⟨rfl, imageMedia_fields _⟩

/-- The duration of a video item, in terms of the library functions on
`float64`: empty when the `videoDuration` text is empty or `ParseFloat`
reports an error, the two-decimal text and the seconds marker otherwise. -/
theorem videoMedia_Duration {F : Type} (L : Lib F) (m : GoString) :
    (videoMedia L m).Duration =
      (if extractXMLTag m "videoDuration".toList = [] then []
       else
        match L.parseFloat (extractXMLTag m "videoDuration".toList) with
        | (d, none) => L.formatFloat2 d ++ secondsMark
        | (_, some _) => []) := by
  unfold videoMedia
  dsimp only
  have hw := (withSize_fields
    { newMedia "video".toList with
      URL := extractXMLTag m "url".toList, ThumbURL := extractXMLTag m "thumb".toList } m).2.2.2
  by_cases hd : extractXMLTag m "videoDuration".toList = []
  · simp only [hd, ne_eq, not_true_eq_false, if_false, if_true]
    exact hw
  · simp only [hd, ne_eq, not_false_eq_true, if_true, if_false]
    rcases hp : L.parseFloat (extractXMLTag m "videoDuration".toList) with ⟨d, _ | e⟩
    · rfl
    · exact hw

/-! ## Media blocks on one line -/

theorem matchHere_lit_append (A : GoString) (p : Regexp) (s : GoString) :
    matchHere (lit A ++ p) (A ++ s) = matchHere p s := by
  induction A with
  | nil => rfl
  | cons c A ih =>
    have hl : lit (c :: A) ++ p = Node.one (Atom.chr c) :: (lit A ++ p) := rfl
    rw [hl]
    simp only [List.cons_append, matchHere, Atom.accepts, beq_self_eq_true, if_true]
    exact ih

theorem mediaRe_eq :
    mediaRe = lit "<media>".toList ++ (Node.lazyStar Atom.dot true :: lit "</media>".toList) := by
  simp [mediaRe]

/-- The closing tag of a block starts nowhere inside it but at its own place. -/
theorem closer_not_inside (v rest r : GoString) (hv : v ≠ [])
    (hin : ∀ u w, v ≠ u ++ "</media>".toList ++ w)
    (h : v ++ ("</media>".toList ++ rest) = "</media>".toList ++ r) : False := by
  have hc : "</media>".toList = ['<', '/', 'm', 'e', 'd', 'i', 'a', '>'] := rfl
  rw [hc] at h hin
  rcases v with _ | ⟨c1, _ | ⟨c2, _ | ⟨c3, _ | ⟨c4, _ | ⟨c5, _ | ⟨c6, _ | ⟨c7, _ | ⟨c8, v⟩⟩⟩⟩⟩⟩⟩⟩
  · exact hv rfl
  all_goals simp only [List.cons_append, List.nil_append, List.cons.injEq] at h
  · exact absurd h.2.1 (by decide)
  · exact absurd h.2.2.1 (by decide)
  · exact absurd h.2.2.2.1 (by decide)
  · exact absurd h.2.2.2.2.1 (by decide)
  · exact absurd h.2.2.2.2.2.1 (by decide)
  · exact absurd h.2.2.2.2.2.2.1 (by decide)
  · exact absurd h.2.2.2.2.2.2.2.1 (by decide)
  · obtain ⟨rfl, rfl, rfl, rfl, rfl, rfl, rfl, rfl, -⟩ := h
    exact hin [] v (by simp)

theorem starLazy_block (A rest : GoString) (hlf : lf ∉ A)
    (hin : ∀ u w, A ≠ u ++ "</media>".toList ++ w) :
    starLazy Atom.dot.accepts true (matchHere (lit "</media>".toList))
      (A ++ ("</media>".toList ++ rest)) = some (A, rest) := by
  induction A with
  | nil =>
    have hk : matchHere (lit "</media>".toList) ("</media>".toList ++ rest) = some ([], rest) := by
      have := matchHere_lit_append "</media>".toList [] rest
      rw [List.append_nil] at this
      rw [this]; rfl
    have hcons : "</media>".toList ++ rest = '<' :: ("/media>".toList ++ rest) := rfl
    rw [List.nil_append]
    rw [hcons] at hk ⊢
    unfold starLazy
    rw [hk]
  | cons c A ih =>
    have hk : matchHere (lit "</media>".toList) (c :: A ++ ("</media>".toList ++ rest)) = none := by
      cases hm : matchHere (lit "</media>".toList) (c :: A ++ ("</media>".toList ++ rest)) with
      | none => rfl
      | some gr =>
        obtain ⟨g, r⟩ := gr
        obtain ⟨hs, -⟩ := (Matches_lit_nil _ _ _ _).mp (matchHere_sound _ _ _ _ hm)
        exact (closer_not_inside (c :: A) rest r (by simp) hin hs).elim
    have hc : Atom.dot.accepts c = true := by
      simp only [Atom.accepts, bne_iff_ne, ne_eq]
      intro hcl
      exact hlf (hcl ▸ List.mem_cons_self _ _)
    have ih' := ih (fun hmem => hlf (List.mem_cons_of_mem _ hmem))
      (fun u w hA => hin (c :: u) w (by rw [hA]; rfl))
    rw [List.cons_append]
    unfold starLazy
    rw [← List.cons_append, hk]
    simp only [hc, if_true]
    rw [ih']

theorem matchHere_mediaRe_block (A rest : GoString) (hlf : lf ∉ A)
    (hin : ∀ u w, A ≠ u ++ "</media>".toList ++ w) :
    matchHere mediaRe (mediaBlock A ++ rest) = some (A, rest) := by
  have hs : mediaBlock A ++ rest = "<media>".toList ++ (A ++ ("</media>".toList ++ rest)) := by
    simp [mediaBlock]
  rw [hs, mediaRe_eq, matchHere_lit_append]
  exact starLazy_block A rest hlf hin

theorem search_mediaRe_block (A rest : GoString) (hlf : lf ∉ A)
    (hin : ∀ u w, A ≠ u ++ "</media>".toList ++ w) :
    search mediaRe (mediaBlock A ++ rest) = some (mediaBlock A, A, rest) := by
  have hm := matchHere_mediaRe_block A rest hlf hin
  have hcons : mediaBlock A ++ rest = '<' :: ("media>".toList ++ A ++ "</media>".toList ++ rest) := by
    simp [mediaBlock]
  have hlen : (mediaBlock A ++ rest).length - rest.length = (mediaBlock A).length := by simp
  have htake : (mediaBlock A ++ rest).take ((mediaBlock A ++ rest).length - rest.length) =
      mediaBlock A := by
    rw [hlen]; simp
  rw [hcons] at hm htake ⊢
  unfold search
  rw [hm]
  simp only [Option.some.injEq, Prod.mk.injEq, and_true]
  exact htake

theorem search_mediaRe_nil : search mediaRe [] = none := by decide

theorem findAllAux_blocks (As : List GoString) (h : ∀ A ∈ As, lf ∉ A ∧
    ∀ u w, A ≠ u ++ "</media>".toList ++ w) :
    ∀ n, As.length < n →
      findAllAux mediaRe n (As.map mediaBlock).flatten = As.map fun A => [mediaBlock A, A] := by
  induction As with
  | nil =>
    intro n hn
    cases n with
    | zero => simp at hn
    | succ n => simp [findAllAux, search_mediaRe_nil]
  | cons A As ih =>
    intro n hn
    cases n with
    | zero => simp at hn
    | succ n =>
      obtain ⟨hlf, hin⟩ := h A (List.mem_cons_self _ _)
      simp only [List.map_cons, List.flatten_cons]
      unfold findAllAux
      rw [search_mediaRe_block A _ hlf hin]
      simp only [List.cons.injEq, true_and]
      exact ih (fun B hB => h B (List.mem_cons_of_mem _ hB)) n (by simpa using hn)

/-- A match of the media pattern is not empty: the input left is shorter. -/
theorem search_mediaRe_shorter {s w g r : GoString}
    (h : search mediaRe s = some (w, g, r)) : r.length < s.length := by
  obtain ⟨pre, hs, hm, -⟩ := search_eq_some h
  have hM := matchHere_sound _ _ _ _ hm
  rw [mediaRe_eq] at hM
  obtain ⟨s', hs', hM'⟩ := (Matches_lit _ _ _ _ _).mp hM
  obtain ⟨w', hw'⟩ := Matches_suffix _ _ _ _ hM'
  have hlen := congrArg List.length hs
  have hlen' := congrArg List.length hs'
  have hlen'' := congrArg List.length hw'
  simp only [List.length_append] at hlen hlen' hlen''
  have h7 : "<media>".toList.length = 7 := rfl
  omega

/-- The fuel of `FindAllStringSubmatch` is enough on the media pattern: more
fuel finds the same matches. -/
theorem findAllAux_mediaRe_fuel :
    ∀ n m s, s.length < n → s.length < m → findAllAux mediaRe n s = findAllAux mediaRe m s := by
  intro n
  induction n with
  | zero => intro m s hn; simp at hn
  | succ n ih =>
    intro m s hn hm
    cases m with
    | zero => simp at hm
    | succ m =>
      unfold findAllAux
      cases hs : search mediaRe s with
      | none => rfl
      | some wgr =>
        obtain ⟨w, g, r⟩ := wgr
        have hr := search_mediaRe_shorter hs
        simp only [List.cons.injEq, true_and]
        exact ih m r (by omega) (by omega)

theorem FindAllStringSubmatch_blocks (As : List GoString)
    (h : ∀ A ∈ As, lf ∉ A ∧ ∀ u w, A ≠ u ++ "</media>".toList ++ w) :
    FindAllStringSubmatch mediaRe (As.map mediaBlock).flatten =
      As.map fun A => [mediaBlock A, A] := by
  apply findAllAux_blocks As h
  have : As.length ≤ (As.map mediaBlock).flatten.length := by
    induction As with
    | nil => simp
    | cons A As ih =>
      have := ih (fun B hB => h B (List.mem_cons_of_mem _ hB))
      simp only [List.map_cons, List.flatten_cons, List.length_append, List.length_cons]
      have h9 : 1 ≤ (mediaBlock A).length := by simp [mediaBlock]
      omega
  omega

/-- Three blocks on one line each, in document order. -/
theorem media_three_blocks_in_order :
    (parseSNSImageMedia
      "<media><url>A</url></media><media><url>B</url></media><media><url>C</url></media>".toList).map
        (fun item => item.URL) = ["A".toList, "B".toList, "C".toList] := by
  decide

/-- What the two media loops do in document order: on a payload made of
consecutive blocks `<media>A</media>` whose inner texts hold neither a line
feed nor `</media>`, each loop returns the items of the inner texts, one per
block and in the order of the blocks. -/
theorem media_lists_of_blocks {F : Type} (L : Lib F) (As : List GoString)
    (h : ∀ A ∈ As, lf ∉ A ∧ ∀ u w, A ≠ u ++ "</media>".toList ++ w) :
    parseSNSImageMedia (As.map mediaBlock).flatten = As.map imageMedia ∧
    parseSNSVideoMedia L (As.map mediaBlock).flatten = As.map (videoMedia L) := by
  rw [parseSNSImageMedia_eq_map, parseSNSVideoMedia_eq_map, FindAllStringSubmatch_blocks As h]
  simp [List.map_map, Function.comp_def]

/-! ## Width and height -/

theorem withSize_size (media : SNSMedia) (m : GoString) :
    (withSize media m).Width =
        (if extractXMLTagAttr m "size".toList "width".toList ≠ [] then
          (Atoi (extractXMLTagAttr m "size".toList "width".toList)).1 else media.Width) ∧
      (withSize media m).Height =
        (if extractXMLTagAttr m "size".toList "height".toList ≠ [] then
          (Atoi (extractXMLTagAttr m "size".toList "height".toList)).1 else media.Height) := by
  unfold withSize
  dsimp only
  split_ifs <;> exact ⟨rfl, rfl⟩

theorem imageMedia_size (m : GoString) :
    (imageMedia m).Width =
        (if extractXMLTagAttr m "size".toList "width".toList ≠ [] then
          (Atoi (extractXMLTagAttr m "size".toList "width".toList)).1 else 0) ∧
      (imageMedia m).Height =
        (if extractXMLTagAttr m "size".toList "height".toList ≠ [] then
          (Atoi (extractXMLTagAttr m "size".toList "height".toList)).1 else 0) := by
  unfold imageMedia
  dsimp only
  exact withSize_size _ m

theorem videoMedia_size {F : Type} (L : Lib F) (m : GoString) :
    (videoMedia L m).Width =
        (if extractXMLTagAttr m "size".toList "width".toList ≠ [] then
          (Atoi (extractXMLTagAttr m "size".toList "width".toList)).1 else 0) ∧
      (videoMedia L m).Height =
        (if extractXMLTagAttr m "size".toList "height".toList ≠ [] then
          (Atoi (extractXMLTagAttr m "size".toList "height".toList)).1 else 0) := by
  have hw := withSize_size
    { newMedia "video".toList with
      URL := extractXMLTag m "url".toList, ThumbURL := extractXMLTag m "thumb".toList } m
  have hv : (videoMedia L m).Width = (withSize
    { newMedia "video".toList with
      URL := extractXMLTag m "url".toList, ThumbURL := extractXMLTag m "thumb".toList } m).Width ∧
      (videoMedia L m).Height = (withSize
    { newMedia "video".toList with
      URL := extractXMLTag m "url".toList, ThumbURL := extractXMLTag m "thumb".toList } m).Height := by
    unfold videoMedia
    dsimp only
    split_ifs
    · rcases L.parseFloat (extractXMLTag m "videoDuration".toList) with ⟨d, _ | e⟩ <;>
        exact ⟨rfl, rfl⟩
    · exact ⟨rfl, rfl⟩
  rw [hv.1, hv.2]
  exact hw
/-- A text that `Atoi` rejects for its syntax yields the value 0. -/
theorem ParseInt_syntax (s : GoString) (h : (ParseInt s).2 = some NumError.ErrSyntax) :
    (ParseInt s).1 = 0 := by
  unfold ParseInt at h ⊢
  cases s with
  | nil => rfl
  | cons c t =>
    dsimp only at h ⊢
    rcases hp : ParseUint (if (c == '+' || c == '-') = true then t else c :: t) with ⟨un, _ | e⟩
    · rw [hp] at h
      dsimp only at h
      split_ifs at h <;> simp at h
    · cases e with
      | ErrSyntax => rfl
      | ErrRange =>
        rw [hp] at h
        dsimp only at h
        split_ifs at h <;> simp at h

/-- The payload of one media block whose size is out of the integer range. -/
theorem size_out_of_range_block :
    FindAllStringSubmatch mediaRe
        "<media><size width=\"99999999999999999999\" height=\"-99999999999999999999\"/></media>".toList =
      [["<media><size width=\"99999999999999999999\" height=\"-99999999999999999999\"/></media>".toList,
        "<size width=\"99999999999999999999\" height=\"-99999999999999999999\"/>".toList]] ∧
    extractXMLTagAttr
        "<size width=\"99999999999999999999\" height=\"-99999999999999999999\"/>".toList
        "size".toList "width".toList = "99999999999999999999".toList ∧
    extractXMLTagAttr
        "<size width=\"99999999999999999999\" height=\"-99999999999999999999\"/>".toList
        "size".toList "height".toList = "-99999999999999999999".toList ∧
    Atoi "99999999999999999999".toList = (9223372036854775807, some NumError.ErrRange) ∧
    Atoi "-99999999999999999999".toList = (-9223372036854775808, some NumError.ErrRange) :=
  ⟨by decide, by decide, by decide, by decide, by decide⟩

/-- C11 fails on the code: the two media loops keep the value that `Atoi`
returns and drop its error, and on a text out of range that value is the
clamped bound, not 0. The width `99999999999999999999` gives
`9223372036854775807` in both loops; the text of an integer in range gives its
value, and an absent attribute or a syntax error gives 0, as C11 says. -/
theorem media_size_out_of_range_clamped :
    (parseSNSImageMedia
      "<media><size width=\"99999999999999999999\" height=\"-99999999999999999999\"/></media>".toList).map
        (fun item => (item.Width, item.Height)) =
      [(9223372036854775807, -9223372036854775808)] ∧
    (∀ (F : Type) (L : Lib F),
      (parseSNSVideoMedia L
        "<media><size width=\"99999999999999999999\" height=\"-99999999999999999999\"/></media>".toList).map
          (fun item => (item.Width, item.Height)) =
        [(9223372036854775807, -9223372036854775808)]) ∧
    (∀ m : GoString,
      (extractXMLTagAttr m "size".toList "width".toList = [] → (imageMedia m).Width = 0) ∧
      ((Atoi (extractXMLTagAttr m "size".toList "width".toList)).2 = some NumError.ErrSyntax →
        (imageMedia m).Width = 0) ∧
      (extractXMLTagAttr m "size".toList "width".toList ≠ [] →
        (imageMedia m).Width = (Atoi (extractXMLTagAttr m "size".toList "width".toList)).1)) := by
  obtain ⟨hall, hw, hh, haw, hah⟩ := size_out_of_range_block
  have e1 : "99999999999999999999".toList ≠ [] := by decide
  have e2 : "-99999999999999999999".toList ≠ [] := by decide
  refine ⟨?_, ?_, ?_⟩
  · rw [parseSNSImageMedia_eq_map, hall]
    simp only [List.map_cons, List.map_nil, List.getD_cons_succ, List.getD_cons_zero]
    obtain ⟨h1, h2⟩ := imageMedia_size
      "<size width=\"99999999999999999999\" height=\"-99999999999999999999\"/>".toList
    rw [h1, h2, hw, hh, if_pos e1, if_pos e2, haw, hah]
  · intro F L
    rw [parseSNSVideoMedia_eq_map, hall]
    simp only [List.map_cons, List.map_nil, List.getD_cons_succ, List.getD_cons_zero]
    obtain ⟨h1, h2⟩ := videoMedia_size L
      "<size width=\"99999999999999999999\" height=\"-99999999999999999999\"/>".toList
    rw [h1, h2, hw, hh, if_pos e1, if_pos e2, haw, hah]
  · intro m
    obtain ⟨h1, -⟩ := imageMedia_size m
    refine ⟨?_, ?_, ?_⟩
    · intro h; rw [h1, if_neg (not_not.mpr h)]
    · intro h
      rw [h1]
      split_ifs
      · exact ParseInt_syntax _ h
      · rfl
    · intro h; rw [h1, if_pos h]

/-! ## The article -/

theorem parseSNSArticle_eq_none (x : GoString) :
    parseSNSArticle x = none ↔
      extractXMLTag x "title".toList = [] ∧ extractXMLTag x "contentUrl".toList = [] := by
  unfold parseSNSArticle
  dsimp only
  generalize extractXMLTag x "title".toList = title
  generalize extractXMLTag x "contentUrl".toList = url
  split_ifs <;> simp_all

theorem parseSNSArticle_eq_some (x : GoString) (a : SNSArticle) (h : parseSNSArticle x = some a) :
    a.Title = extractXMLTag x "title".toList ∧
      a.Description = extractXMLTag x "description".toList ∧
      a.URL = extractXMLTag x "contentUrl".toList := by
  unfold parseSNSArticle at h
  dsimp only at h
  split_ifs at h <;> simp only [Option.some.injEq] at h <;> subst h <;> exact ⟨rfl, rfl, rfl⟩

/-- C12: `parseSNSArticle` returns no article exactly when the decoded title
and the decoded `contentUrl` are both empty, whatever the description and the
cover; an article that is returned carries the decoded title and URL; and a
payload of type 3 with neither has the category `article` and no article, as
the payload with only a description shows. -/
theorem parseSNSArticle_presence {F : Type} (L : Lib F) (x : GoString) :
    (parseSNSArticle x = none ↔
      extractXMLTag x "title".toList = [] ∧ extractXMLTag x "contentUrl".toList = []) ∧
    (∀ a, parseSNSArticle x = some a →
      a.Title = extractXMLTag x "title".toList ∧ a.URL = extractXMLTag x "contentUrl".toList ∧
      (a.Title ≠ [] ∨ a.URL ≠ [])) ∧
    (extractXMLTag x "type".toList = "3".toList ∧ extractXMLTag x "title".toList = [] ∧
        extractXMLTag x "contentUrl".toList = [] →
      ∃ post, ParseSNSContent L x = (some post, none) ∧
        post.ContentType = "article".toList ∧ post.Article = none) ∧
    (extractXMLTag "<type>3</type><description>d</description>".toList "description".toList =
        "d".toList ∧
      ∃ post, ParseSNSContent L "<type>3</type><description>d</description>".toList =
          (some post, none) ∧
        post.ContentType = "article".toList ∧ post.Article = none) := by
  have hgen : ∀ y : GoString, extractXMLTag y "type".toList = "3".toList ∧
      extractXMLTag y "title".toList = [] ∧ extractXMLTag y "contentUrl".toList = [] →
      ∃ post, ParseSNSContent L y = (some post, none) ∧
        post.ContentType = "article".toList ∧ post.Article = none := by
    rintro y ⟨ht, h1, h2⟩
    obtain ⟨post, hp, -, -, -, hc, -, ha, -⟩ := ParseSNSContent_fields L y
    have hct : parseSNSContentType (extractXMLTag y "type".toList) = "article".toList := by
      rw [ht]; decide
    refine ⟨post, hp, hc.trans hct, ?_⟩
    rw [ha, if_pos hct]
    exact (parseSNSArticle_eq_none y).mpr ⟨h1, h2⟩
  refine ⟨parseSNSArticle_eq_none x, ?_, hgen x, by decide, ?_⟩
  · intro a ha
    obtain ⟨h1, -, h3⟩ := parseSNSArticle_eq_some x a ha
    refine ⟨h1, h3, ?_⟩
    rw [h1, h3]
    by_contra hcon
    have : parseSNSArticle x = none := (parseSNSArticle_eq_none x).mpr (by tauto)
    rw [this] at ha
    cases ha
  · exact hgen _ ⟨by decide, by decide, by decide⟩

/-! ## Decimal texts: `%d` followed by `ParseInt` -/

theorem digit_toNat : ∀ d, d < 10 → (Char.ofNat (48 + d)).toNat = 48 + d := by decide

theorem parseUintLoop_digit (c : Char) (rest : GoString) (M d : Nat) (hd : d < 10)
    (hc : c.toNat = 48 + d) (hM : M * 10 + d < 2 ^ 64) :
    parseUintLoop (c :: rest) M = parseUintLoop rest (M * 10 + d) := by
  rw [parseUintLoop]
  have h1 : 48 ≤ c.toNat ∧ c.toNat ≤ 57 := by omega
  have h2 : ¬ M ≥ (2 ^ 64 - 1) / 10 + 1 := by norm_num at hM ⊢; omega
  have h3 : c.toNat - 48 = d := by omega
  have h4 : ¬ M * 10 + d > 2 ^ 64 - 1 := by norm_num at hM ⊢; omega
  simp only [h1, and_self, if_true, h2, if_false, h3, h4]

theorem natDigits_spec :
    ∀ fuel n acc, n < fuel →
      ∃ ds, natDigits fuel n acc = ds ++ acc ∧ ds ≠ [] ∧
        (∀ c ∈ ds, 48 ≤ c.toNat ∧ c.toNat ≤ 57) ∧
        ∀ m rest, m * 10 ^ ds.length + n < 2 ^ 64 →
          parseUintLoop (ds ++ rest) m = parseUintLoop rest (m * 10 ^ ds.length + n) := by
  intro fuel
  induction fuel with
  | zero => intro n acc h; omega
  | succ fuel ih =>
    intro n acc hn
    have hlt : n % 10 < 10 := Nat.mod_lt _ (by decide)
    have hc := digit_toNat (n % 10) hlt
    unfold natDigits
    dsimp only
    by_cases h0 : n / 10 = 0
    · rw [if_pos h0]
      have hn10 : n % 10 = n := by omega
      refine ⟨[Char.ofNat (48 + n % 10)], rfl, by simp, ?_, ?_⟩
      · intro c hcm
        rw [List.mem_singleton.mp hcm, hc]
        omega
      · intro m rest hm
        simp only [List.length_singleton, pow_one] at hm ⊢
        rw [List.singleton_append, parseUintLoop_digit _ rest m (n % 10) hlt hc (by omega), hn10]
    · rw [if_neg h0]
      obtain ⟨ds, hds, hne, hdig, hparse⟩ :=
        ih (n / 10) (Char.ofNat (48 + n % 10) :: acc) (by omega)
      refine ⟨ds ++ [Char.ofNat (48 + n % 10)], by rw [hds]; simp, by simp, ?_, ?_⟩
      · intro c hcm
        rcases List.mem_append.mp hcm with h | h
        · exact hdig c h
        · rw [List.mem_singleton.mp h, hc]
          omega
      · intro m rest hm
        have hpow : m * 10 ^ (ds ++ [Char.ofNat (48 + n % 10)]).length =
            m * 10 ^ ds.length * 10 := by
          rw [List.length_append, List.length_singleton, pow_succ, Nat.mul_assoc]
        rw [hpow] at hm ⊢
        have e : ds ++ [Char.ofNat (48 + n % 10)] ++ rest =
            ds ++ (Char.ofNat (48 + n % 10) :: rest) := by simp
        rw [e, hparse m _ (by omega),
          parseUintLoop_digit _ rest _ (n % 10) hlt hc (by omega)]
        congr 1
        omega

theorem ParseUint_natDigits (n : Nat) (h : n < 2 ^ 64) :
    ∃ ds, natDigits (n + 1) n [] = ds ∧ ds ≠ [] ∧
      (∀ c ∈ ds, 48 ≤ c.toNat ∧ c.toNat ≤ 57) ∧ ParseUint ds = (n, none) := by
  obtain ⟨ds, hds, hne, hdig, hparse⟩ := natDigits_spec (n + 1) n [] (by omega)
  rw [List.append_nil] at hds
  refine ⟨ds, hds, hne, hdig, ?_⟩
  have := hparse 0 [] (by simpa using h)
  rw [List.append_nil] at this
  unfold ParseUint
  rw [if_neg hne, this]
  simp [parseUintLoop]

/-- The text that `%d` prints for an `int64` is read back by `ParseInt`. -/
theorem ParseInt_formatInt (d : Int) (h1 : -2 ^ 63 ≤ d) (h2 : d < 2 ^ 63) :
    ParseInt (formatInt d) = (d, none) ∧ formatInt d ≠ [] := by
  obtain ⟨ds, hds, hne, hdig, hparse⟩ := ParseUint_natDigits d.natAbs (by omega)
  unfold formatInt
  rw [hds]
  by_cases hneg : d < 0
  · rw [if_pos hneg]
    refine ⟨?_, by simp⟩
    unfold ParseInt
    simp only [beq_self_eq_true, Bool.or_true, if_true, hparse]
    have hb : ¬ (d.natAbs > 2 ^ 63) := by omega
    simp only [Bool.not_true, Bool.false_and, Bool.false_eq_true, if_false, Bool.true_and,
      decide_eq_true_eq, hb]
    congr 1
    omega
  · rw [if_neg hneg]
    refine ⟨?_, hne⟩
    cases ds with
    | nil => exact absurd rfl hne
    | cons c t =>
      have hc := hdig c (List.mem_cons_self _ _)
      have hplus : (c == '+') = false := by
        rw [beq_eq_false_iff_ne]
        rintro rfl
        revert hc; decide
      have hminus : (c == '-') = false := by
        rw [beq_eq_false_iff_ne]
        rintro rfl
        revert hc; decide
      unfold ParseInt
      simp only [hplus, hminus, Bool.or_self, Bool.false_eq_true, if_false, hparse]
      have hb : ¬ (d.natAbs ≥ 2 ^ 63) := by omega
      simp only [Bool.not_false, Bool.true_and, decide_eq_true_eq, hb, if_false,
        Bool.false_and, Bool.false_eq_true]
      congr 1
      omega


/-! ## The duration of a video -/

theorem decimalDigit_ofNat (d : Nat) (h : d < 10) : decimalDigit (Char.ofNat (48 + d)) = true := by
  unfold decimalDigit
  rw [digit_toNat d h]
  simp only [Nat.le_add_right, true_and, decide_eq_true_eq]
  omega

theorem twoDecimals_digits (ds : GoString) (a b : Char) (hne : ds ≠ [])
    (hds : ∀ c ∈ ds, 48 ≤ c.toNat ∧ c.toNat ≤ 57) (ha : decimalDigit a = true)
    (hb : decimalDigit b = true) : twoDecimals (ds ++ ['.', a, b]) = true := by
  cases ds with
  | nil => exact absurd rfl hne
  | cons c t =>
    have hc := hds c (List.mem_cons_self _ _)
    have hhead : ¬ ((c :: t ++ ['.', a, b]).head? = some '-') := by
      simp only [List.cons_append, List.head?_cons, Option.some.injEq]
      rintro rfl
      revert hc
      decide
    unfold twoDecimals
    dsimp only
    rw [if_neg hhead]
    have hrev : (c :: t ++ ['.', a, b]).reverse = b :: a :: '.' :: (c :: t).reverse := by
      simp
    rw [hrev]
    simp only [ha, hb, beq_self_eq_true, Bool.and_self, Bool.true_and, Bool.and_eq_true,
      Bool.not_eq_true', List.all_eq_true]
    refine ⟨by simp, ?_⟩
    intro x hx
    unfold decimalDigit
    simpa using hds x (List.mem_reverse.mp hx)

theorem twoDecimals_formatHundredths (h : Nat) : twoDecimals (formatHundredths h) = true := by
  obtain ⟨ds, hds, hne, hdig, -⟩ := natDigits_spec (h / 100 + 1) (h / 100) [] (by omega)
  unfold formatHundredths
  rw [hds, List.append_nil]
  exact twoDecimals_digits ds _ _ hne hdig
    (decimalDigit_ofNat _ (Nat.mod_lt _ (by decide)))
    (decimalDigit_ofNat _ (Nat.mod_lt _ (by decide)))

/-- The sample library has the facts of `float64`. -/
theorem sampleFacts : FloatFacts sampleLib sampleJSONLib where
  parseFloat_NaN := ⟨.nan, by decide, rfl, by decide, rfl⟩
  parseFloat_12_5 := ⟨.hundredths 1250, by decide, by decide⟩
  formatFloat2_finite := by
    intro v hv
    cases v with
    | nan => cases hv
    | inf => cases hv
    | hundredths h => exact twoDecimals_formatHundredths h
  formatFloat2_special := by
    intro v hv
    cases v with
    | nan => exact Or.inl rfl
    | inf => exact Or.inr (Or.inl rfl)
    | hundredths h => cases hv

/-- C10, amended: the items of `parseSNSVideoMedia` are, in order, the items
`videoMedia(m)` built from the block texts `m` of the matches of the media
pattern, and for every block text `m`, with `t` the `videoDuration` text of
`m`: `Duration` is empty when `t` is empty (the tag absent or empty) or
`ParseFloat` reports an error for `t`; when `ParseFloat` accepts `t` with the
value `v`, `Duration` is the `%.2f` text of `v` followed by `秒`, which has
exactly two decimal places when `v` is finite and is `NaN秒`, `+Inf秒` or
`-Inf秒` when it is not; `12.5` gives `12.50秒` and `NaN` gives `NaN秒`. -/
theorem parseSNSVideoMedia_duration {F : Type} (L : Lib F) (J : JSONLib F)
    (K : FloatFacts L J) (xml : GoString) :
    parseSNSVideoMedia L xml =
      (FindAllStringSubmatch mediaRe xml).map (fun found => videoMedia L (found.getD 1 [])) ∧
    ∀ m t, t = extractXMLTag m "videoDuration".toList →
      (t = [] ∨ (L.parseFloat t).2 ≠ none → (videoMedia L m).Duration = []) ∧
      (∀ v, t ≠ [] → L.parseFloat t = (v, none) →
        (videoMedia L m).Duration = L.formatFloat2 v ++ secondsMark ∧
        (J.floatSupported v = true → twoDecimals (L.formatFloat2 v) = true) ∧
        (J.floatSupported v = false →
          (videoMedia L m).Duration = "NaN秒".toList ∨
            (videoMedia L m).Duration = "+Inf秒".toList ∨
            (videoMedia L m).Duration = "-Inf秒".toList)) ∧
      (t = "12.5".toList → (videoMedia L m).Duration = "12.50秒".toList) ∧
      (t = "NaN".toList → (videoMedia L m).Duration = "NaN秒".toList) := by
  refine ⟨parseSNSVideoMedia_eq_map L xml, ?_⟩
  intro m t ht
  have hd := videoMedia_Duration L m
  rw [← ht] at hd
  have hacc : ∀ v, t ≠ [] → L.parseFloat t = (v, none) →
      (videoMedia L m).Duration = L.formatFloat2 v ++ secondsMark := by
    intro v hne hv
    rw [hd, if_neg hne, hv]
  refine ⟨?_, ?_, ?_, ?_⟩
  · intro h
    rw [hd]
    rcases h with h | h
    · rw [if_pos h]
    · split_ifs
      · rfl
      · rcases hp : L.parseFloat t with ⟨d, _ | e⟩
        · rw [hp] at h
          exact absurd rfl h
        · rfl
  · intro v hne hv
    refine ⟨hacc v hne hv, K.formatFloat2_finite v, ?_⟩
    intro hs
    rw [hacc v hne hv]
    rcases K.formatFloat2_special v hs with h | h | h
    · exact Or.inl (by rw [h]; rfl)
    · exact Or.inr (Or.inl (by rw [h]; rfl))
    · exact Or.inr (Or.inr (by rw [h]; rfl))
  · intro h12
    obtain ⟨v, hv, hf⟩ := K.parseFloat_12_5
    rw [hacc v (by rw [h12]; decide) (by rw [h12]; exact hv), hf]
    rfl
  · intro hn
    obtain ⟨v, hv, -, -, hf⟩ := K.parseFloat_NaN
    rw [hacc v (by rw [hn]; decide) (by rw [hn]; exact hv), hf]
    rfl

/-- C10, amended, at the sample library and the block whose duration is
`12.5`: the one item has the duration `12.50秒`; on the block whose duration
is `abc` the item has no duration. -/
theorem parseSNSVideoMedia_duration_witness :
    FloatFacts sampleLib sampleJSONLib ∧
    FindAllStringSubmatch mediaRe "<media><videoDuration>12.5</videoDuration></media>".toList =
      [["<media><videoDuration>12.5</videoDuration></media>".toList,
        "<videoDuration>12.5</videoDuration>".toList]] ∧
    extractXMLTag "<videoDuration>12.5</videoDuration>".toList "videoDuration".toList =
      "12.5".toList ∧
    (parseSNSVideoMedia sampleLib
        "<media><videoDuration>12.5</videoDuration></media>".toList).map
      (fun item => item.Duration) = ["12.50秒".toList] ∧
    (sampleLib.parseFloat "abc".toList).2 ≠ none ∧
    (videoMedia sampleLib "<videoDuration>abc</videoDuration>".toList).Duration = [] := by
  have h1 : FindAllStringSubmatch mediaRe
      "<media><videoDuration>12.5</videoDuration></media>".toList =
      [["<media><videoDuration>12.5</videoDuration></media>".toList,
        "<videoDuration>12.5</videoDuration>".toList]] := by decide
  have h2 : extractXMLTag "<videoDuration>12.5</videoDuration>".toList "videoDuration".toList =
      "12.5".toList := by decide
  have h4 : extractXMLTag "<videoDuration>abc</videoDuration>".toList "videoDuration".toList =
      "abc".toList := by decide
  have h5 : (sampleLib.parseFloat "abc".toList).2 ≠ none := by decide
  obtain ⟨hmap, hitem⟩ := parseSNSVideoMedia_duration sampleLib sampleJSONLib sampleFacts
    "<media><videoDuration>12.5</videoDuration></media>".toList
  refine ⟨sampleFacts, h1, h2, ?_, h5, ?_⟩
  · rw [hmap, h1]
    simp only [List.map_cons, List.map_nil, List.getD_cons_succ, List.getD_cons_zero]
    rw [(hitem _ _ rfl).2.2.1 h2]
  · exact (hitem _ _ h4.symm).1 (Or.inr h5)

/-- C10 fails on the text `NaN`, which `ParseFloat` accepts with a `nil`
error: under every library with the facts of `float64`, and the sample library
is one, the block `<media><videoDuration>NaN</videoDuration></media>` yields
one item whose `Duration` is `NaN秒`, which is neither empty nor a number with
two decimal places followed by `秒`. -/
theorem videoDuration_NaN_counterexample :
    (∀ (F : Type) (L : Lib F) (J : JSONLib F), FloatFacts L J →
      (parseSNSVideoMedia L "<media><videoDuration>NaN</videoDuration></media>".toList).map
        (fun item => item.Duration) = ["NaN秒".toList]) ∧
    FloatFacts sampleLib sampleJSONLib ∧
    (parseSNSVideoMedia sampleLib
        "<media><videoDuration>NaN</videoDuration></media>".toList).map
      (fun item => item.Duration) = ["NaN秒".toList] ∧
    "NaN秒".toList ≠ [] ∧
    twoDecimals "NaN".toList = false := by
  have hall : ∀ (F : Type) (L : Lib F) (J : JSONLib F), FloatFacts L J →
      (parseSNSVideoMedia L "<media><videoDuration>NaN</videoDuration></media>".toList).map
        (fun item => item.Duration) = ["NaN秒".toList] := by
    intro F L J K
    have h1 : FindAllStringSubmatch mediaRe
        "<media><videoDuration>NaN</videoDuration></media>".toList =
        [["<media><videoDuration>NaN</videoDuration></media>".toList,
          "<videoDuration>NaN</videoDuration>".toList]] := by decide
    have h2 : extractXMLTag "<videoDuration>NaN</videoDuration>".toList
        "videoDuration".toList = "NaN".toList := by decide
    obtain ⟨v, hv, -, -, hf⟩ := K.parseFloat_NaN
    rw [parseSNSVideoMedia_eq_map, h1]
    simp only [List.map_cons, List.map_nil, List.getD_cons_succ, List.getD_cons_zero]
    rw [videoMedia_Duration, h2, if_neg (by decide), hv]
    dsimp only
    rw [hf]
    rfl
  exact ⟨hall, sampleFacts, hall _ _ _ sampleFacts, by decide, by decide⟩

/-! ## The finder feed -/

theorem accepts_dot (X : GoString) : (∀ c ∈ X, Atom.dot.accepts c = true) ↔ lf ∉ X := by
  simp only [Atom.accepts, bne_iff_ne, ne_eq]
  constructor
  · intro h hd
    exact h lf hd rfl
  · intro h c hc hcd
    exact h (hcd ▸ hc)

/-- A literal, a captured lazy `.*?` and a literal: `A(.*?)C`. -/
theorem Matches_lit_lazy_lit (A C s g r : GoString) :
    Matches (lit A ++ (Node.lazyStar Atom.dot true :: lit C)) s g r ↔
      s = A ++ g ++ C ++ r ∧ lf ∉ g := by
  rw [Matches_lit]
  constructor
  · rintro ⟨s', rfl, hm⟩
    obtain ⟨X, rest, g', rfl, hX, hm', rfl⟩ := (Matches_lazyStar _ _ _ _ _ _).mp hm
    obtain ⟨rfl, rfl⟩ := (Matches_lit_nil _ _ _ _).mp hm'
    exact ⟨by simp, by simpa using (accepts_dot X).mp hX⟩
  · rintro ⟨rfl, hg⟩
    refine ⟨g ++ C ++ r, by simp, (Matches_lazyStar _ _ _ _ _ _).mpr ?_⟩
    exact ⟨g, C ++ r, [], by simp, (accepts_dot g).mpr hg,
      (Matches_lit_nil _ _ _ _).mpr ⟨rfl, rfl⟩, by simp⟩

theorem finderFeedRe_eq :
    finderFeedRe = lit "<finderFeed>".toList ++
      (Node.lazyStar Atom.dot true :: lit "</finderFeed>".toList) := by
  simp [finderFeedRe]

/-- The finder feed pattern matches exactly where a block on one line stands. -/
theorem search_finderFeedRe_eq_none {x : GoString} :
    search finderFeedRe x = none ↔ ∀ pre inner rest, ¬ FinderFeedOcc x pre inner rest := by
  rw [search_eq_none, finderFeedRe_eq]
  constructor
  · rintro h pre inner rest ⟨hx, hi⟩
    exact matchHere_ne_none ((Matches_lit_lazy_lit _ _ _ inner rest).mpr ⟨rfl, hi⟩) (h pre _ hx)
  · intro h pre s' hs
    rw [matchHere_eq_none]
    intro g r hm
    obtain ⟨rfl, hg⟩ := (Matches_lit_lazy_lit _ _ _ g r).mp hm
    exact h pre g r ⟨hs, hg⟩

theorem finderMedia_Nickname (feed : SNSFinderFeed) (m : GoString) :
    (finderMedia feed m).Nickname = feed.Nickname := by
  unfold finderMedia
  dsimp only
  rcases Atoi (extractXMLTagAttr m "size".toList "width".toList) with ⟨w, _ | e⟩ <;>
    rcases Atoi (extractXMLTagAttr m "size".toList "height".toList) with ⟨h, _ | e'⟩ <;>
    rcases ParseInt (extractXMLTag m "videoPlayDuration".toList) with ⟨d, _ | e''⟩ <;>
    dsimp only <;> split_ifs <;> rfl

theorem finderMedia_Duration (feed : SNSFinderFeed) (m : GoString) :
    (finderMedia feed m).Duration =
      (if extractXMLTag m "videoPlayDuration".toList = [] then feed.Duration
       else
        match ParseInt (extractXMLTag m "videoPlayDuration".toList) with
        | (d, none) => formatInt (Int.tdiv d 10) ++ secondsMark
        | (_, some _) => feed.Duration) := by
  unfold finderMedia
  dsimp only
  by_cases hd : extractXMLTag m "videoPlayDuration".toList = []
  · rw [if_pos hd, if_neg (not_not.mpr hd)]
    rcases Atoi (extractXMLTagAttr m "size".toList "width".toList) with ⟨w, _ | e⟩ <;>
      rcases Atoi (extractXMLTagAttr m "size".toList "height".toList) with ⟨h, _ | e'⟩ <;>
      dsimp only <;> split_ifs <;> rfl
  · rw [if_neg hd, if_pos hd]
    rcases Atoi (extractXMLTagAttr m "size".toList "width".toList) with ⟨w, _ | e⟩ <;>
      rcases Atoi (extractXMLTagAttr m "size".toList "height".toList) with ⟨h, _ | e'⟩ <;>
      rcases ParseInt (extractXMLTag m "videoPlayDuration".toList) with ⟨d, _ | e''⟩ <;>
      dsimp only <;> split_ifs <;> rfl

theorem parseSNSFinderFeed_of_no_block (x : GoString)
    (h : FindStringSubmatch finderFeedRe x = []) : parseSNSFinderFeed x = none := by
  unfold parseSNSFinderFeed
  dsimp only
  rw [h]
  rfl

/-- The feed that `parseSNSFinderFeed` returns when the pattern finds the block
text `feedXML`. -/
theorem parseSNSFinderFeed_of_block (x w feedXML : GoString)
    (h : FindStringSubmatch finderFeedRe x = [w, feedXML]) :
    (extractXMLTag feedXML "nickname".toList = [] → parseSNSFinderFeed x = none) ∧
    (extractXMLTag feedXML "nickname".toList ≠ [] →
      ∃ feed, parseSNSFinderFeed x = some feed ∧
        feed.Nickname = extractXMLTag feedXML "nickname".toList ∧
        (∀ w' mediaXML, FindStringSubmatch mediaRe feedXML = [w', mediaXML] →
          feed.Duration =
            (if extractXMLTag mediaXML "videoPlayDuration".toList = [] then []
             else
              match ParseInt (extractXMLTag mediaXML "videoPlayDuration".toList) with
              | (d, none) => formatInt (Int.tdiv d 10) ++ secondsMark
              | (_, some _) => [])) ∧
        (FindStringSubmatch mediaRe feedXML = [] → feed.Duration = [])) := by
  unfold parseSNSFinderFeed
  dsimp only
  rw [h]
  simp only [List.length_cons, List.length_nil, List.getD_cons_succ, List.getD_cons_zero]
  have h2 : ¬ (0 + 1 + 1 ≤ 1) := by decide
  rw [if_neg h2]
  have hmain : ∀ feed1 : SNSFinderFeed,
      feed1.Nickname = extractXMLTag feedXML "nickname".toList → feed1.Duration = [] →
      (extractXMLTag feedXML "nickname".toList = [] →
        (if (if (FindStringSubmatch mediaRe feedXML).length > 1 then
              finderMedia feed1 ((FindStringSubmatch mediaRe feedXML).getD 1 [])
            else feed1).Nickname = [] then none
         else some (if (FindStringSubmatch mediaRe feedXML).length > 1 then
              finderMedia feed1 ((FindStringSubmatch mediaRe feedXML).getD 1 [])
            else feed1)) = none) ∧
      (extractXMLTag feedXML "nickname".toList ≠ [] →
        ∃ feed,
          (if (if (FindStringSubmatch mediaRe feedXML).length > 1 then
                finderMedia feed1 ((FindStringSubmatch mediaRe feedXML).getD 1 [])
              else feed1).Nickname = [] then none
           else some (if (FindStringSubmatch mediaRe feedXML).length > 1 then
                finderMedia feed1 ((FindStringSubmatch mediaRe feedXML).getD 1 [])
              else feed1)) = some feed ∧
          feed.Nickname = extractXMLTag feedXML "nickname".toList ∧
          (∀ w' mediaXML, FindStringSubmatch mediaRe feedXML = [w', mediaXML] →
            feed.Duration =
              (if extractXMLTag mediaXML "videoPlayDuration".toList = [] then []
               else
                match ParseInt (extractXMLTag mediaXML "videoPlayDuration".toList) with
                | (d, none) => formatInt (Int.tdiv d 10) ++ secondsMark
                | (_, some _) => [])) ∧
          (FindStringSubmatch mediaRe feedXML = [] → feed.Duration = [])) := by
    intro feed1 hN hD
    by_cases hL : (FindStringSubmatch mediaRe feedXML).length > 1
    · rw [if_pos hL]
      constructor
      · intro hn
        rw [if_pos ((finderMedia_Nickname _ _).trans (hN.trans hn))]
      · intro hn
        rw [if_neg (fun hc => hn (hN.symm.trans ((finderMedia_Nickname _ _).symm.trans hc)))]
        refine ⟨_, rfl, (finderMedia_Nickname _ _).trans hN, ?_, ?_⟩
        · intro w' mediaXML hm
          rw [hm, finderMedia_Duration, hD]
          rfl
        · intro hm
          rw [hm] at hL
          exact absurd hL (by decide)
    · rw [if_neg hL]
      constructor
      · intro hn
        rw [if_pos (hN.trans hn)]
      · intro hn
        rw [if_neg (fun hc => hn (hN.symm.trans hc))]
        refine ⟨_, rfl, hN, ?_, ?_⟩
        · intro w' mediaXML hm
          rw [hm] at hL
          exact absurd (Nat.lt_succ_self 1) hL
        · intro _
          exact hD
  by_cases hmc : extractXMLTag feedXML "mediaCount".toList ≠ []
  · rw [if_pos hmc]
    exact hmain _ rfl rfl
  · rw [if_neg hmc]
    exact hmain _ rfl rfl



/-- C13 fails on the code, by the defect of C8: `.` accepts no line feed, so
`<finderFeed>(.*?)</finderFeed>` does not match a block that holds a line
break, and `parseSNSFinderFeed` returns no feed for the block below although
its nickname is `n`; the same block on one line yields the feed. Where the
pattern finds no block on one line the result is `nil`, and where it finds the
block text the result is `nil` exactly when the nickname of that text is
empty, a returned feed carrying that nickname. -/
theorem finderFeed_block_with_line_break_lost :
    parseSNSFinderFeed "<finderFeed>\n<nickname>n</nickname>\n</finderFeed>".toList = none ∧
    extractXMLTag "\n<nickname>n</nickname>\n".toList "nickname".toList = "n".toList ∧
    (parseSNSFinderFeed "<finderFeed><nickname>n</nickname></finderFeed>".toList).map
        (fun feed => feed.Nickname) = some "n".toList ∧
    ∀ x : GoString,
      ((∀ pre inner rest, ¬ FinderFeedOcc x pre inner rest) → parseSNSFinderFeed x = none) ∧
      ∀ w feedXML, FindStringSubmatch finderFeedRe x = [w, feedXML] →
        (parseSNSFinderFeed x = none ↔ extractXMLTag feedXML "nickname".toList = []) ∧
        ∀ feed, parseSNSFinderFeed x = some feed →
          feed.Nickname = extractXMLTag feedXML "nickname".toList := by
  refine ⟨?_, by decide, ?_, ?_⟩
  · exact parseSNSFinderFeed_of_no_block _ (by decide)
  · obtain ⟨-, h⟩ := parseSNSFinderFeed_of_block
      "<finderFeed><nickname>n</nickname></finderFeed>".toList
      "<finderFeed><nickname>n</nickname></finderFeed>".toList
      "<nickname>n</nickname>".toList (by decide)
    obtain ⟨feed, hf, hn, -⟩ := h (by decide)
    rw [hf, Option.map_some', hn]
    decide
  · intro x
    refine ⟨?_, ?_⟩
    · intro hno
      exact parseSNSFinderFeed_of_no_block x
        (FindStringSubmatch_of_none (search_finderFeedRe_eq_none.mpr hno))
    · intro w feedXML hfound
      obtain ⟨h1, h2⟩ := parseSNSFinderFeed_of_block x w feedXML hfound
      refine ⟨⟨?_, h1⟩, ?_⟩
      · intro hnone
        by_contra hne
        obtain ⟨feed, hf, -⟩ := h2 hne
        rw [hnone] at hf
        cases hf
      · intro feed hf
        by_cases hne : extractXMLTag feedXML "nickname".toList = []
        · rw [h1 hne] at hf
          cases hf
        · obtain ⟨feed', hf', hn', -⟩ := h2 hne
          rw [hf] at hf'
          cases hf'
          exact hn'

/-- The search for `O(.*?)C` finds the block that starts leftmost and ends at
the first closing text. -/
theorem search_first_block (O C x pre inner rest : GoString)
    (hx : x = pre ++ (O ++ inner ++ C ++ rest)) (hlf : lf ∉ inner)
    (hmin : ∀ pre' inner' rest', x = pre' ++ (O ++ inner' ++ C ++ rest') → lf ∉ inner' →
      pre.length ≤ pre'.length ∧ (pre'.length = pre.length → inner.length ≤ inner'.length)) :
    search (lit O ++ (Node.lazyStar Atom.dot true :: lit C)) x =
      some (O ++ inner ++ C, inner, rest) := by
  have hhere : matchHere (lit O ++ (Node.lazyStar Atom.dot true :: lit C))
      (O ++ inner ++ C ++ rest) ≠ none :=
    matchHere_ne_none ((Matches_lit_lazy_lit O C _ inner rest).mpr ⟨rfl, hlf⟩)
  cases hs : search (lit O ++ (Node.lazyStar Atom.dot true :: lit C)) x with
  | none => exact absurd (search_eq_none.mp hs pre _ hx) hhere
  | some wgr =>
    obtain ⟨w, g, r⟩ := wgr
    obtain ⟨pre0, hx0, hm, hleft⟩ := search_eq_some hs
    obtain ⟨hwr, hg⟩ := (Matches_lit_lazy_lit O C _ g r).mp (matchHere_sound _ _ _ _ hm)
    obtain ⟨hle, hin⟩ := hmin pre0 g r (by rw [hx0, hwr]) hg
    have hlen : pre.length = pre0.length := by
      rcases Nat.lt_or_ge pre.length pre0.length with hlt | hge
      · exact absurd (hleft pre _ hx hlt) hhere
      · exact Nat.le_antisymm hle hge
    have e := List.append_inj (hx.symm.trans (hx0.trans (by rw [hwr]))) hlen
    have e2 : inner ++ (C ++ rest) = g ++ (C ++ r) := by
      have := e.2
      simpa only [List.append_assoc, List.append_cancel_left_eq] using this
    have hlazy : starLazy Atom.dot.accepts true (matchHere (lit C)) (g ++ (C ++ r)) =
        some (g, r) := by
      have h1 := matchHere_lit_append O (Node.lazyStar Atom.dot true :: lit C) (g ++ (C ++ r))
      have h2 : O ++ (g ++ (C ++ r)) = w ++ r := by rw [hwr]; simp
      rw [h2, hm] at h1
      exact h1.symm
    obtain ⟨X, rest', g', hsplit, -, hk, hgX, hfirst⟩ := starLazy_eq_some hlazy
    obtain ⟨hrest', hg'⟩ := (Matches_lit_nil C _ _ _).mp (matchHere_sound _ _ _ _ hk)
    have hXg : X = g := by
      rw [hgX, hg']
      simp
    have hcl : matchHere (lit C) (C ++ rest) ≠ none :=
      matchHere_ne_none ((Matches_lit_nil C _ [] rest).mpr ⟨rfl, rfl⟩)
    have hlen2 : inner.length = g.length := by
      rcases Nat.lt_or_ge inner.length g.length with hlt | hge
      · exact absurd (hfirst inner (C ++ rest) e2.symm (by rw [hXg]; exact hlt)) hcl
      · exact Nat.le_antisymm (hin hlen.symm) hge
    have e3 := List.append_inj e2 hlen2
    have hr : rest = r := List.append_cancel_left e3.2
    have hw : w = O ++ inner ++ C := by
      have : w ++ r = (O ++ inner ++ C) ++ r := by rw [hwr, e3.1]
      exact List.append_cancel_right this
    rw [hw, e3.1, hr]

theorem search_block_eq_none (O C x : GoString) :
    search (lit O ++ (Node.lazyStar Atom.dot true :: lit C)) x = none ↔
      ∀ pre inner rest, ¬ (x = pre ++ (O ++ inner ++ C ++ rest) ∧ lf ∉ inner) := by
  rw [search_eq_none]
  constructor
  · rintro h pre inner rest ⟨hx, hi⟩
    exact matchHere_ne_none ((Matches_lit_lazy_lit _ _ _ inner rest).mpr ⟨rfl, hi⟩) (h pre _ hx)
  · intro h pre s' hs
    rw [matchHere_eq_none]
    intro g r hm
    obtain ⟨rfl, hg⟩ := (Matches_lit_lazy_lit _ _ _ g r).mp hm
    exact h pre g r ⟨hs, hg⟩

/-- The finder feed pattern finds the finder feed block of the buffer. -/
theorem FindStringSubmatch_finderFeedRe_first {x pre inner rest : GoString}
    (h : FirstFinderFeed x pre inner rest) :
    FindStringSubmatch finderFeedRe x =
      ["<finderFeed>".toList ++ inner ++ "</finderFeed>".toList, inner] := by
  rw [finderFeedRe_eq]
  exact FindStringSubmatch_of_some
    (search_first_block _ _ x pre inner rest h.1.1 h.1.2
      (fun pre' inner' rest' hx' hlf' => h.2 pre' inner' rest' ⟨hx', hlf'⟩))

/-- The media pattern finds the first media block of the buffer. -/
theorem FindStringSubmatch_mediaRe_first {x pre inner rest : GoString}
    (h : FirstMedia x pre inner rest) :
    FindStringSubmatch mediaRe x = ["<media>".toList ++ inner ++ "</media>".toList, inner] := by
  rw [mediaRe_eq]
  exact FindStringSubmatch_of_some
    (search_first_block _ _ x pre inner rest h.1.1 h.1.2
      (fun pre' inner' rest' hx' hlf' => h.2 pre' inner' rest' ⟨hx', hlf'⟩))

theorem FindStringSubmatch_mediaRe_none {x : GoString}
    (h : ∀ pre inner rest, ¬ MediaOcc x pre inner rest) : FindStringSubmatch mediaRe x = [] := by
  rw [mediaRe_eq]
  exact FindStringSubmatch_of_none ((search_block_eq_none _ _ x).mpr h)

/-- What the search for `O(.*?)C` finds is the block that starts leftmost and
ends at the first closing text. -/
theorem first_block_of_search (O C x w g r pre : GoString)
    (h : search (lit O ++ (Node.lazyStar Atom.dot true :: lit C)) x = some (w, g, r))
    (hx : x = pre ++ (w ++ r)) :
    (x = pre ++ (O ++ g ++ C ++ r) ∧ lf ∉ g) ∧
    ∀ pre' inner' rest', x = pre' ++ (O ++ inner' ++ C ++ rest') → lf ∉ inner' →
      pre.length ≤ pre'.length ∧ (pre'.length = pre.length → g.length ≤ inner'.length) := by
  obtain ⟨pre0, hx0, hm, hleft⟩ := search_eq_some h
  have hpre : pre = pre0 := List.append_cancel_right (hx.symm.trans hx0)
  subst hpre
  obtain ⟨hwr, hg⟩ := (Matches_lit_lazy_lit O C _ g r).mp (matchHere_sound _ _ _ _ hm)
  refine ⟨⟨by rw [hx0, hwr], hg⟩, ?_⟩
  intro pre' inner' rest' hx' hlf'
  have hhere : matchHere (lit O ++ (Node.lazyStar Atom.dot true :: lit C))
      (O ++ inner' ++ C ++ rest') ≠ none :=
    matchHere_ne_none ((Matches_lit_lazy_lit O C _ inner' rest').mpr ⟨rfl, hlf'⟩)
  have hle : pre.length ≤ pre'.length := by
    rcases Nat.lt_or_ge pre'.length pre.length with hlt | hge
    · exact absurd (hleft pre' _ hx' hlt) hhere
    · exact hge
  refine ⟨hle, ?_⟩
  intro hlen
  have e := List.append_inj (hx'.symm.trans (hx0.trans (by rw [hwr]))) hlen
  have e2 : inner' ++ (C ++ rest') = g ++ (C ++ r) := by
    have := e.2
    simpa only [List.append_assoc, List.append_cancel_left_eq] using this
  have hlazy : starLazy Atom.dot.accepts true (matchHere (lit C)) (g ++ (C ++ r)) =
      some (g, r) := by
    have h1 := matchHere_lit_append O (Node.lazyStar Atom.dot true :: lit C) (g ++ (C ++ r))
    have h2 : O ++ (g ++ (C ++ r)) = w ++ r := by rw [hwr]; simp
    rw [h2, hm] at h1
    exact h1.symm
  obtain ⟨X, rest'', g', hsplit, -, hk, hgX, hfirst⟩ := starLazy_eq_some hlazy
  obtain ⟨hrest', hg'⟩ := (Matches_lit_nil C _ _ _).mp (matchHere_sound _ _ _ _ hk)
  have hXg : X = g := by
    rw [hgX, hg']
    simp
  have hcl : matchHere (lit C) (C ++ rest') ≠ none :=
    matchHere_ne_none ((Matches_lit_nil C _ [] rest').mpr ⟨rfl, rfl⟩)
  rcases Nat.lt_or_ge inner'.length g.length with hlt | hge
  · exact absurd (hfirst inner' (C ++ rest') e2.symm (by rw [hXg]; exact hlt)) hcl
  · exact hge

theorem FirstFinderFeed_of_search {x w g r pre : GoString}
    (h : search finderFeedRe x = some (w, g, r)) (hx : x = pre ++ (w ++ r)) :
    FirstFinderFeed x pre g r := by
  rw [finderFeedRe_eq] at h
  obtain ⟨h1, h2⟩ := first_block_of_search _ _ x w g r pre h hx
  exact ⟨h1, fun pre' inner' rest' hocc => h2 pre' inner' rest' hocc.1 hocc.2⟩

theorem FirstMedia_of_search {x w g r pre : GoString}
    (h : search mediaRe x = some (w, g, r)) (hx : x = pre ++ (w ++ r)) :
    FirstMedia x pre g r := by
  rw [mediaRe_eq] at h
  obtain ⟨h1, h2⟩ := first_block_of_search _ _ x w g r pre h hx
  exact ⟨h1, fun pre' inner' rest' hocc => h2 pre' inner' rest' hocc.1 hocc.2⟩

/-- The loop of `ParseUint` stops with a range error on digits whose value
leaves 64 bits. -/
theorem parseUintLoop_overflow :
    ∀ (ds : GoString) (m : Nat), (∀ c ∈ ds, 48 ≤ c.toNat ∧ c.toNat ≤ 57) → m < 2 ^ 64 →
      2 ^ 64 ≤ ds.foldl (fun a c => a * 10 + (c.toNat - 48)) m →
      parseUintLoop ds m = (2 ^ 64 - 1, some NumError.ErrRange) := by
  intro ds
  induction ds with
  | nil =>
    intro m _ hm hv
    simp only [List.foldl_nil] at hv
    omega
  | cons c ds ih =>
    intro m hdig hm hv
    have hc := hdig c (List.mem_cons_self _ _)
    rw [parseUintLoop, if_pos hc]
    by_cases h1 : m ≥ (2 ^ 64 - 1) / 10 + 1
    · rw [if_pos h1]
    · rw [if_neg h1]
      dsimp only
      by_cases h2 : m * 10 + (c.toNat - 48) > 2 ^ 64 - 1
      · rw [if_pos h2]
      · rw [if_neg h2]
        exact ih _ (fun x hx => hdig x (List.mem_cons_of_mem _ hx)) (by omega)
          (by simpa only [List.foldl_cons] using hv)

/-- The value of the digits that `%d` prints. -/
theorem natDigits_value :
    ∀ fuel n acc, n < fuel →
      ∃ ds, natDigits fuel n acc = ds ++ acc ∧ ds ≠ [] ∧
        (∀ c ∈ ds, 48 ≤ c.toNat ∧ c.toNat ≤ 57) ∧
        ∀ m, ds.foldl (fun a c => a * 10 + (c.toNat - 48)) m = m * 10 ^ ds.length + n := by
  intro fuel
  induction fuel with
  | zero => intro n acc h; omega
  | succ fuel ih =>
    intro n acc hn
    have hlt : n % 10 < 10 := Nat.mod_lt _ (by decide)
    have hc := digit_toNat (n % 10) hlt
    unfold natDigits
    dsimp only
    by_cases h0 : n / 10 = 0
    · rw [if_pos h0]
      have hn10 : n % 10 = n := by omega
      refine ⟨[Char.ofNat (48 + n % 10)], rfl, by simp, ?_, ?_⟩
      · intro c hcm
        rw [List.mem_singleton.mp hcm, hc]
        omega
      · intro m
        simp only [List.foldl_cons, List.foldl_nil, List.length_singleton, pow_one, hc]
        omega
    · rw [if_neg h0]
      obtain ⟨ds, hds, hne, hdig, hval⟩ :=
        ih (n / 10) (Char.ofNat (48 + n % 10) :: acc) (by omega)
      refine ⟨ds ++ [Char.ofNat (48 + n % 10)], by rw [hds]; simp, by simp, ?_, ?_⟩
      · intro c hcm
        rcases List.mem_append.mp hcm with h | h
        · exact hdig c h
        · rw [List.mem_singleton.mp h, hc]
          omega
      · intro m
        rw [List.foldl_append, hval m]
        simp only [List.foldl_cons, List.foldl_nil, hc, List.length_append,
          List.length_singleton, pow_succ]
        have e : m * (10 ^ ds.length * 10) = m * 10 ^ ds.length * 10 := by
          rw [Nat.mul_assoc]
        rw [e]
        omega

/-- The text that `%d` prints for an integer out of the range of `int64` is
rejected by `ParseInt` with a range error. -/
theorem ParseInt_formatInt_out_of_range (d : Int) (h : d < -2 ^ 63 ∨ 2 ^ 63 ≤ d) :
    (ParseInt (formatInt d)).2 = some NumError.ErrRange ∧ formatInt d ≠ [] := by
  obtain ⟨ds, hds, hne, hdig, hval⟩ := natDigits_value (d.natAbs + 1) d.natAbs [] (by omega)
  rw [List.append_nil] at hds
  have hu : ParseUint ds = (d.natAbs, none) ∨ ParseUint ds = (2 ^ 64 - 1, some NumError.ErrRange) := by
    by_cases hb : d.natAbs < 2 ^ 64
    · left
      obtain ⟨ds', hds', -, -, hparse⟩ := ParseUint_natDigits d.natAbs hb
      rw [← hds, hds']
      exact hparse
    · right
      unfold ParseUint
      rw [if_neg hne]
      exact parseUintLoop_overflow ds 0 hdig (by norm_num)
        (by rw [hval 0]; omega)
  unfold formatInt
  rw [hds]
  by_cases hneg : d < 0
  · rw [if_pos hneg]
    refine ⟨?_, by simp⟩
    have hd : d < -2 ^ 63 := by omega
    unfold ParseInt
    simp only [beq_self_eq_true, Bool.or_true, if_true]
    rcases hu with hu | hu
    · rw [hu]
      have hb : d.natAbs > 2 ^ 63 := by omega
      simp only [Bool.not_true, Bool.false_and, Bool.false_eq_true, if_false, Bool.true_and,
        decide_eq_true_eq, hb, if_true]
    · rw [hu]
      simp
  · rw [if_neg hneg]
    refine ⟨?_, hne⟩
    have hd : 2 ^ 63 ≤ d := by omega
    cases ds with
    | nil => exact absurd rfl hne
    | cons c t =>
      have hc := hdig c (List.mem_cons_self _ _)
      have hplus : (c == '+') = false := by
        rw [beq_eq_false_iff_ne]
        rintro rfl
        revert hc; decide
      have hminus : (c == '-') = false := by
        rw [beq_eq_false_iff_ne]
        rintro rfl
        revert hc; decide
      unfold ParseInt
      simp only [hplus, hminus, Bool.or_self, Bool.false_eq_true, if_false]
      rcases hu with hu | hu
      · rw [hu]
        have hb : d.natAbs ≥ 2 ^ 63 := by omega
        simp only [Bool.not_false, Bool.true_and, decide_eq_true_eq, hb, if_true]
      · rw [hu]
        simp

/-- C14, amended: when the finder feed block of the payload (on one line) has
a nickname that is not empty, a feed is returned. With `m` the first media
block of that block: when the `videoPlayDuration` text of `m` is the decimal
text of an integer `d` in the range of `int64`, the duration of the feed is
the decimal text of `d / 10`, the division truncating toward zero, followed by
`秒`; when `d` is out of that range the duration is empty; and when the text
is empty (the tag absent or empty) or `ParseInt` reports an error for it, the
duration is empty. It is empty as well when the block holds no media block. -/
theorem parseSNSFinderFeed_duration (x pre inner rest : GoString)
    (hfeed : FirstFinderFeed x pre inner rest)
    (hnick : extractXMLTag inner "nickname".toList ≠ []) :
    ∃ feed, parseSNSFinderFeed x = some feed ∧
      feed.Nickname = extractXMLTag inner "nickname".toList ∧
      (∀ pre' m rest', FirstMedia inner pre' m rest' →
        (∀ d : Int, extractXMLTag m "videoPlayDuration".toList = formatInt d →
          (-2 ^ 63 ≤ d → d < 2 ^ 63 →
            feed.Duration = formatInt (Int.tdiv d 10) ++ secondsMark) ∧
          (d < -2 ^ 63 ∨ 2 ^ 63 ≤ d → feed.Duration = [])) ∧
        (extractXMLTag m "videoPlayDuration".toList = [] ∨
            (ParseInt (extractXMLTag m "videoPlayDuration".toList)).2 ≠ none →
          feed.Duration = [])) ∧
      ((∀ pre' m rest', ¬ MediaOcc inner pre' m rest') → feed.Duration = []) := by
  obtain ⟨feed, hf, hn, hdur, hnone⟩ :=
    (parseSNSFinderFeed_of_block x _ inner (FindStringSubmatch_finderFeedRe_first hfeed)).2 hnick
  refine ⟨feed, hf, hn, ?_, fun h => hnone (FindStringSubmatch_mediaRe_none h)⟩
  intro pre' m rest' hmedia
  have hd := hdur _ m (FindStringSubmatch_mediaRe_first hmedia)
  refine ⟨?_, ?_⟩
  · intro d htext
    refine ⟨?_, ?_⟩
    · intro h1 h2
      obtain ⟨hparse, hne⟩ := ParseInt_formatInt d h1 h2
      rw [hd, htext, if_neg hne, hparse]
    · intro hout
      obtain ⟨herr, hne⟩ := ParseInt_formatInt_out_of_range d hout
      rw [hd, htext, if_neg hne]
      rcases hp : ParseInt (formatInt d) with ⟨v, _ | e⟩
      · rw [hp] at herr
        cases herr
      · rfl
  · intro h
    rw [hd]
    rcases h with h | h
    · rw [if_pos h]
    · split_ifs
      · rfl
      · rcases hp : ParseInt (extractXMLTag m "videoPlayDuration".toList) with ⟨d, _ | e⟩
        · rw [hp] at h
          exact absurd rfl h
        · rfl

/-- C14, amended, at a feed whose media block carries the duration `125`: the
feed is returned with the duration `12秒`, not `13秒`. -/
theorem parseSNSFinderFeed_duration_witness :
    FirstFinderFeed
      "<finderFeed><nickname>n</nickname><media><videoPlayDuration>125</videoPlayDuration></media></finderFeed>".toList
      []
      "<nickname>n</nickname><media><videoPlayDuration>125</videoPlayDuration></media>".toList
      [] ∧
    extractXMLTag
        "<nickname>n</nickname><media><videoPlayDuration>125</videoPlayDuration></media>".toList
        "nickname".toList ≠ [] ∧
    FirstMedia
      "<nickname>n</nickname><media><videoPlayDuration>125</videoPlayDuration></media>".toList
      "<nickname>n</nickname>".toList "<videoPlayDuration>125</videoPlayDuration>".toList [] ∧
    extractXMLTag "<videoPlayDuration>125</videoPlayDuration>".toList
        "videoPlayDuration".toList = formatInt 125 ∧
    ∃ feed,
      parseSNSFinderFeed
          "<finderFeed><nickname>n</nickname><media><videoPlayDuration>125</videoPlayDuration></media></finderFeed>".toList =
        some feed ∧
      feed.Duration = "12秒".toList ∧ feed.Duration ≠ "13秒".toList := by
  have h1 : FirstFinderFeed
      "<finderFeed><nickname>n</nickname><media><videoPlayDuration>125</videoPlayDuration></media></finderFeed>".toList
      []
      "<nickname>n</nickname><media><videoPlayDuration>125</videoPlayDuration></media>".toList
      [] :=
    FirstFinderFeed_of_search
      (w := "<finderFeed><nickname>n</nickname><media><videoPlayDuration>125</videoPlayDuration></media></finderFeed>".toList)
      (by decide) (by decide)
  have h2 : extractXMLTag
        "<nickname>n</nickname><media><videoPlayDuration>125</videoPlayDuration></media>".toList
        "nickname".toList ≠ [] := by decide
  have h3 : FirstMedia
      "<nickname>n</nickname><media><videoPlayDuration>125</videoPlayDuration></media>".toList
      "<nickname>n</nickname>".toList "<videoPlayDuration>125</videoPlayDuration>".toList [] :=
    FirstMedia_of_search
      (w := "<media><videoPlayDuration>125</videoPlayDuration></media>".toList)
      (by decide) (by decide)
  have h4 : extractXMLTag "<videoPlayDuration>125</videoPlayDuration>".toList
        "videoPlayDuration".toList = formatInt 125 := by decide
  obtain ⟨feed, hf, -, hd, -⟩ := parseSNSFinderFeed_duration _ _ _ _ h1 h2
  have h5 : feed.Duration = "12秒".toList :=
    (((hd _ _ _ h3).1 125 h4).1 (by decide) (by decide)).trans (by decide)
  exact ⟨h1, h2, h3, h4, feed, hf, h5, by rw [h5]; decide⟩

set_option maxRecDepth 4000 in
/-- C14 fails on an integer out of the range of `int64`: the finder feed block
below has the nickname `n` and its media block carries the decimal text of
the integer 99999999999999999999, whose tenth is 9999999999999999999, yet the
feed is returned with an empty duration, `ParseInt` reporting a range error.
And by the defect of C13 a block that holds a line break is not located, so
no feed is returned for it, whatever its duration. -/
theorem finderFeed_duration_out_of_range_counterexample :
    FirstFinderFeed
      "<finderFeed><nickname>n</nickname><media><videoPlayDuration>99999999999999999999</videoPlayDuration></media></finderFeed>".toList
      []
      "<nickname>n</nickname><media><videoPlayDuration>99999999999999999999</videoPlayDuration></media>".toList
      [] ∧
    FirstMedia
      "<nickname>n</nickname><media><videoPlayDuration>99999999999999999999</videoPlayDuration></media>".toList
      "<nickname>n</nickname>".toList
      "<videoPlayDuration>99999999999999999999</videoPlayDuration>".toList [] ∧
    extractXMLTag "<videoPlayDuration>99999999999999999999</videoPlayDuration>".toList
        "videoPlayDuration".toList = formatInt 99999999999999999999 ∧
    formatInt (Int.tdiv 99999999999999999999 10) ++ secondsMark =
      "9999999999999999999秒".toList ∧
    ParseInt "99999999999999999999".toList = (9223372036854775807, some NumError.ErrRange) ∧
    (∃ feed,
      parseSNSFinderFeed
          "<finderFeed><nickname>n</nickname><media><videoPlayDuration>99999999999999999999</videoPlayDuration></media></finderFeed>".toList =
        some feed ∧
      feed.Nickname = "n".toList ∧ feed.Duration = []) ∧
    parseSNSFinderFeed
        "<finderFeed>\n<nickname>n</nickname><media><videoPlayDuration>125</videoPlayDuration></media>\n</finderFeed>".toList =
      none := by
  have hs : search finderFeedRe
      "<finderFeed><nickname>n</nickname><media><videoPlayDuration>99999999999999999999</videoPlayDuration></media></finderFeed>".toList =
      some ("<finderFeed><nickname>n</nickname><media><videoPlayDuration>99999999999999999999</videoPlayDuration></media></finderFeed>".toList,
        "<nickname>n</nickname><media><videoPlayDuration>99999999999999999999</videoPlayDuration></media>".toList,
        []) := by decide
  have hm : search mediaRe
      "<nickname>n</nickname><media><videoPlayDuration>99999999999999999999</videoPlayDuration></media>".toList =
      some ("<media><videoPlayDuration>99999999999999999999</videoPlayDuration></media>".toList,
        "<videoPlayDuration>99999999999999999999</videoPlayDuration>".toList, []) := by decide
  have ht : extractXMLTag "<videoPlayDuration>99999999999999999999</videoPlayDuration>".toList
      "videoPlayDuration".toList = "99999999999999999999".toList := by decide
  have hfmt : formatInt 99999999999999999999 = "99999999999999999999".toList := by decide
  have hp : ParseInt "99999999999999999999".toList =
      (9223372036854775807, some NumError.ErrRange) := by decide
  have hn : extractXMLTag
      "<nickname>n</nickname><media><videoPlayDuration>99999999999999999999</videoPlayDuration></media>".toList
      "nickname".toList = "n".toList := by decide
  refine ⟨FirstFinderFeed_of_search hs (by decide), FirstMedia_of_search hm (by decide),
    ht.trans hfmt.symm, by decide, hp, ?_, ?_⟩
  · obtain ⟨feed, hf, hnick, hdur, -⟩ :=
      (parseSNSFinderFeed_of_block _ _ _ (FindStringSubmatch_of_some hs)).2
        (by rw [hn]; decide)
    refine ⟨feed, hf, hnick.trans hn, ?_⟩
    rw [hdur _ _ (FindStringSubmatch_of_some hm), ht, if_neg (by decide), hp]
  · exact parseSNSFinderFeed_of_no_block _ (by decide)

/-! ## The creation time and the id -/

/-- C15 fails on the code: the error of `ParseInt` is dropped and the time text
is formatted whenever the `createTime` text is not empty. On `abc` the post has
`CreateTime` 0 and the text of the epoch, not the empty text; on a value out of
range it has the clamped value. When the tag is absent both fields keep their
zero value, as C15 says. -/
theorem createTime_unparsable_formatted {F : Type} (L : Lib F) :
    (∃ post, ParseSNSContent L "<createTime>abc</createTime>".toList = (some post, none) ∧
      post.CreateTime = 0 ∧ post.CreateTimeStr = L.formatTime 0 ∧ post.CreateTimeStr ≠ []) ∧
    (∃ post, ParseSNSContent L "<createTime>99999999999999999999</createTime>".toList =
        (some post, none) ∧
      post.CreateTime = 9223372036854775807 ∧ post.CreateTimeStr ≠ []) ∧
    (∀ x, extractXMLTag x "createTime".toList = [] →
      ∃ post, ParseSNSContent L x = (some post, none) ∧
        post.CreateTime = 0 ∧ post.CreateTimeStr = []) := by
  refine ⟨?_, ?_, ?_⟩
  · obtain ⟨post, hp, -, -, -, -, -, -, -, ht, hs⟩ :=
      ParseSNSContent_fields L "<createTime>abc</createTime>".toList
    have he : extractXMLTag "<createTime>abc</createTime>".toList "createTime".toList =
        "abc".toList := by decide
    have hne : "abc".toList ≠ [] := by decide
    have hv : (ParseInt "abc".toList).1 = 0 := by decide
    rw [he, if_pos hne, hv] at ht hs
    exact ⟨post, hp, ht, hs, hs ▸ L.formatTime_ne_nil 0⟩
  · obtain ⟨post, hp, -, -, -, -, -, -, -, ht, hs⟩ :=
      ParseSNSContent_fields L "<createTime>99999999999999999999</createTime>".toList
    have he : extractXMLTag "<createTime>99999999999999999999</createTime>".toList
        "createTime".toList = "99999999999999999999".toList := by decide
    have hne : "99999999999999999999".toList ≠ [] := by decide
    have hv : (ParseInt "99999999999999999999".toList).1 = 9223372036854775807 := by decide
    rw [he, if_pos hne, hv] at ht hs
    exact ⟨post, hp, ht, hs ▸ L.formatTime_ne_nil _⟩
  · intro x hx
    obtain ⟨post, hp, -, -, -, -, -, -, -, ht, hs⟩ := ParseSNSContent_fields L x
    rw [if_neg (not_not.mpr hx)] at ht hs
    exact ⟨post, hp, ht, hs⟩

/-- C16, amended: `ParseSNSContent` extracts no id, it never assigns `TID`:
for every payload the post that it returns has the id 0, also for a payload
that carries an id tag. -/
theorem ParseSNSContent_TID_zero {F : Type} (L : Lib F) :
    (∀ x, ∃ post, ParseSNSContent L x = (some post, none) ∧ post.TID = 0) ∧
    extractXMLTag "<TimelineObject><id>14234</id></TimelineObject>".toList "id".toList =
      "14234".toList ∧
    ∃ post, ParseSNSContent L "<TimelineObject><id>14234</id></TimelineObject>".toList =
        (some post, none) ∧ post.TID = 0 := by
  have h : ∀ x, ∃ post, ParseSNSContent L x = (some post, none) ∧ post.TID = 0 := by
    intro x
    obtain ⟨post, hp, -, ht, -⟩ := ParseSNSContent_fields L x
    exact ⟨post, hp, ht⟩
  exact ⟨h, by decide, h _⟩

/-- C16 fails: no library record and no payload give a post whose `TID` is
not zero; the post decoded from `<TimelineObject><id>14234</id></TimelineObject>`
has the id 0. -/
theorem ParseSNSContent_TID_counterexample :
    (¬ ∃ (F : Type) (L : Lib F) (x : GoString) (post : SNSPost F),
      ParseSNSContent L x = (some post, none) ∧ post.TID ≠ 0) ∧
    ∃ post, ParseSNSContent unitLib "<TimelineObject><id>14234</id></TimelineObject>".toList =
        (some post, none) ∧ post.TID = 0 := by
  refine ⟨?_, ?_⟩
  · rintro ⟨F, L, x, post, hp, hne⟩
    obtain ⟨post', hp', -, ht, -⟩ := ParseSNSContent_fields L x
    rw [hp] at hp'
    simp only [Prod.mk.injEq, Option.some.injEq, and_true] at hp'
    exact hne (hp' ▸ ht)
  · obtain ⟨post, hp, -, ht, -⟩ :=
      ParseSNSContent_fields unitLib "<TimelineObject><id>14234</id></TimelineObject>".toList
    exact ⟨post, hp, ht⟩

/-! ## The text rendering -/

theorem writeLocation_eq {F : Type} (sb : GoString) (loc : SNSLocation F) :
    writeLocation sb loc =
      sb ++ ("📍 ".toList ++
        (if loc.POIName ≠ [] then
          loc.POIName ++
            (if loc.POIAddress ≠ [] then " (".toList ++ loc.POIAddress ++ ")".toList else [])
         else if loc.City ≠ [] then loc.City
         else []) ++ "\n".toList) := by
  unfold writeLocation
  dsimp only
  split_ifs <;> simp only [List.append_assoc, List.nil_append, List.append_nil]

theorem writeCategory_eq {F : Type} (sb : GoString) (p : SNSPost F) :
    writeCategory sb p = sb ++ categoryLines p := by
  unfold writeCategory categoryLines
  split_ifs
  · rfl
  · cases p.MediaList with
    | nil => rfl
    | cons m l => dsimp only; split_ifs <;> rfl
  · cases p.Article with
    | none => simp
    | some a => simp only [List.append_assoc]
  · cases p.FinderFeed with
    | none => simp
    | some f => dsimp only; split_ifs <;> simp only [List.append_assoc, List.append_nil]
  · simp

theorem FormatAsText_eq {F : Type} (p : SNSPost F) :
    FormatAsText p = headerLines p ++ locationLine p ++ categoryLines p := by
  unfold FormatAsText
  dsimp only
  rw [writeCategory_eq]
  congr 1
  unfold headerLines locationLine
  cases p.Location with
  | none => dsimp only; split_ifs <;> simp only [List.append_assoc, List.nil_append, List.append_nil]
  | some loc =>
    dsimp only
    rw [writeLocation_eq]
    congr 1
    split_ifs <;> simp only [List.append_assoc, List.nil_append, List.append_nil]

/-- C17, as amended: `FormatAsText` writes the leading lines, then the location
line, then the lines of the category. It writes no location line when
`Location` is `nil`, and no category line for an `article` post without
article or a `finder` post without finder feed; an `image` post always gets
its count line, with the count 0 for an empty media list, and a `video` post
with an empty media list gets the plain video line. -/
theorem FormatAsText_lines {F : Type} (p : SNSPost F) :
    FormatAsText p = headerLines p ++ locationLine p ++ categoryLines p ∧
    (p.Location = none → locationLine p = []) ∧
    (p.ContentType = "article".toList → p.Article = none → categoryLines p = []) ∧
    (p.ContentType = "finder".toList → p.FinderFeed = none → categoryLines p = []) ∧
    (p.ContentType = "image".toList →
      categoryLines p = "🖼️ 图片 (".toList ++ formatInt p.MediaList.length ++ "张)\n".toList) ∧
    (p.ContentType = "video".toList → p.MediaList = [] →
      categoryLines p = "🎬 视频\n".toList) := by
  refine ⟨FormatAsText_eq p, ?_, ?_, ?_, ?_, ?_⟩
  · intro h
    unfold locationLine
    rw [h]
  · intro hc ha
    unfold categoryLines
    rw [hc, ha, if_neg (by decide), if_neg (by decide), if_pos rfl]
  · intro hc hf
    unfold categoryLines
    rw [hc, hf, if_neg (by decide), if_neg (by decide), if_neg (by decide), if_pos rfl]
  · intro hc
    unfold categoryLines
    rw [hc, if_pos rfl]
  · intro hc hm
    unfold categoryLines
    rw [hc, hm, if_neg (by decide), if_pos rfl]

/-- C17 as stated fails for the media categories: the post that
`ParseSNSContent` builds from `<type>1</type>` has the category `image`, an
empty media list and no location, and `FormatAsText` writes the count line
`🖼️ 图片 (0张)` for it; the same post with the category `video` gets the line
`🎬 视频`. -/
theorem FormatAsText_empty_media_counterexample :
    ParseSNSContent unitLib "<type>1</type>".toList = (some imagePostWithoutMedia, none) ∧
    imagePostWithoutMedia.ContentType = "image".toList ∧
    imagePostWithoutMedia.MediaList = [] ∧ imagePostWithoutMedia.Location = none ∧
    FormatAsText imagePostWithoutMedia = "📅 \n🖼️ 图片 (0张)\n".toList ∧
    FormatAsText { imagePostWithoutMedia with ContentType := "video".toList } =
      "📅 \n🎬 视频\n".toList :=
  ⟨by rfl, rfl, rfl, rfl, by decide, by decide⟩

/-! ## The serialized form -/

theorem member_always {F : Type} (key : GoString) (empty : Bool) (v : JValue F) :
    (member key false empty v).map Prod.fst = [key] := rfl

theorem member_omitempty {F : Type} (key : GoString) (empty : Bool) (v : JValue F) :
    (member key true empty v).map Prod.fst = if empty then [] else [key] := by
  cases empty <;> rfl

theorem locationMember_keys {F : Type} (J : JSONLib F) (loc : Option (SNSLocation F))
    (ms : List (GoString × JValue F)) (h : locationMember J loc = some ms) :
    ms.map Prod.fst = if loc.isSome then ["location".toList] else [] := by
  cases loc with
  | none =>
    simp only [locationMember, Option.some.injEq] at h
    subst h
    rfl
  | some l =>
    simp only [locationMember, Option.map_eq_some'] at h
    obtain ⟨v, -, rfl⟩ := h
    rfl

/-- The top-level keys of the document of a post. -/
theorem topKeys_marshalPost {F : Type} (J : JSONLib F) (p : SNSPost F) (doc : JValue F)
    (h : marshalPost J p = some doc) :
    topKeys doc =
      ["tid".toList, "user_name".toList, "nickname".toList, "create_time".toList,
        "create_time_str".toList, "content_desc".toList, "content_type".toList] ++
      (if p.Location.isSome then ["location".toList] else []) ++
      (if p.MediaList.length == 0 then [] else ["media_list".toList]) ++
      (if p.Article.isSome then ["article".toList] else []) ++
      (if p.FinderFeed.isSome then ["finder_feed".toList] else []) ++
      (if p.XMLContent == [] then [] else ["xml_content".toList]) := by
  unfold marshalPost at h
  cases hl : locationMember J p.Location with
  | none => rw [hl] at h; cases h
  | some ms =>
    rw [hl] at h
    simp only [Option.some.injEq] at h
    subst h
    have hk := locationMember_keys J p.Location ms hl
    simp only [topKeys, List.map_append, hk, member_always, member_omitempty,
      List.append_assoc, List.cons_append, List.nil_append]
    cases p.Article <;> cases p.FinderFeed <;> rfl

theorem ToJSON_eq_some {F : Type} (J : JSONLib F) (p : SNSPost F) (doc : JValue F) :
    (ToJSON J p).1 = some doc ↔ marshalPost J p = some doc := by
  unfold ToJSON
  cases marshalPost J p <;> simp

theorem ToJSON_of_no_location {F : Type} (J : JSONLib F) (p : SNSPost F)
    (h : p.Location = none) : ∃ doc, ToJSON J p = (some doc, none) := by
  unfold ToJSON marshalPost
  rw [h]
  exact ⟨_, rfl⟩

/-- The coordinates of the location that `parseSNSLocation` returns. -/
theorem parseSNSLocation_coordinates {F : Type} (L : Lib F) (xml : GoString)
    (loc : SNSLocation F) (h : parseSNSLocation L xml = some loc) :
    loc.Latitude =
      (if extractXMLTagAttr xml "location".toList "latitude".toList ≠ [] then
        (L.parseFloat (extractXMLTagAttr xml "location".toList "latitude".toList)).1
       else L.zero) ∧
    loc.Longitude =
      (if extractXMLTagAttr xml "location".toList "longitude".toList ≠ [] then
        (L.parseFloat (extractXMLTagAttr xml "location".toList "longitude".toList)).1
       else L.zero) := by
  unfold parseSNSLocation at h
  dsimp only at h
  split_ifs at h ⊢ <;> simp only [Option.some.injEq] at h <;> subst h <;> exact ⟨rfl, rfl⟩

theorem locationMember_eq_none {F : Type} (J : JSONLib F) (l : Option (SNSLocation F)) :
    locationMember J l = none ↔
      ∃ loc, l = some loc ∧
        ((J.floatIsZero loc.Latitude = false ∧ J.floatSupported loc.Latitude = false) ∨
         (J.floatIsZero loc.Longitude = false ∧ J.floatSupported loc.Longitude = false)) := by
  cases l with
  | none => simp [locationMember]
  | some loc =>
    simp only [locationMember, marshalLocation, Option.map_eq_none', Option.some.injEq,
      exists_eq_left']
    by_cases hc : ((!J.floatIsZero loc.Latitude && !J.floatSupported loc.Latitude) ||
        (!J.floatIsZero loc.Longitude && !J.floatSupported loc.Longitude)) = true
    · rw [if_pos hc]
      simpa using hc
    · rw [if_neg hc]
      constructor
      · intro h
        cases h
      · intro h
        exact absurd (by simpa using h) hc

/-- When `json.MarshalIndent` fails on a post: on a location with a written
coordinate that has no encoding. -/
theorem marshalPost_eq_none {F : Type} (J : JSONLib F) (p : SNSPost F) :
    marshalPost J p = none ↔
      ∃ loc, p.Location = some loc ∧
        ((J.floatIsZero loc.Latitude = false ∧ J.floatSupported loc.Latitude = false) ∨
         (J.floatIsZero loc.Longitude = false ∧ J.floatSupported loc.Longitude = false)) := by
  rw [← locationMember_eq_none]
  unfold marshalPost
  cases locationMember J p.Location with
  | none => simp
  | some ms => simp

theorem ToJSON_eq_none {F : Type} (J : JSONLib F) (p : SNSPost F) (h : marshalPost J p = none) :
    ToJSON J p = (none, some "json: unsupported value".toList) := by
  unfold ToJSON
  rw [h]

theorem ToJSON_of_doc {F : Type} (J : JSONLib F) (p : SNSPost F) (doc : JValue F)
    (h : marshalPost J p = some doc) : ToJSON J p = (some doc, none) := by
  unfold ToJSON
  rw [h]

/-- C18, as amended: `ToJSON(ParseSNSContent(x))` returns an error and no
text exactly when the decoded post has a location one of whose coordinates is
written (it is not zero) and has no JSON encoding, the coordinates being what
`ParseFloat` returns for the `latitude` and `longitude` attribute texts;
otherwise it returns a document whose top-level keys are keys of the field
table or `xml_content`, and `xml_content`, the echo of the raw payload, is
among them exactly when the payload is not empty. -/
theorem ToJSON_keys {F : Type} (L : Lib F) (J : JSONLib F) (x : GoString) :
    ∃ post, ParseSNSContent L x = (some post, none) ∧
      post.Location = parseSNSLocation L x ∧
      (∀ loc, post.Location = some loc →
        loc.Latitude =
          (if extractXMLTagAttr x "location".toList "latitude".toList ≠ [] then
            (L.parseFloat (extractXMLTagAttr x "location".toList "latitude".toList)).1
           else L.zero) ∧
        loc.Longitude =
          (if extractXMLTagAttr x "location".toList "longitude".toList ≠ [] then
            (L.parseFloat (extractXMLTagAttr x "location".toList "longitude".toList)).1
           else L.zero)) ∧
      (((∃ loc, post.Location = some loc ∧
            ((J.floatIsZero loc.Latitude = false ∧ J.floatSupported loc.Latitude = false) ∨
             (J.floatIsZero loc.Longitude = false ∧ J.floatSupported loc.Longitude = false))) ∧
          ∃ err, ToJSON J post = (none, some err)) ∨
       ((¬ ∃ loc, post.Location = some loc ∧
            ((J.floatIsZero loc.Latitude = false ∧ J.floatSupported loc.Latitude = false) ∨
             (J.floatIsZero loc.Longitude = false ∧ J.floatSupported loc.Longitude = false))) ∧
          ∃ doc, ToJSON J post = (some doc, none) ∧
            (∀ k ∈ topKeys doc, k ∈ canonicalKeys ∨ k = "xml_content".toList) ∧
            ("xml_content".toList ∈ topKeys doc ↔ x ≠ []))) := by
  obtain ⟨post, hp, hx, -, hloc, -⟩ := ParseSNSContent_fields L x
  refine ⟨post, hp, hloc, ?_, ?_⟩
  · intro loc hl
    exact parseSNSLocation_coordinates L x loc (hloc.symm.trans hl)
  cases hm : marshalPost J post with
  | none =>
    exact Or.inl ⟨(marshalPost_eq_none J post).mp hm, _, ToJSON_eq_none J post hm⟩
  | some doc =>
    refine Or.inr ⟨?_, doc, ToJSON_of_doc J post doc hm, ?_⟩
    · intro hex
      rw [(marshalPost_eq_none J post).mpr hex] at hm
      cases hm
    have hk := topKeys_marshalPost J post doc hm
    rw [hx] at hk
    rw [hk]
    constructor
    · intro k hk'
      simp only [List.mem_append] at hk'
      rcases hk' with ((((h | h) | h) | h) | h) | h
      · left
        revert h
        simp only [canonicalKeys, List.mem_cons, List.mem_singleton, List.not_mem_nil, or_false]
        tauto
      · left
        split_ifs at h
        · rw [List.mem_singleton.mp h]; decide
        · cases h
      · left
        split_ifs at h
        · cases h
        · rw [List.mem_singleton.mp h]; decide
      · left
        split_ifs at h
        · rw [List.mem_singleton.mp h]; decide
        · cases h
      · left
        split_ifs at h
        · rw [List.mem_singleton.mp h]; decide
        · cases h
      · right
        split_ifs at h
        · cases h
        · exact List.mem_singleton.mp h
    · have e : ∀ k ∈ ["tid".toList, "user_name".toList, "nickname".toList,
          "create_time".toList, "create_time_str".toList, "content_desc".toList,
          "content_type".toList, "location".toList, "media_list".toList, "article".toList,
          "finder_feed".toList], "xml_content".toList ≠ k := by decide
      constructor
      · intro hmem hxe
        simp only [List.mem_append] at hmem
        rcases hmem with ((((h | h) | h) | h) | h) | h
        · exact absurd rfl (e _ (List.mem_append_left _ h))
        · split_ifs at h
          · exact e _ (by decide) (List.mem_singleton.mp h)
          · cases h
        · split_ifs at h
          · cases h
          · exact e _ (by decide) (List.mem_singleton.mp h)
        · split_ifs at h
          · exact e _ (by decide) (List.mem_singleton.mp h)
          · cases h
        · split_ifs at h
          · exact e _ (by decide) (List.mem_singleton.mp h)
          · cases h
        · rw [hxe] at h
          simp at h
      · intro hne
        apply List.mem_append_right
        have : (x == []) = false := by
          cases x with
          | nil => exact absurd rfl hne
          | cons c t => rfl
        rw [this]
        simp

/-- C18, as amended, at a payload whose location has the latitude `NaN`: under
every library with the facts of `float64`, and the sample library is one,
`ToJSON` returns an error and no document for the decoded post. -/
theorem ToJSON_keys_witness :
    (∀ (F : Type) (L : Lib F) (J : JSONLib F), FloatFacts L J →
      ∃ post err,
        ParseSNSContent L "<location city=\"X\" latitude=\"NaN\"/>".toList = (some post, none) ∧
        ToJSON J post = (none, some err)) ∧
    FloatFacts sampleLib sampleJSONLib ∧
    ∃ post err,
      ParseSNSContent sampleLib "<location city=\"X\" latitude=\"NaN\"/>".toList =
        (some post, none) ∧
      ToJSON sampleJSONLib post = (none, some err) := by
  have hall : ∀ (F : Type) (L : Lib F) (J : JSONLib F), FloatFacts L J →
      ∃ post err,
        ParseSNSContent L "<location city=\"X\" latitude=\"NaN\"/>".toList = (some post, none) ∧
        ToJSON J post = (none, some err) := by
    intro F L J K
    obtain ⟨post, hp, hloc, hcoord, hcases⟩ :=
      ToJSON_keys L J "<location city=\"X\" latitude=\"NaN\"/>".toList
    rcases hcases with ⟨-, err, herr⟩ | ⟨hno, -⟩
    · exact ⟨post, err, hp, herr⟩
    · exfalso
      apply hno
      have hcity : locationCity "<location city=\"X\" latitude=\"NaN\"/>".toList ≠ [] := by
        decide
      have hlat : extractXMLTagAttr "<location city=\"X\" latitude=\"NaN\"/>".toList
          "location".toList "latitude".toList = "NaN".toList := by decide
      cases hl : post.Location with
      | none =>
        rw [hl] at hloc
        exact absurd ((parseSNSLocation_eq_none L _).mp hloc.symm).1 hcity
      | some loc =>
        obtain ⟨v, hv, hs, hz, -⟩ := K.parseFloat_NaN
        have hla := (hcoord loc hl).1
        rw [hlat, if_pos (by decide), hv] at hla
        refine ⟨loc, rfl, Or.inl ?_⟩
        rw [hla]
        exact ⟨hz, hs⟩
  exact ⟨hall, sampleFacts, hall _ _ _ sampleFacts⟩

/-- C18 as stated fails on every payload that is not empty: the document of
the post decoded from `<type>1</type>` has the key `xml_content`, next to
keys of the field table. -/
theorem ToJSON_xml_content_counterexample :
    ParseSNSContent unitLib "<type>1</type>".toList = (some imagePostWithoutMedia, none) ∧
    ∃ doc, ToJSON unitJSONLib imagePostWithoutMedia = (some doc, none) ∧
      topKeys doc =
        ["tid".toList, "user_name".toList, "nickname".toList, "create_time".toList,
          "create_time_str".toList, "content_desc".toList, "content_type".toList,
          "xml_content".toList] ∧
      "xml_content".toList ∈ topKeys doc :=
  ⟨by rfl, _, rfl, by decide, by decide⟩

/-! ## The category tag -/

theorem append_cons_inj_first {a : Char} :
    ∀ {x₁ x₂ z₁ z₂ : GoString}, a ∉ x₁ → a ∉ x₂ → x₁ ++ a :: z₁ = x₂ ++ a :: z₂ →
      x₁ = x₂ ∧ z₁ = z₂ := by
  intro x₁
  induction x₁ with
  | nil =>
    intro x₂ z₁ z₂ _ h2 h
    cases x₂ with
    | nil => simpa using h
    | cons b x₂ =>
      simp only [List.nil_append, List.cons_append, List.cons.injEq] at h
      exact absurd (h.1 ▸ List.mem_cons_self _ _) h2
  | cons c x₁ ih =>
    intro x₂ z₁ z₂ h1 h2 h
    cases x₂ with
    | nil =>
      simp only [List.nil_append, List.cons_append, List.cons.injEq] at h
      exact absurd (h.1 ▸ List.mem_cons_self _ _) h1
    | cons b x₂ =>
      simp only [List.cons_append, List.cons.injEq] at h
      obtain ⟨e1, e2⟩ := ih (fun hm => h1 (List.mem_cons_of_mem _ hm))
        (fun hm => h2 (List.mem_cons_of_mem _ hm)) h.2
      exact ⟨by rw [h.1, e1], e2⟩

/-- The leftmost plain occurrence decides the result of `extractXMLTag`. -/
theorem extractXMLTag_of_leftmost {xml t pre inner rest : GoString}
    (h : PlainOcc t xml pre inner rest)
    (hl : ∀ pre' inner' rest', PlainOcc t xml pre' inner' rest' → pre.length ≤ pre'.length) :
    extractXMLTag xml t = TrimSpace inner := by
  cases hs : search (plainTagRe t) xml with
  | none => exact absurd h (search_plainTagRe_eq_none.mp hs pre inner rest)
  | some wgr =>
    obtain ⟨w, g, r⟩ := wgr
    obtain ⟨pre0, hocc0, hleft0⟩ := search_plainTagRe_eq_some hs
    have hlen : pre.length = pre0.length :=
      Nat.le_antisymm (hl _ _ _ hocc0) (hleft0 _ _ _ h)
    obtain ⟨hx, hi⟩ := h
    obtain ⟨hx0, hg⟩ := hocc0
    have hcl : ∀ u : GoString, closeTag t ++ u = '<' :: ("/".toList ++ t ++ ">".toList ++ u) := by
      intro u; simp [closeTag]
    have e := List.append_inj (hx.symm.trans hx0) hlen
    have e2 : inner ++ '<' :: ("/".toList ++ t ++ ">".toList ++ rest) =
        g ++ '<' :: ("/".toList ++ t ++ ">".toList ++ r) := by
      have := e.2
      simp only [List.append_assoc, List.append_cancel_left_eq] at this
      rw [hcl rest, hcl r] at this
      exact this
    have e3 := append_cons_inj_first hi hg e2
    rw [extractXMLTag_of_plain hs, e3.1]

/-- C19: the category of the post is read from the result of
`extractXMLTag(x, "type")`, so from the leftmost plain `<type>…</type>`
occurrence of the payload wherever it stands; in
`<media><type>2</type></media><type>1</type>` the tag inside the media block
comes first and the post is a `text` post with an empty media list. -/
theorem ParseSNSContent_category_tag {F : Type} (L : Lib F) (x : GoString) :
    (∃ post, ParseSNSContent L x = (some post, none) ∧
      post.ContentType = parseSNSContentType (extractXMLTag x "type".toList) ∧
      ∀ pre inner rest, PlainOcc "type".toList x pre inner rest →
        (∀ pre' inner' rest', PlainOcc "type".toList x pre' inner' rest' →
          pre.length ≤ pre'.length) →
        post.ContentType = parseSNSContentType (TrimSpace inner)) ∧
    extractXMLTag "<media><type>2</type></media><type>1</type>".toList "type".toList =
      "2".toList ∧
    ∃ post, ParseSNSContent L "<media><type>2</type></media><type>1</type>".toList =
        (some post, none) ∧
      post.ContentType = "text".toList ∧ post.MediaList = [] := by
  refine ⟨?_, by decide, ?_⟩
  · obtain ⟨post, hp, -, -, -, hc, -⟩ := ParseSNSContent_fields L x
    refine ⟨post, hp, hc, ?_⟩
    intro pre inner rest hocc hleft
    rw [hc, extractXMLTag_of_leftmost hocc hleft]
  · obtain ⟨post, hp, -, -, -, hc, hm, -⟩ :=
      ParseSNSContent_fields L "<media><type>2</type></media><type>1</type>".toList
    have ht : parseSNSContentType
        (extractXMLTag "<media><type>2</type></media><type>1</type>".toList "type".toList) =
        "text".toList := by decide
    rw [ht] at hc hm
    refine ⟨post, hp, hc, ?_⟩
    rw [hm, if_neg (by decide), if_neg (by decide)]

end SNS
